import Mathlib

/-!
# SmartArgs: a shallow embedding of `smartargs.c`

The parser engine `cli_parse` of `smartargs.c` and its helpers, as Lean
functions, and the properties of the specification proved about them.

Modelling conventions.

* A C string is the list of its characters before the terminating NUL
  (`CStr`); a `char *` that may be `NULL` is an `Option CStr`.  A Lean `Char`
  stands for one C `char`.  Strings handed to the parser contain no NUL
  character (`NulFree`), as every C string does.
* The caller-owned variables the descriptors point to live in a memory `Mem`
  with one address space per C type (`int`, `double`, `const char *`); the
  `void *value` of a descriptor is an address in the space its `type` selects.
* `strtol` is modelled from ISO C (base 10, "C" locale, 64-bit `long`);
  `strtod` and the success of `realloc` are parameters (`Libc`).
* `int` return codes are `Int`; the loop of `cli_parse` is `scanLoop`, a
  structural recursion over the tokens `argv[i..argc)` still to be read, whose
  body is `step`.
* Splitting `--name=value` overwrites the `=` in the token's buffer with NUL.
  Tokens are immutable here: every token has a buffer of its own and
  `cli_parse` does not read a token again after it has split it.
* `OptionType` has its four enumerators only, so the `default:` branch of
  `set_value` has no counterpart.
* `cli_usage` is the text it writes to standard output, the `printf` calls
  concatenated in order.
-/

namespace SmartArgs

/-! ## Data model (`smartargs.h`) -/

/-- C string: the characters before the terminating NUL. -/
abbrev CStr := List Char

/-- Token of `argv`: a `char *`, possibly `NULL`. -/
abbrev Tok := Option CStr

/-- Well-formed C string: no NUL character inside. -/
def NulFree (s : CStr) : Prop := '\x00' ∉ s

instance (s : CStr) : Decidable (NulFree s) := by unfold NulFree; infer_instance

/-- Enumeration `OptionType` of `smartargs.h`. -/
inductive OptionType where
  | OPT_FLAG
  | OPT_INT
  | OPT_STRING
  | OPT_DOUBLE
deriving DecidableEq, Repr

/-- Value of C type `double`, kept as its bit pattern (never inspected). -/
structure Double where
  bits : Nat
deriving DecidableEq, Repr

/-- Struct `Option` of `smartargs.h` (named `Opt`, `Option` being taken).
`short_name` is a `char`, NUL when the descriptor has no short name; `value`
is the address of the caller's variable; `required` is the truth value of the
C `int`. -/
structure Opt where
  long_name : Option CStr
  short_name : Char
  type : OptionType
  value : Nat
  help : Option CStr
  required : Bool
deriving DecidableEq, Repr

/-- Struct `ParseResult` of `smartargs.h`: `args` is `NULL` or the allocated
array of positionals, `error` is `NULL` or a diagnostic. -/
structure ParseResult where
  args : Option (List Tok)
  arg_count : Int
  error : Option String
deriving DecidableEq, Repr

/-- Caller-owned variables, one address space per C type. -/
structure Mem where
  ints : Nat → Int
  dbls : Nat → Double
  strs : Nat → Option CStr

/-- Store through an `int *`. -/
def Mem.setInt (m : Mem) (a : Nat) (v : Int) : Mem :=
  { m with ints := fun b => if b = a then v else m.ints b }

/-- Store through a `double *`. -/
def Mem.setDbl (m : Mem) (a : Nat) (v : Double) : Mem :=
  { m with dbls := fun b => if b = a then v else m.dbls b }

/-- Store through a `const char **`. -/
def Mem.setStr (m : Mem) (a : Nat) (v : Option CStr) : Mem :=
  { m with strs := fun b => if b = a then v else m.strs b }

/-- What `cli_parse` reads and writes: the result structure and the caller's
variables. -/
structure State where
  result : ParseResult
  mem : Mem

/-- Assignment `result->error = msg`. -/
def State.setError (st : State) (msg : String) : State :=
  { st with result := { st.result with error := some msg } }

/-! ## The C library -/

/-- Result of `strtod`: the value, the string at `*end`, and whether `errno`
was set to `ERANGE`. -/
structure StrtodResult where
  val : Double
  endp : CStr
  erange : Bool

/-- Parts of the C library the parser is parametric in: `strtod`, and whether
`realloc` to a given number of `char *` elements succeeds. -/
structure Libc where
  strtod : CStr → StrtodResult
  realloc : Int → Bool

/-- Macro `INT_MAX` of `limits.h`. -/
def INT_MAX : Int := 2147483647
/-- Macro `INT_MIN` of `limits.h`. -/
def INT_MIN : Int := -2147483648
/-- Macro `LONG_MAX` of `limits.h` (64-bit `long`). -/
def LONG_MAX : Int := 9223372036854775807
/-- Macro `LONG_MIN` of `limits.h` (64-bit `long`). -/
def LONG_MIN : Int := -9223372036854775808

/-- Function `isspace` in the "C" locale. -/
def isspace (c : Char) : Bool :=
  c = ' ' ∨ c = '\t' ∨ c = '\n' ∨ c = '\x0b' ∨ c = '\x0c' ∨ c = '\r'

/-- Function `isdigit`. -/
def isdigit (c : Char) : Bool := 48 ≤ c.toNat ∧ c.toNat ≤ 57

/-- Value of a run of decimal digits, most significant first. -/
def digitsValue (ds : List Char) : Nat :=
  ds.foldl (fun a c => 10 * a + (c.toNat - 48)) 0

/-- Result of `strtol`: the value, the string at `*end`, and whether `errno`
was set to `ERANGE`. -/
structure StrtolResult where
  val : Int
  endp : CStr
  erange : Bool
deriving DecidableEq, Repr

/-- Function `strtol(nptr, &end, 10)` of ISO C: skip white space, read an
optional sign and the longest run of digits; with no digit nothing is
converted and `end = nptr`; a value outside `long` is clamped with `ERANGE`. -/
def strtol (nptr : CStr) : StrtolResult :=
  let s := nptr.dropWhile isspace
  let neg : Bool := s.head? = some '-'
  let t := match s with
    | '-' :: t => t
    | '+' :: t => t
    | _ => s
  let ds := t.takeWhile isdigit
  if ds = [] then ⟨0, nptr, false⟩
  else
    let v : Int := if neg then -(digitsValue ds : Int) else (digitsValue ds : Int)
    if v > LONG_MAX then ⟨LONG_MAX, t.dropWhile isdigit, true⟩
    else if v < LONG_MIN then ⟨LONG_MIN, t.dropWhile isdigit, true⟩
    else ⟨v, t.dropWhile isdigit, false⟩

/-- Function `strchr(s, c)` for `c` other than NUL: the string from the first
`c` on, or `NULL`. -/
def strchr : CStr → Char → Option CStr
  | [], _ => none
  | x :: xs, c => if x = c then some (x :: xs) else strchr xs c

/-- Character `s[i]` of a C string, the terminating NUL at its end. -/
def cAt (s : CStr) (i : Nat) : Char := s.getD i '\x00'

/-! ## `smartargs.c` -/

/-- Function `find_long_option`: the first descriptor whose `long_name` is
present and equal to `name`. -/
def find_long_option : List Opt → CStr → Option Opt
  | [], _ => none
  | o :: os, name =>
    if o.long_name = some name then some o else find_long_option os name

/-- Function `find_short_option`: the first descriptor whose `short_name` is
`name`. -/
def find_short_option : List Opt → Char → Option Opt
  | [], _ => none
  | o :: os, name =>
    if o.short_name = name then some o else find_short_option os name

/-- Function `set_value`: coerce `value` for the descriptor's type and store
it; the return code and the state left. -/
def set_value (lc : Libc) (opt : Opt) (value : Option CStr) (st : State) :
    Int × State :=
  match opt.type with
  | .OPT_FLAG => (0, { st with mem := st.mem.setInt opt.value 1 })
  | .OPT_INT =>
    match value with
    | none => (-1, st.setError "Integer option requires a value")
    | some v =>
      let r := strtol v
      if r.erange ∨ r.val > INT_MAX ∨ r.val < INT_MIN then
        (-1, st.setError "Integer value out of range")
      else if r.endp ≠ [] then
        (-1, st.setError "Invalid integer value")
      else (0, { st with mem := st.mem.setInt opt.value r.val })
  | .OPT_DOUBLE =>
    match value with
    | none => (-1, st.setError "Double option requires a value")
    | some v =>
      let r := lc.strtod v
      if r.erange then (-1, st.setError "Double value out of range")
      else if r.endp ≠ [] then (-1, st.setError "Invalid double value")
      else (0, { st with mem := st.mem.setDbl opt.value r.val })
  | .OPT_STRING =>
    match value with
    | none => (-1, st.setError "String option requires a value")
    | some v => (0, { st with mem := st.mem.setStr opt.value (some v) })

/-- Function `add_positional`: grow the array by one element and store `arg`
in it, or fail when `realloc` does. -/
def add_positional (lc : Libc) (result : ParseResult) (arg : Tok) :
    Int × ParseResult :=
  if lc.realloc (result.arg_count + 1) then
    (0, { result with
            args := some (result.args.getD [] ++ [arg])
            arg_count := result.arg_count + 1 })
  else (-1, { result with error := some "Memory allocation failed" })

/-- Inner loop of `cli_parse` after the `--` marker: every remaining token is
added as a positional, stopping at the first failure. -/
def add_rest (lc : Libc) : List Tok → ParseResult → Int × ParseResult
  | [], r => (0, r)
  | a :: rest, r =>
    if (add_positional lc r a).1 ≠ 0 then (-1, (add_positional lc r a).2)
    else add_rest lc rest (add_positional lc r a).2

/-- How the token loop of `cli_parse` ends: by a `return` with a code, or by
leaving the loop (at its end or by `break`). -/
inductive Scan where
  | ret (code : Int) (st : State)
  | done (st : State)

/-- How one pass through the body of the token loop ends: by `return`, by
`break`, at the end of the body with `i` as it was (`next`), or at the end of
the body after `++i` has taken the following token as a value (`skip`). -/
inductive Step where
  | ret (code : Int) (st : State)
  | brk (st : State)
  | next (st : State)
  | skip (st : State)

/-- Body of the token loop of `cli_parse`, for the token `tok = argv[i]` with
the tokens `rest = argv[i+1..argc)` after it. -/
def step (lc : Libc) (options : List Opt) (tok : Tok) (rest : List Tok) (st : State) :
    Step :=
  match tok with
  | none => .ret (-1) (st.setError "NULL argument encountered")
  | some arg =>
    if arg = ['-', '-'] then
      if (add_rest lc rest st.result).1 ≠ 0 then
        .ret (-1) { st with result := (add_rest lc rest st.result).2 }
      else .brk { st with result := (add_rest lc rest st.result).2 }
    else if cAt arg 0 = '-' ∧ cAt arg 1 = '-' ∧ cAt arg 2 ≠ '\x00' then
      let value : Option CStr := (strchr (arg.drop 2) '=').map (List.drop 1)
      let name : CStr := (arg.drop 2).takeWhile (fun c => c ≠ '=')
      match find_long_option options name with
      | none => .ret (-1) (st.setError "Unknown option")
      | some opt =>
        if opt.type = .OPT_FLAG then
          if value.isSome then
            .ret (-1) (st.setError "Flag option does not accept a value")
          else .next { st with mem := st.mem.setInt opt.value 1 }
        else
          match value with
          | some v =>
            if (set_value lc opt (some v) st).1 ≠ 0 then
              .ret (-1) (set_value lc opt (some v) st).2
            else .next (set_value lc opt (some v) st).2
          | none =>
            match rest with
            | [] => .ret (-1) (st.setError "Option requires a value")
            | v :: _ =>
              if (set_value lc opt v st).1 ≠ 0 then
                .ret (-1) (set_value lc opt v st).2
              else .skip (set_value lc opt v st).2
    else if cAt arg 0 = '-' ∧ cAt arg 1 ≠ '\x00' ∧ cAt arg 1 ≠ '-' then
      match find_short_option options (cAt arg 1) with
      | none => .ret (-1) (st.setError "Unknown option")
      | some opt =>
        if opt.type = .OPT_FLAG then
          .next { st with mem := st.mem.setInt opt.value 1 }
        else
          match rest with
          | [] => .ret (-1) (st.setError "Option requires a value")
          | v :: _ =>
            if (set_value lc opt v st).1 ≠ 0 then
              .ret (-1) (set_value lc opt v st).2
            else .skip (set_value lc opt v st).2
    else
      if (add_positional lc st.result (some arg)).1 ≠ 0 then
        .ret (-1) { st with result := (add_positional lc st.result (some arg)).2 }
      else .next { st with result := (add_positional lc st.result (some arg)).2 }

/-- Token loop of `cli_parse` over the tokens `argv[i..argc)`: the body is run
on the first token, and the loop goes on with the tokens after it, or after
its value (`skip` only arises when there is a following token). -/
def scanLoop (lc : Libc) (options : List Opt) : List Tok → State → Scan
  | [], st => .done st
  | tok :: rest, st =>
    match step lc options tok rest st with
    | .ret code s => .ret code s
    | .brk s => .done s
    | .next s => scanLoop lc options rest s
    | .skip s =>
      match rest with
      | [] => .done s
      | _ :: rest2 => scanLoop lc options rest2 s

/-- First loop after the scan: whether a Flag descriptor named `help` or `h`
has a non-zero storage. -/
def help_requested (options : List Opt) (mem : Mem) : Bool :=
  options.any fun o =>
    decide (o.type = .OPT_FLAG) &&
    (decide (o.long_name = some ['h', 'e', 'l', 'p']) || decide (o.short_name = 'h')) &&
    decide (mem.ints o.value ≠ 0)

/-- The `switch` of the required check: whether a descriptor counts as set. -/
def is_set (o : Opt) (mem : Mem) : Bool :=
  match o.type with
  | .OPT_FLAG => decide (mem.ints o.value ≠ 0)
  | .OPT_STRING => decide (mem.strs o.value ≠ none)
  | .OPT_INT => true
  | .OPT_DOUBLE => true

/-- Second loop after the scan: every required descriptor counts as set. -/
def required_ok (options : List Opt) (mem : Mem) : Bool :=
  options.all fun o => !o.required || is_set o mem

/-- The result structure after `memset(result, 0, sizeof(ParseResult))`. -/
def ParseResult.zero : ParseResult := ⟨none, 0, none⟩

/-- What a call of `cli_parse` leaves: the return code, the result structure
(absent when the `result` pointer is `NULL`) and the caller's variables. -/
structure Ret where
  code : Int
  result : Option ParseResult
  mem : Mem

/-- Part of `cli_parse` after the token loop: a `return` inside the loop is
final; otherwise the help check and the required check decide. -/
def post_scan (options : List Opt) : Scan → Ret
  | .ret code st => ⟨code, some st.result, st.mem⟩
  | .done st =>
    if help_requested options st.mem then ⟨0, some st.result, st.mem⟩
    else if required_ok options st.mem then ⟨0, some st.result, st.mem⟩
    else ⟨-1, some { st.result with error := some "Required option missing" }, st.mem⟩

/-- Function `cli_parse`.  `argv`, `options` and `result` are pointers that
may be `NULL`; the arrays hold at least `argc` and `option_count` elements. -/
def cli_parse (lc : Libc) (argc : Int) (argv : Option (List Tok))
    (options : Option (List Opt)) (option_count : Int)
    (result : Option ParseResult) (mem : Mem) : Ret :=
  match argv, options, result with
  | some av, some os, some r =>
    if argc < 0 ∨ option_count < 0 then
      ⟨-1, some { r with error := some "Invalid arguments" }, mem⟩
    else
      post_scan (os.take option_count.toNat)
        (scanLoop lc (os.take option_count.toNat) ((av.take argc.toNat).drop 1)
          ⟨ParseResult.zero, mem⟩)
  | _, _, some r => ⟨-1, some { r with error := some "Invalid arguments" }, mem⟩
  | _, _, none => ⟨-1, none, mem⟩

/-- Function `cli_free`. -/
def cli_free (result : Option ParseResult) : Option ParseResult :=
  match result with
  | some r => if r.args.isSome then some { r with args := none, arg_count := 0 } else some r
  | none => none


/-- The `switch` of `cli_usage`: the type hint written after a long name. -/
def type_hint : OptionType → CStr
  | .OPT_INT => " <num>".toList
  | .OPT_DOUBLE => " <float>".toList
  | .OPT_STRING => " <string>".toList
  | .OPT_FLAG => []

/-- Body of the loop of `cli_usage`: the text written for one descriptor. -/
def usage_block (o : Opt) : CStr :=
  "  ".toList ++
  (if o.short_name ≠ '\x00' then
    ['-', o.short_name] ++ (if o.long_name.isSome then ", ".toList else [])
  else "    ".toList) ++
  (match o.long_name with
    | some n => "--".toList ++ n ++ type_hint o.type
    | none => []) ++
  (if o.required then " (required)".toList else []) ++
  (match o.help with
    | some h => "\n      ".toList ++ h
    | none => []) ++
  "\n".toList

/-- Function `cli_usage`: the text it writes to standard output. -/
def cli_usage (program_name : Option CStr) (options : List Opt) (option_count : Int)
    (description : Option CStr) : CStr :=
  "Usage: ".toList ++
  (match program_name with
    | some p => p
    | none => "program".toList) ++
  " [options] [arguments]\n".toList ++
  (match description with
    | some d => "\n".toList ++ d ++ "\n".toList
    | none => []) ++
  (if option_count > 0 then
    "\nOptions:\n".toList ++ ((options.take option_count.toNat).map usage_block).flatten
  else [])

/-! ## Vocabulary of the specification -/

/-- A well-formed call of `cli_parse`: `argc` and `option_count` are the
lengths of the arrays, and `r0` is what the result structure held before. -/
def parse (lc : Libc) (opts : List Opt) (argv : List Tok) (r0 : ParseResult)
    (mem : Mem) : Ret :=
  cli_parse lc argv.length (some argv) (some opts) opts.length (some r0) mem

/-- State in which the token loop starts: the zeroed result and the caller's
variables. -/
def State.init (mem : Mem) : State := ⟨ParseResult.zero, mem⟩

/-- How `cli_parse` goes on when its loop stands before the tokens `toks` in
state `st`. -/
def resume (lc : Libc) (opts : List Opt) (toks : List Tok) (st : State) : Ret :=
  post_scan opts (scanLoop lc opts toks st)

/-- The positional list of a result: the elements of `args`, none when it is
`NULL`. -/
def ParseResult.positionals (r : ParseResult) : List Tok := r.args.getD []

/-- The state a scan ends in, whichever way it ends. -/
def Scan.state : Scan → State
  | .ret _ st => st
  | .done st => st

/-- Token `--name`. -/
def longTok (name : CStr) : Tok := some ('-' :: '-' :: name)

/-- Token `--name=value`. -/
def longEqTok (name value : CStr) : Tok := some ('-' :: '-' :: (name ++ '=' :: value))

/-- Token `-c` followed by the characters `cs`. -/
def shortTok (c : Char) (cs : CStr) : Tok := some ('-' :: c :: cs)

/-- A long name that a token `--name` can carry: not empty (that token would
be the `--` marker), without `=` (where the token is split) and without NUL. -/
def LongName (n : CStr) : Prop := n ≠ [] ∧ '=' ∉ n ∧ NulFree n

instance (n : CStr) : Decidable (LongName n) := by unfold LongName; infer_instance

/-- A short name that a token `-c` can carry: neither NUL nor `-`. -/
def ShortName (c : Char) : Prop := c ≠ '\x00' ∧ c ≠ '-'

instance (c : Char) : Decidable (ShortName c) := by unfold ShortName; infer_instance

/-- `o` is the descriptor of the table with long name `n`, and the only one
(long names are unique within a table). -/
def IsLong (opts : List Opt) (n : CStr) (o : Opt) : Prop :=
  o ∈ opts ∧ o.long_name = some n ∧ ∀ p ∈ opts, p.long_name = some n → p = o

instance (opts : List Opt) (n : CStr) (o : Opt) : Decidable (IsLong opts n o) := by
  unfold IsLong; infer_instance

/-- `o` is the descriptor of the table with short name `c`, and the only one
(short names are unique within a table). -/
def IsShort (opts : List Opt) (c : Char) (o : Opt) : Prop :=
  o ∈ opts ∧ o.short_name = c ∧ ∀ p ∈ opts, p.short_name = c → p = o

instance (opts : List Opt) (c : Char) (o : Opt) : Decidable (IsShort opts c o) := by
  unfold IsShort; infer_instance

/-- The result after the tokens `toks` have been appended to its positional
list (nothing is allocated when there is none to append). -/
def ParseResult.append (r : ParseResult) (toks : List Tok) : ParseResult :=
  match toks with
  | [] => r
  | _ :: _ =>
    { r with args := some (r.positionals ++ toks), arg_count := r.arg_count + toks.length }

/-- The digits of a decimal numeral: what follows its optional sign. -/
def digitsOf (v : CStr) : CStr :=
  match v with
  | '-' :: ds => ds
  | '+' :: ds => ds
  | _ => v

/-- A decimal numeral: an optional sign followed by one or more decimal digits
and nothing else. -/
def IsNumeral (v : CStr) : Prop :=
  digitsOf v ≠ [] ∧ ∀ c ∈ digitsOf v, isdigit c = true

instance (v : CStr) : Decidable (IsNumeral v) := by unfold IsNumeral; infer_instance

/-- The natural number a string of decimal digits denotes: each digit weighs
ten to the number of digits after it. -/
def decimalValue : List Char → Nat
  | [] => 0
  | c :: cs => (c.toNat - 48) * 10 ^ cs.length + decimalValue cs

/-- The integer a decimal numeral denotes. -/
def numeralValue (v : CStr) : Int :=
  if v.head? = some '-' then -(decimalValue (digitsOf v) : Int)
  else (decimalValue (digitsOf v) : Int)

/-- The decimal numeral at the start of `v`: an optional sign and the digits
that follow it; empty when no digit stands there. -/
def leadingNumeral (v : CStr) : CStr :=
  match v with
  | '-' :: t => if t.takeWhile isdigit = [] then [] else '-' :: t.takeWhile isdigit
  | '+' :: t => if t.takeWhile isdigit = [] then [] else '+' :: t.takeWhile isdigit
  | _ => v.takeWhile isdigit

/-- `v` has a non-numeric character after its (possibly empty) leading decimal
numeral. -/
def HasTrailingNonNumeric (v : CStr) : Prop :=
  ∃ c junk, v = leadingNumeral v ++ c :: junk ∧ isdigit c = false

/-- `v` does not begin with a white-space character. -/
def NoLeadingSpace (v : CStr) : Prop := ∀ c ∈ v.head?, isspace c = false

instance (v : CStr) : Decidable (NoLeadingSpace v) := by
  unfold NoLeadingSpace; infer_instance

/-- The tokens `toks` supply the string `v` as the value of the descriptor `o`
of the table: `--n` followed by `v`, the single token `--n=v`, or `-c` (with
any characters attached) followed by `v`. -/
def Supplies (opts : List Opt) (o : Opt) (v : CStr) (toks : List Tok) : Prop :=
  (∃ n, LongName n ∧ IsLong opts n o ∧ toks = [longTok n, some v]) ∨
  (∃ n, '=' ∉ n ∧ NulFree n ∧ IsLong opts n o ∧ toks = [longEqTok n v]) ∨
  (∃ c cs, ShortName c ∧ IsShort opts c o ∧ toks = [shortTok c cs, some v])

/-- The C types a descriptor's variable can have. -/
inductive Kind where
  | int
  | dbl
  | str
deriving DecidableEq, Repr

/-- The C type of the variable a descriptor points to: `int` for Flag and
Integer, `double` for Float, `const char *` for Text. -/
def Opt.kind (o : Opt) : Kind :=
  match o.type with
  | .OPT_FLAG => .int
  | .OPT_INT => .int
  | .OPT_DOUBLE => .dbl
  | .OPT_STRING => .str

/-- The variable a descriptor points to: its type and address. -/
def Opt.storage (o : Opt) : Kind × Nat := (o.kind, o.value)

/-- Exclusive storage: no two descriptors of the table point to the same
variable. -/
def StoragesDistinct (opts : List Opt) : Prop :=
  opts.Pairwise fun a b => a.storage ≠ b.storage

instance (opts : List Opt) : Decidable (StoragesDistinct opts) := by
  unfold StoragesDistinct; infer_instance

/-- The memories `m` and `m2` hold the same value in the variable `s`. -/
def Mem.sameAt (m m2 : Mem) (s : Kind × Nat) : Prop :=
  match s.1 with
  | .int => m.ints s.2 = m2.ints s.2
  | .dbl => m.dbls s.2 = m2.dbls s.2
  | .str => m.strs s.2 = m2.strs s.2

/-- The token names the descriptor `o`: it is `--n` or `--n=...` with `n` the
long name of `o`, or `-c...` with `c` its short name. -/
def mentions (o : Opt) (tok : Tok) : Bool :=
  match tok with
  | some ('-' :: '-' :: body) =>
    decide (o.long_name = some (body.takeWhile fun c => c ≠ '='))
  | some ('-' :: c :: _) => decide (o.short_name = c)
  | _ => false

/-- The state a pass through the loop body leaves, whichever way it ends. -/
def Step.state : Step → State
  | .ret _ st => st
  | .brk st => st
  | .next st => st
  | .skip st => st

/-- The scan of exactly the tokens `pre` from state `st`: the state in which
the loop stands before the token that follows `pre`, or nothing when a token
of `pre` makes `cli_parse` return, is the `--` marker, or is a value-bearing
option whose value would be the token after `pre`. -/
def scanPre (lc : Libc) (options : List Opt) : List Tok → State → Option State
  | [], st => some st
  | tok :: rest, st =>
    match step lc options tok rest st with
    | .ret _ _ => none
    | .brk _ => none
    | .next s => scanPre lc options rest s
    | .skip s =>
      match rest with
      | [] => none
      | _ :: rest2 => scanPre lc options rest2 s

/-- The option token `tok` matches the descriptor `o`: it is `--n` or
`--n=...` with `n` (not empty) the long name of `o`, or `-c...` with `c` (not
`-`) the short name of `o`. -/
def matchedBy (o : Opt) (tok : Tok) : Bool :=
  match tok with
  | some ('-' :: '-' :: c :: body) =>
    decide (c ≠ '\x00' ∧ o.long_name = some ((c :: body).takeWhile fun x => x ≠ '='))
  | some ('-' :: c :: _) => decide (c ≠ '-' ∧ c ≠ '\x00' ∧ o.short_name = c)
  | _ => false

/-- `o` is the first descriptor in table order that the token matches. -/
def FirstMatch (opts : List Opt) (tok : Tok) (o : Opt) : Prop :=
  ∃ l1 l2, opts = l1 ++ o :: l2 ∧ matchedBy o tok = true ∧ ∀ p ∈ l1, matchedBy p tok = false

/-- The descriptor the loop body looks up for a token, if it looks one up and
finds it: by long name for a long option token, by short name for a short
one. -/
def lookup (options : List Opt) (tok : Tok) : Option Opt :=
  match tok with
  | none => none
  | some arg =>
    if arg = ['-', '-'] then none
    else if cAt arg 0 = '-' ∧ cAt arg 1 = '-' ∧ cAt arg 2 ≠ '\x00' then
      find_long_option options ((arg.drop 2).takeWhile fun c => c ≠ '=')
    else if cAt arg 0 = '-' ∧ cAt arg 1 ≠ '\x00' ∧ cAt arg 1 ≠ '-' then
      find_short_option options (cAt arg 1)
    else none

/-- The tokens the loop scans, in order: those on which its body runs (not
the tokens taken as values, nor those after a `return` or a `break`). -/
def scannedTokens (lc : Libc) (options : List Opt) : List Tok → State → List Tok
  | [], _ => []
  | tok :: rest, st =>
    tok :: match step lc options tok rest st with
      | .ret _ _ => []
      | .brk _ => []
      | .next s => scannedTokens lc options rest s
      | .skip s =>
        match rest with
        | [] => []
        | _ :: rest2 => scannedTokens lc options rest2 s

/-! ## Concrete scenarios (the repository's tests) -/

/-- A C library for the scenarios: `realloc` always succeeds; `strtod`
consumes nothing (no scenario below converts a floating-point value). -/
def libc0 : Libc := ⟨fun s => ⟨⟨0⟩, s, false⟩, fun _ => true⟩

/-- Caller variables all zero / `NULL`. -/
def mem0 : Mem := ⟨fun _ => 0, fun _ => ⟨0⟩, fun _ => none⟩

/-- Result structure before a call, not yet initialised by anyone. -/
def garbage : ParseResult := ⟨some [none], 7, some "stale"⟩

/-- Option table of `tests/test_basic.c`: `verbose` is the `int` at address 0,
`threads` the `int` at address 1, `input` the string at address 0. -/
def test_basic_options : List Opt :=
  [ ⟨some "verbose".toList, 'v', .OPT_FLAG, 0, some "Enable verbose".toList, false⟩,
    ⟨some "threads".toList, 't', .OPT_INT, 1, some "Number of threads".toList, false⟩,
    ⟨some "input".toList, 'i', .OPT_STRING, 0, some "Input file".toList, false⟩ ]

/-- Variables of `tests/test_basic.c` before the call: `threads = 4`. -/
def test_basic_mem : Mem := mem0.setInt 1 4

/-- Option table of `test_unknown_option` in `tests/test_errors.c`: `help` is
the `int` at address 0. -/
def test_unknown_options : List Opt :=
  [ ⟨some "help".toList, 'h', .OPT_FLAG, 0, some "Help".toList, false⟩ ]

/-- Option table of `test_invalid_integer` in `tests/test_errors.c`: `help` is
the `int` at address 0, `number` the `int` at address 1. -/
def test_integer_options : List Opt :=
  [ ⟨some "help".toList, 'h', .OPT_FLAG, 0, some "Help".toList, false⟩,
    ⟨some "number".toList, 'n', .OPT_INT, 1, some "Number".toList, false⟩ ]

/-- Option table of `examples/simple_example.c` as `CONFIGURE` builds it: the
`help` flag first (`int` at address 0), then `verbose` (`int` 1), `threads`
(`int` 2), the required `input` (string 0) and `output` (string 1). -/
def simple_example_options : List Opt :=
  [ ⟨some "help".toList, 'h', .OPT_FLAG, 0, some "Show this help message".toList, false⟩,
    ⟨some "verbose".toList, 'v', .OPT_FLAG, 1, some "Enable verbose output".toList, false⟩,
    ⟨some "threads".toList, 't', .OPT_INT, 2,
      some "Number of processing threads".toList, false⟩,
    ⟨some "input".toList, 'i', .OPT_STRING, 0, some "Input file path".toList, true⟩,
    ⟨some "output".toList, 'o', .OPT_STRING, 1, some "Output directory".toList, false⟩ ]

/-- Variables of `examples/simple_example.c` before the call: `threads = 4`. -/
def simple_example_mem : Mem := mem0.setInt 2 4

/-- A table as `ARGS` builds it from `FLAG`, `INT_REQUIRED` and
`DOUBLE_REQUIRED` of `smartargs.h`: `verbose` (`int` at address 0), the
required `count` (`int` 1) and the required `scale` (`double` 0). -/
def required_numeric_options : List Opt :=
  [ ⟨some "verbose".toList, 'v', .OPT_FLAG, 0, some "Enable verbose".toList, false⟩,
    ⟨some "count".toList, 'c', .OPT_INT, 1, some "Count".toList, true⟩,
    ⟨some "scale".toList, 's', .OPT_DOUBLE, 0, some "Scale".toList, true⟩ ]

/-- Option table of `test_invalid_double` in `tests/test_errors.c`: `help` is
the `int` at address 0, `ratio` the `double` at address 0. -/
def test_double_options : List Opt :=
  [ ⟨some "help".toList, 'h', .OPT_FLAG, 0, some "Help".toList, false⟩,
    ⟨some "ratio".toList, 'r', .OPT_DOUBLE, 0, some "Ratio".toList, false⟩ ]

/-- The positional array and its count agree on emptiness: a `NULL` array has
count 0. -/
def ArgsInv (r : ParseResult) : Prop := r.args = none → r.arg_count = 0

/-- A C library whose `strtod` does on "1e999x" what ISO C prescribes: the
prefix "1e999" is converted, overflows (`HUGE_VAL`, `errno = ERANGE`) and
`end` stands at "x"; it converts nothing else.  `realloc` always succeeds. -/
def libc_huge : Libc :=
  ⟨fun s => if s = "1e999x".toList then ⟨⟨0x7FF0000000000000⟩, ['x'], true⟩
    else ⟨⟨0⟩, s, false⟩, fun _ => true⟩

/-- `o` is the first descriptor in table order with long name `n`. -/
def FirstLong (opts : List Opt) (n : CStr) (o : Opt) : Prop :=
  ∃ l1 l2, opts = l1 ++ o :: l2 ∧ o.long_name = some n ∧ ∀ p ∈ l1, p.long_name ≠ some n

/-- `o` is the first descriptor in table order with short name `c`. -/
def FirstShort (opts : List Opt) (c : Char) (o : Opt) : Prop :=
  ∃ l1 l2, opts = l1 ++ o :: l2 ∧ o.short_name = c ∧ ∀ p ∈ l1, p.short_name ≠ c

/-- Option table of `tests/test_types.c`: `flag` is the `int` at address 0,
`number` the `int` at address 1, `ratio` the `double` at address 0, `name` the
string at address 0. -/
def test_types_options : List Opt :=
  [ ⟨some "flag".toList, 'f', .OPT_FLAG, 0, some "Boolean flag".toList, false⟩,
    ⟨some "number".toList, 'n', .OPT_INT, 1, some "Integer number".toList, false⟩,
    ⟨some "ratio".toList, 'r', .OPT_DOUBLE, 0, some "Floating point ratio".toList, false⟩,
    ⟨some "name".toList, 's', .OPT_STRING, 0, some "String name".toList, false⟩ ]

/-- A C library whose `strtod` converts the whole of "3.14159" (to the double
nearest to it, bit pattern 0x400921F9F01B866E) and nothing else; `realloc`
always succeeds. -/
def libc_pi : Libc :=
  ⟨fun s => if s = "3.14159".toList then ⟨⟨0x400921F9F01B866E⟩, [], false⟩
    else ⟨⟨0⟩, s, false⟩, fun _ => true⟩

/-- Option table of `examples/network_tool.c` as `CONFIGURE` builds it: the
`help` flag first, then the twelve declared options.  The `int` variables
`help`, `verbose`, `follow_redirects`, `insecure`, `max_time`,
`connect_timeout`, `retries` are at addresses 0 to 6, the `double`
`retry_delay` at 0, the strings `method`, `user_agent`, `output_file`,
`header`, `data` at 0 to 4. -/
def network_tool_options : List Opt :=
  [ ⟨some "help".toList, 'h', .OPT_FLAG, 0, some "Show this help message".toList, false⟩,
    ⟨some "verbose".toList, 'v', .OPT_FLAG, 1, some "Enable verbose output".toList, false⟩,
    ⟨some "location".toList, 'L', .OPT_FLAG, 2, some "Follow redirects".toList, false⟩,
    ⟨some "insecure".toList, 'k', .OPT_FLAG, 3,
      some "Allow insecure SSL connections".toList, false⟩,
    ⟨some "max-time".toList, 'm', .OPT_INT, 4,
      some "Maximum time for the transfer".toList, false⟩,
    ⟨some "connect-timeout".toList, 'c', .OPT_INT, 5,
      some "Maximum time for connection".toList, false⟩,
    ⟨some "retry".toList, 'r', .OPT_INT, 6, some "Number of retry attempts".toList, false⟩,
    ⟨some "retry-delay".toList, 'd', .OPT_DOUBLE, 0,
      some "Delay between retries in seconds".toList, false⟩,
    ⟨some "request".toList, 'X', .OPT_STRING, 0, some "HTTP request method".toList, false⟩,
    ⟨some "user-agent".toList, 'A', .OPT_STRING, 1, some "User agent string".toList, false⟩,
    ⟨some "output".toList, 'o', .OPT_STRING, 2, some "Write output to file".toList, false⟩,
    ⟨some "header".toList, 'H', .OPT_STRING, 3, some "Add custom header".toList, false⟩,
    ⟨some "data".toList, 'D', .OPT_STRING, 4, some "HTTP POST data".toList, false⟩ ]

/-- Variables of `examples/network_tool.c` before the call: `max_time = 30`,
`connect_timeout = 10`, `retries = 3`, `retry_delay = 1.0`, `method = "GET"`,
`user_agent = "SmartArgs-NetworkTool/1.0"`, the rest 0 or `NULL`. -/
def network_tool_mem : Mem :=
  ⟨fun a => if a = 4 then 30 else if a = 5 then 10 else if a = 6 then 3 else 0,
    fun a => if a = 0 then ⟨0x3FF0000000000000⟩ else ⟨0⟩,
    fun a => if a = 0 then some "GET".toList
      else if a = 1 then some "SmartArgs-NetworkTool/1.0".toList else none⟩

/-! ## Basic facts -/

theorem parse_eq (lc : Libc) (opts : List Opt) (argv : List Tok) (r0 : ParseResult)
    (mem : Mem) :
    parse lc opts argv r0 mem = resume lc opts (argv.drop 1) (State.init mem) := by
  simp [parse, cli_parse, resume, State.init]

/-! ### Strings -/

@[simp] theorem cAt_nil (i : Nat) : cAt [] i = '\x00' := by
  simp [cAt]

@[simp] theorem cAt_cons_zero (a : Char) (s : CStr) : cAt (a :: s) 0 = a := by
  simp [cAt]

@[simp] theorem cAt_cons_succ (a : Char) (s : CStr) (i : Nat) :
    cAt (a :: s) (i + 1) = cAt s i := by
  simp [cAt]

theorem cAt_zero_ne_nul {s : CStr} (hne : s ≠ []) (hnul : NulFree s) :
    cAt s 0 ≠ '\x00' := by
  cases s with
  | nil => exact absurd rfl hne
  | cons a t =>
    intro h
    apply hnul
    simp only [cAt_cons_zero] at h
    simp [h]

theorem strchr_of_not_mem {s : CStr} {c : Char} (h : c ∉ s) : strchr s c = none := by
  induction s with
  | nil => rfl
  | cons a t ih =>
    have h1 : a ≠ c := fun e => h (by simp [e])
    have h2 : c ∉ t := fun e => h (by simp [e])
    simp [strchr, h1, ih h2]

theorem strchr_append {n : CStr} {c : Char} (v : CStr) (h : c ∉ n) :
    strchr (n ++ c :: v) c = some (c :: v) := by
  induction n with
  | nil => simp [strchr]
  | cons a t ih =>
    have h1 : a ≠ c := fun e => h (by simp [e])
    have h2 : c ∉ t := fun e => h (by simp [e])
    simp [strchr, h1, ih h2]

theorem takeWhile_ne_of_not_mem {n : CStr} {c : Char} (h : c ∉ n) :
    n.takeWhile (fun x => decide (x ≠ c)) = n := by
  induction n with
  | nil => rfl
  | cons a t ih =>
    have h1 : decide (a ≠ c) = true := by
      simpa using fun e : a = c => h (by simp [e])
    have h2 : c ∉ t := fun e => h (by simp [e])
    simp only [List.takeWhile_cons, h1, ih h2, if_true]

theorem takeWhile_ne_append {n : CStr} {c : Char} (v : CStr) (h : c ∉ n) :
    (n ++ c :: v).takeWhile (fun x => decide (x ≠ c)) = n := by
  induction n with
  | nil => simp [List.takeWhile]
  | cons a t ih =>
    have h1 : decide (a ≠ c) = true := by
      simpa using fun e : a = c => h (by simp [e])
    have h2 : c ∉ t := fun e => h (by simp [e])
    simp only [List.cons_append, List.takeWhile_cons, h1, ih h2, if_true]

theorem takeWhile_not_eq_of_not_mem {n : CStr} {c : Char} (h : c ∉ n) :
    n.takeWhile (fun x => !decide (x = c)) = n := by
  simpa using takeWhile_ne_of_not_mem h

theorem takeWhile_not_eq_append {n : CStr} {c : Char} (v : CStr) (h : c ∉ n) :
    (n ++ c :: v).takeWhile (fun x => !decide (x = c)) = n := by
  simpa using takeWhile_ne_append v h

/-! ### Table lookup -/

theorem find_long_option_mem {opts : List Opt} {n : CStr} {o : Opt}
    (h : find_long_option opts n = some o) : o ∈ opts ∧ o.long_name = some n := by
  induction opts with
  | nil => simp [find_long_option] at h
  | cons p ps ih =>
    simp only [find_long_option] at h
    split at h
    · cases h; simp_all
    · have := ih h; simp [this]

theorem find_short_option_mem {opts : List Opt} {c : Char} {o : Opt}
    (h : find_short_option opts c = some o) : o ∈ opts ∧ o.short_name = c := by
  induction opts with
  | nil => simp [find_short_option] at h
  | cons p ps ih =>
    simp only [find_short_option] at h
    split at h
    · cases h; simp_all
    · have := ih h; simp [this]

theorem find_long_option_none {opts : List Opt} {n : CStr}
    (h : ∀ o ∈ opts, o.long_name ≠ some n) : find_long_option opts n = none := by
  induction opts with
  | nil => rfl
  | cons p ps ih =>
    have h1 : p.long_name ≠ some n := h p (by simp)
    simp only [find_long_option, h1, if_false]
    exact ih (fun o ho => h o (by simp [ho]))

theorem find_short_option_none {opts : List Opt} {c : Char}
    (h : ∀ o ∈ opts, o.short_name ≠ c) : find_short_option opts c = none := by
  induction opts with
  | nil => rfl
  | cons p ps ih =>
    have h1 : p.short_name ≠ c := h p (by simp)
    simp only [find_short_option, h1, if_false]
    exact ih (fun o ho => h o (by simp [ho]))

theorem find_long_option_of_none {opts : List Opt} {n : CStr}
    (h : find_long_option opts n = none) : ∀ o ∈ opts, o.long_name ≠ some n := by
  induction opts with
  | nil => simp
  | cons p ps ih =>
    simp only [find_long_option] at h
    split at h
    · cases h
    · intro o ho
      rcases List.mem_cons.mp ho with rfl | ho2
      · assumption
      · exact ih h o ho2

theorem find_short_option_of_none {opts : List Opt} {c : Char}
    (h : find_short_option opts c = none) : ∀ o ∈ opts, o.short_name ≠ c := by
  induction opts with
  | nil => simp
  | cons p ps ih =>
    simp only [find_short_option] at h
    split at h
    · cases h
    · intro o ho
      rcases List.mem_cons.mp ho with rfl | ho2
      · assumption
      · exact ih h o ho2

theorem find_long_option_isLong {opts : List Opt} {n : CStr} {o : Opt}
    (h : IsLong opts n o) : find_long_option opts n = some o := by
  obtain ⟨hmem, hname, huniq⟩ := h
  cases hf : find_long_option opts n with
  | none => exact absurd hname (find_long_option_of_none hf o hmem)
  | some p =>
    have hp := find_long_option_mem hf
    rw [huniq p hp.1 hp.2]

theorem find_short_option_isShort {opts : List Opt} {c : Char} {o : Opt}
    (h : IsShort opts c o) : find_short_option opts c = some o := by
  obtain ⟨hmem, hname, huniq⟩ := h
  cases hf : find_short_option opts c with
  | none => exact absurd hname (find_short_option_of_none hf o hmem)
  | some p =>
    have hp := find_short_option_mem hf
    rw [huniq p hp.1 hp.2]

/-! ### One pass through the loop body -/

theorem step_null (lc : Libc) (opts : List Opt) (rest : List Tok) (st : State) :
    step lc opts none rest st = .ret (-1) (st.setError "NULL argument encountered") := rfl

theorem step_marker (lc : Libc) (opts : List Opt) (rest : List Tok) (st : State) :
    step lc opts (some ['-', '-']) rest st =
      if (add_rest lc rest st.result).1 ≠ 0 then
        .ret (-1) { st with result := (add_rest lc rest st.result).2 }
      else .brk { st with result := (add_rest lc rest st.result).2 } := by
  simp [step]

theorem step_long {lc : Libc} {opts : List Opt} {n : CStr} (hn : LongName n)
    (rest : List Tok) (st : State) :
    step lc opts (longTok n) rest st =
      match find_long_option opts n with
      | none => .ret (-1) (st.setError "Unknown option")
      | some opt =>
        if opt.type = .OPT_FLAG then .next { st with mem := st.mem.setInt opt.value 1 }
        else
          match rest with
          | [] => .ret (-1) (st.setError "Option requires a value")
          | v :: _ =>
            if (set_value lc opt v st).1 ≠ 0 then .ret (-1) (set_value lc opt v st).2
            else .skip (set_value lc opt v st).2 := by
  obtain ⟨hne, heq, hnul⟩ := hn
  have h2 : cAt n 0 ≠ '\x00' := cAt_zero_ne_nul hne hnul
  simp [step, longTok, hne, h2, strchr_of_not_mem heq, takeWhile_not_eq_of_not_mem heq]

theorem step_longEq {lc : Libc} {opts : List Opt} {n : CStr} (heq : '=' ∉ n)
    (hnul : NulFree n) (v : CStr) (rest : List Tok) (st : State) :
    step lc opts (longEqTok n v) rest st =
      match find_long_option opts n with
      | none => .ret (-1) (st.setError "Unknown option")
      | some opt =>
        if opt.type = .OPT_FLAG then
          .ret (-1) (st.setError "Flag option does not accept a value")
        else if (set_value lc opt (some v) st).1 ≠ 0 then
          .ret (-1) (set_value lc opt (some v) st).2
        else .next (set_value lc opt (some v) st).2 := by
  have h2 : cAt (n ++ '=' :: v) 0 ≠ '\x00' := by
    cases n with
    | nil => simp
    | cons a t =>
      intro h
      apply hnul
      simp only [List.cons_append, cAt_cons_zero] at h
      simp [h]
  simp [step, longEqTok, h2, strchr_append v heq, takeWhile_not_eq_append v heq]

theorem step_short {lc : Libc} {opts : List Opt} {c : Char} (hc : ShortName c)
    (cs : CStr) (rest : List Tok) (st : State) :
    step lc opts (shortTok c cs) rest st =
      match find_short_option opts c with
      | none => .ret (-1) (st.setError "Unknown option")
      | some opt =>
        if opt.type = .OPT_FLAG then .next { st with mem := st.mem.setInt opt.value 1 }
        else
          match rest with
          | [] => .ret (-1) (st.setError "Option requires a value")
          | v :: _ =>
            if (set_value lc opt v st).1 ≠ 0 then .ret (-1) (set_value lc opt v st).2
            else .skip (set_value lc opt v st).2 := by
  obtain ⟨h0, h1⟩ := hc
  simp [step, shortTok, h0, h1]

theorem step_positional {lc : Libc} {opts : List Opt} {p : CStr}
    (hp : p.head? ≠ some '-') (rest : List Tok) (st : State) :
    step lc opts (some p) rest st =
      if (add_positional lc st.result (some p)).1 ≠ 0 then
        .ret (-1) { st with result := (add_positional lc st.result (some p)).2 }
      else .next { st with result := (add_positional lc st.result (some p)).2 } := by
  have h0 : cAt p 0 ≠ '-' := by
    cases p with
    | nil => simp
    | cons a t => simpa using hp
  have h1 : p ≠ ['-', '-'] := by
    rintro rfl
    simp at hp
  simp [step, h0, h1]

/-! ### Scanning a sequence of tokens -/

theorem step_next_append {lc : Libc} {opts : List Opt} {tok : Tok} {r1 : List Tok}
    {st s : State} (h : step lc opts tok r1 st = .next s) (r2 : List Tok) :
    step lc opts tok (r1 ++ r2) st = .next s := by
  cases tok with
  | none => simp [step] at h
  | some arg =>
    unfold step at h ⊢
    simp only at h ⊢
    split_ifs at h ⊢ with h1 h2 h3 h4 h5 h6 h7
    all_goals first
      | exact h
      | (split at h <;> first
          | exact h
          | cases h
          | (split_ifs at h ⊢ <;> first
              | exact h
              | cases h
              | (split at h <;> first
                  | exact h
                  | cases h
                  | (split at h <;> first | cases h | (split_ifs at h)))))

theorem step_skip_append {lc : Libc} {opts : List Opt} {tok : Tok} {r1 : List Tok}
    {st s : State} (h : step lc opts tok r1 st = .skip s) (r2 : List Tok) :
    r1 ≠ [] ∧ step lc opts tok (r1 ++ r2) st = .skip s := by
  cases tok with
  | none => simp [step] at h
  | some arg =>
    cases r1 with
    | nil =>
      exfalso
      unfold step at h
      simp only at h
      split_ifs at h
      all_goals first
        | (split at h <;> first
            | cases h
            | (split_ifs at h <;> first
                | cases h
                | (split at h <;> first
                    | cases h
                    | (split_ifs at h))))
    | cons v t =>
      refine ⟨by simp, ?_⟩
      unfold step at h ⊢
      simp only [List.cons_append] at h ⊢
      split_ifs at h ⊢
      all_goals exact h

theorem scanLoop_pre (lc : Libc) (opts : List Opt) (rest : List Tok) :
    ∀ (pre : List Tok) (st st1 : State), scanPre lc opts pre st = some st1 →
      scanLoop lc opts (pre ++ rest) st = scanLoop lc opts rest st1 := by
  intro pre
  generalize hlen : pre.length = n
  induction n using Nat.strong_induction_on generalizing pre with
  | _ n ih =>
    intro st st1 hpre
    cases pre with
    | nil =>
      simp only [scanPre, Option.some.injEq] at hpre
      subst hpre
      rfl
    | cons tok r1 =>
      rw [scanPre] at hpre
      rw [List.cons_append, scanLoop]
      cases hs : step lc opts tok r1 st with
      | ret c s => simp [hs] at hpre
      | brk s => simp [hs] at hpre
      | next s =>
        rw [hs] at hpre
        rw [step_next_append hs rest]
        exact ih r1.length (by simp [← hlen]) r1 rfl s st1 hpre
      | skip s =>
        rw [hs] at hpre
        obtain ⟨hne, happ⟩ := step_skip_append hs rest
        rw [happ]
        cases r1 with
        | nil => exact absurd rfl hne
        | cons v r2 =>
          exact ih r2.length (by simp [← hlen]; omega) r2 rfl s st1 hpre

theorem scanLoop_of_scanPre {lc : Libc} {opts : List Opt} {pre : List Tok}
    {st st1 : State} (h : scanPre lc opts pre st = some st1) :
    scanLoop lc opts pre st = .done st1 := by
  have := scanLoop_pre lc opts [] pre st st1 h
  simpa [scanLoop] using this

theorem parse_pre {lc : Libc} {opts : List Opt} {pre : List Tok} {mem : Mem} {st1 : State}
    (h : scanPre lc opts pre (State.init mem) = some st1) (prog : Tok) (rest : List Tok)
    (r0 : ParseResult) :
    parse lc opts (prog :: (pre ++ rest)) r0 mem = resume lc opts rest st1 := by
  rw [parse_eq]
  simp only [List.drop_succ_cons, List.drop_zero, resume]
  rw [scanLoop_pre lc opts rest pre _ _ h]

/-! ### Decimal numerals and `strtol` -/

theorem foldl_digits (ds : List Char) (a : Nat) :
    ds.foldl (fun a c => 10 * a + (c.toNat - 48)) a = a * 10 ^ ds.length + decimalValue ds := by
  induction ds generalizing a with
  | nil => simp [decimalValue]
  | cons c cs ih =>
    simp only [List.foldl_cons, ih, decimalValue, List.length_cons]
    ring

theorem digitsValue_eq (ds : List Char) : digitsValue ds = decimalValue ds := by
  simp [digitsValue, foldl_digits]

theorem takeWhile_all {p : Char → Bool} {l : List Char} (h : ∀ c ∈ l, p c = true) :
    l.takeWhile p = l := by
  induction l with
  | nil => rfl
  | cons a t ih =>
    have h1 : p a = true := h a (by simp)
    simp only [List.takeWhile_cons, h1, if_true]
    rw [ih (fun c hc => h c (by simp [hc]))]

theorem dropWhile_all {p : Char → Bool} {l : List Char} (h : ∀ c ∈ l, p c = true) :
    l.dropWhile p = [] := by
  induction l with
  | nil => rfl
  | cons a t ih =>
    have h1 : p a = true := h a (by simp)
    simp only [List.dropWhile_cons, h1, if_true]
    exact ih (fun c hc => h c (by simp [hc]))

theorem isspace_false_of_isdigit {c : Char} (h : isdigit c = true) : isspace c = false := by
  cases hs : isspace c with
  | false => rfl
  | true =>
    exfalso
    simp only [isspace, Bool.decide_or, Bool.or_eq_true, decide_eq_true_eq] at hs
    simp only [isdigit, Bool.decide_and, Bool.and_eq_true, decide_eq_true_eq] at h
    rcases hs with rfl | rfl | rfl | rfl | rfl | rfl <;> simp at h

/-- On a decimal numeral `strtol` consumes the whole string and yields the
integer it denotes, clamped to `long`. -/
theorem strtol_numeral {v : CStr} (hv : IsNumeral v) :
    strtol v =
      if numeralValue v > LONG_MAX then ⟨LONG_MAX, [], true⟩
      else if numeralValue v < LONG_MIN then ⟨LONG_MIN, [], true⟩
      else ⟨numeralValue v, [], false⟩ := by
  obtain ⟨hne, hdig⟩ := hv
  rcases v with _ | ⟨c, cs⟩
  · exact absurd rfl hne
  · by_cases hm : c = '-'
    · subst hm
      have hd : digitsOf ('-' :: cs) = cs := rfl
      rw [hd] at hne hdig
      have e1 : List.dropWhile isspace ('-' :: cs) = '-' :: cs := by
        rw [List.dropWhile_cons_of_neg]; decide
      have e2 : numeralValue ('-' :: cs) = -(decimalValue cs : Int) := by
        simp [numeralValue, hd]
      simp only [strtol, e1, e2, takeWhile_all hdig, dropWhile_all hdig, digitsValue_eq, hne,
        List.head?_cons, if_false, decide_True, if_true]
    · by_cases hp : c = '+'
      · subst hp
        have hd : digitsOf ('+' :: cs) = cs := rfl
        rw [hd] at hne hdig
        have e1 : List.dropWhile isspace ('+' :: cs) = '+' :: cs := by
          rw [List.dropWhile_cons_of_neg]; decide
        have e2 : numeralValue ('+' :: cs) = (decimalValue cs : Int) := by
          simp [numeralValue, hd]
        simp only [strtol, e1, e2, takeWhile_all hdig, dropWhile_all hdig, digitsValue_eq, hne,
          List.head?_cons, if_false]
        simp
      · have hd : digitsOf (c :: cs) = c :: cs := by
          unfold digitsOf
          split <;> simp_all
        rw [hd] at hne hdig
        have hc : isdigit c = true := hdig c (by simp)
        have e1 : List.dropWhile isspace (c :: cs) = c :: cs := by
          rw [List.dropWhile_cons_of_neg]
          simp [isspace_false_of_isdigit hc]
        have e2 : numeralValue (c :: cs) = (decimalValue (c :: cs) : Int) := by
          simp [numeralValue, hd, hm]
        have e3 : (match c :: cs with
            | '-' :: t => t
            | '+' :: t => t
            | _ => c :: cs) = c :: cs := by
          split <;> simp_all
        simp only [strtol, e1, e2, e3, takeWhile_all hdig, dropWhile_all hdig, digitsValue_eq,
          hne, List.head?_cons, if_false]
        simp [hm]

/-! ### Coercion and storing -/

theorem set_value_int {opt : Opt} (ht : opt.type = .OPT_INT) (lc : Libc) (v : CStr)
    (st : State) :
    set_value lc opt (some v) st =
      if (strtol v).erange = true ∨ (strtol v).val > INT_MAX ∨ (strtol v).val < INT_MIN then
        (-1, st.setError "Integer value out of range")
      else if (strtol v).endp ≠ [] then (-1, st.setError "Invalid integer value")
      else (0, { st with mem := st.mem.setInt opt.value (strtol v).val }) := by
  simp [set_value, ht]

theorem set_value_string {opt : Opt} (ht : opt.type = .OPT_STRING) (lc : Libc) (v : CStr)
    (st : State) :
    set_value lc opt (some v) st = (0, { st with mem := st.mem.setStr opt.value (some v) }) := by
  simp [set_value, ht]

theorem set_value_numeral {opt : Opt} (ht : opt.type = .OPT_INT) (lc : Libc) {v : CStr}
    (hv : IsNumeral v) (st : State) :
    set_value lc opt (some v) st =
      if INT_MIN ≤ numeralValue v ∧ numeralValue v ≤ INT_MAX then
        (0, { st with mem := st.mem.setInt opt.value (numeralValue v) })
      else (-1, st.setError "Integer value out of range") := by
  rw [set_value_int ht, strtol_numeral hv]
  unfold INT_MIN INT_MAX LONG_MAX LONG_MIN
  split_ifs <;> simp_all <;> omega

/-! ### Positionals -/

theorem append_nil (r : ParseResult) : r.append [] = r := rfl

theorem positionals_append (r : ParseResult) (toks : List Tok) :
    (r.append toks).positionals = r.positionals ++ toks := by
  cases toks <;> simp [ParseResult.append, ParseResult.positionals]

theorem arg_count_append (r : ParseResult) (toks : List Tok) :
    (r.append toks).arg_count = r.arg_count + toks.length := by
  cases toks <;> simp [ParseResult.append]

theorem error_append (r : ParseResult) (toks : List Tok) :
    (r.append toks).error = r.error := by
  cases toks <;> simp [ParseResult.append]

theorem append_cons (r : ParseResult) (t : Tok) (toks : List Tok) :
    (r.append [t]).append toks = r.append (t :: toks) := by
  cases toks with
  | nil => rfl
  | cons a l =>
    simp [ParseResult.append, ParseResult.positionals]
    omega

theorem add_positional_ok {lc : Libc} (hreal : ∀ n, lc.realloc n = true)
    (r : ParseResult) (t : Tok) : add_positional lc r t = (0, r.append [t]) := by
  simp [add_positional, hreal, ParseResult.append, ParseResult.positionals]

theorem add_rest_ok {lc : Libc} (hreal : ∀ n, lc.realloc n = true) (toks : List Tok) :
    ∀ r : ParseResult, add_rest lc toks r = (0, r.append toks) := by
  induction toks with
  | nil => intro r; rfl
  | cons t l ih =>
    intro r
    simp only [add_rest, add_positional_ok hreal, ne_eq, not_true_eq_false, if_false, ih,
      append_cons]

/-! ### The loop, token by token -/

theorem scanLoop_next {lc : Libc} {opts : List Opt} {tok : Tok} {rest : List Tok}
    {st s : State} (h : step lc opts tok rest st = .next s) :
    scanLoop lc opts (tok :: rest) st = scanLoop lc opts rest s := by
  rw [scanLoop, h]

theorem scanLoop_skip {lc : Libc} {opts : List Opt} {tok v : Tok} {rest : List Tok}
    {st s : State} (h : step lc opts tok (v :: rest) st = .skip s) :
    scanLoop lc opts (tok :: v :: rest) st = scanLoop lc opts rest s := by
  rw [scanLoop, h]

theorem scanLoop_ret {lc : Libc} {opts : List Opt} {tok : Tok} {rest : List Tok}
    {st s : State} {c : Int} (h : step lc opts tok rest st = .ret c s) :
    scanLoop lc opts (tok :: rest) st = .ret c s := by
  rw [scanLoop, h]

theorem scanLoop_brk {lc : Libc} {opts : List Opt} {tok : Tok} {rest : List Tok}
    {st s : State} (h : step lc opts tok rest st = .brk s) :
    scanLoop lc opts (tok :: rest) st = .done s := by
  rw [scanLoop, h]

theorem scanLoop_positionals {lc : Libc} (hreal : ∀ n, lc.realloc n = true)
    (opts : List Opt) (ps : List CStr) (hps : ∀ p ∈ ps, p.head? ≠ some '-') :
    ∀ st : State, scanLoop lc opts (ps.map some) st =
      .done { st with result := st.result.append (ps.map some) } := by
  induction ps with
  | nil => intro st; rfl
  | cons p l ih =>
    intro st
    have hp : p.head? ≠ some '-' := hps p (by simp)
    have hs := @step_positional lc opts p hp (l.map some) st
    simp only [add_positional_ok hreal, ne_eq, not_true_eq_false, if_false] at hs
    rw [List.map_cons, scanLoop_next hs, ih (fun q hq => hps q (by simp [hq]))]
    simp only [append_cons]

/-! ### After the loop -/

theorem required_ok_iff (opts : List Opt) (mem : Mem) :
    required_ok opts mem = true ↔
      ∀ o ∈ opts, o.required = true →
        (o.type = .OPT_FLAG → mem.ints o.value ≠ 0) ∧
        (o.type = .OPT_STRING → mem.strs o.value ≠ none) := by
  simp only [required_ok, List.all_eq_true, Bool.or_eq_true, Bool.not_eq_true']
  constructor
  · intro h o ho hr
    rcases h o ho with h1 | h1
    · simp [hr] at h1
    · constructor <;> intro ht <;> simpa [is_set, ht] using h1
  · intro h o ho
    cases hr : o.required with
    | false => exact Or.inl rfl
    | true =>
      right
      have := h o ho hr
      cases ht : o.type <;> simp_all [is_set]

theorem help_requested_iff (opts : List Opt) (mem : Mem) :
    help_requested opts mem = true ↔
      ∃ o ∈ opts, o.type = .OPT_FLAG ∧
        (o.long_name = some ['h', 'e', 'l', 'p'] ∨ o.short_name = 'h') ∧
        mem.ints o.value ≠ 0 := by
  simp [help_requested, and_assoc]

theorem post_scan_required_ok {opts : List Opt} {st : State}
    (h : required_ok opts st.mem = true) :
    post_scan opts (.done st) = ⟨0, some st.result, st.mem⟩ := by
  simp [post_scan, h]

theorem post_scan_help {opts : List Opt} {st : State}
    (h : help_requested opts st.mem = true) :
    post_scan opts (.done st) = ⟨0, some st.result, st.mem⟩ := by
  simp [post_scan, h]

/-! ### What a pass that goes on leaves -/

theorem set_value_result {lc : Libc} {opt : Opt} {v : Tok} {st : State}
    (h : (set_value lc opt v st).1 = 0) : (set_value lc opt v st).2.result = st.result := by
  unfold set_value at h ⊢
  cases ht : opt.type <;> cases v <;> simp only [ht] at h ⊢ <;> (try split_ifs at h ⊢) <;>
    simp_all

theorem add_positional_error {lc : Libc} {r : ParseResult} {t : Tok}
    (h : (add_positional lc r t).1 = 0) : (add_positional lc r t).2.error = r.error := by
  by_cases hr : lc.realloc (r.arg_count + 1) = true <;> simp [add_positional, hr] at h ⊢

theorem step_next_error {lc : Libc} {opts : List Opt} {tok : Tok} {rest : List Tok}
    {st s : State} (h : step lc opts tok rest st = .next s) :
    s.result.error = st.result.error := by
  cases tok with
  | none => simp [step] at h
  | some arg =>
    unfold step at h
    simp only at h
    repeat' split at h
    all_goals cases h
    all_goals first
      | rfl
      | (rw [set_value_result (not_not.mp ‹¬(set_value _ _ _ _).1 ≠ 0›)])
      | (exact add_positional_error (not_not.mp ‹¬(add_positional _ _ _).1 ≠ 0›))

theorem step_skip_error {lc : Libc} {opts : List Opt} {tok : Tok} {rest : List Tok}
    {st s : State} (h : step lc opts tok rest st = .skip s) :
    s.result.error = st.result.error := by
  cases tok with
  | none => simp [step] at h
  | some arg =>
    unfold step at h
    simp only at h
    repeat' split at h
    all_goals cases h
    all_goals first
      | rfl
      | (rw [set_value_result (not_not.mp ‹¬(set_value _ _ _ _).1 ≠ 0›)])

theorem scanPre_error (lc : Libc) (opts : List Opt) :
    ∀ (pre : List Tok) (st st1 : State), scanPre lc opts pre st = some st1 →
      st1.result.error = st.result.error := by
  intro pre
  generalize hlen : pre.length = n
  induction n using Nat.strong_induction_on generalizing pre with
  | _ n ih =>
    intro st st1 hpre
    cases pre with
    | nil =>
      simp only [scanPre, Option.some.injEq] at hpre
      subst hpre
      rfl
    | cons tok r1 =>
      rw [scanPre] at hpre
      cases hs : step lc opts tok r1 st with
      | ret c s => simp [hs] at hpre
      | brk s => simp [hs] at hpre
      | next s =>
        rw [hs] at hpre
        rw [ih r1.length (by simp [← hlen]) r1 rfl s st1 hpre, step_next_error hs]
      | skip s =>
        rw [hs] at hpre
        cases r1 with
        | nil => simp at hpre
        | cons v r2 =>
          rw [ih r2.length (by simp [← hlen]; omega) r2 rfl s st1 hpre, step_skip_error hs]

theorem post_scan_append (opts : List Opt) (r : ParseResult) (m : Mem) (toks : List Tok) :
    post_scan opts (.done ⟨r.append toks, m⟩) =
      ⟨(post_scan opts (.done ⟨r, m⟩)).code,
        ((post_scan opts (.done ⟨r, m⟩)).result.map fun q => q.append toks),
        (post_scan opts (.done ⟨r, m⟩)).mem⟩ := by
  simp only [post_scan]
  split_ifs <;> cases toks <;> simp [ParseResult.append, ParseResult.positionals]

theorem post_scan_done_result (opts : List Opt) (st : State) :
    ∃ q, (post_scan opts (.done st)).result = some q ∧
      q.args = st.result.args ∧ q.arg_count = st.result.arg_count ∧
      (post_scan opts (.done st)).mem = st.mem ∧
      ((post_scan opts (.done st)).code = 0 ∧ q.error = st.result.error ∨
        (post_scan opts (.done st)).code = -1 ∧ q.error = some "Required option missing") := by
  simp only [post_scan]
  split_ifs <;> simp

/-! ### Supplying a value -/

theorem scanLoop_supply {lc : Libc} {opts : List Opt} {o : Opt} {v : CStr}
    {toks : List Tok} (hsup : Supplies opts o v toks) (hty : o.type ≠ .OPT_FLAG)
    (rest : List Tok) (st : State) :
    scanLoop lc opts (toks ++ rest) st =
      if (set_value lc o (some v) st).1 ≠ 0 then .ret (-1) (set_value lc o (some v) st).2
      else scanLoop lc opts rest (set_value lc o (some v) st).2 := by
  rcases hsup with ⟨n, hn, hl, rfl⟩ | ⟨n, heq, hnul, hl, rfl⟩ | ⟨c, cs, hc, hsh, rfl⟩
  · have hs := @step_long lc opts n hn (some v :: rest) st
    simp only [find_long_option_isLong hl, hty, if_false] at hs
    by_cases h0 : (set_value lc o (some v) st).1 ≠ 0
    · rw [if_pos h0] at hs ⊢
      exact scanLoop_ret hs
    · rw [if_neg h0] at hs ⊢
      exact scanLoop_skip hs
  · have hs := @step_longEq lc opts n heq hnul v rest st
    simp only [find_long_option_isLong hl, hty, if_false] at hs
    by_cases h0 : (set_value lc o (some v) st).1 ≠ 0
    · rw [if_pos h0] at hs ⊢
      exact scanLoop_ret hs
    · rw [if_neg h0] at hs ⊢
      exact scanLoop_next hs
  · have hs := @step_short lc opts c hc cs (some v :: rest) st
    simp only [find_short_option_isShort hsh, hty, if_false] at hs
    by_cases h0 : (set_value lc o (some v) st).1 ≠ 0
    · rw [if_pos h0] at hs ⊢
      exact scanLoop_ret hs
    · rw [if_neg h0] at hs ⊢
      exact scanLoop_skip hs

theorem dropWhile_of_takeWhile_append {t : List Char} {c : Char} {junk : List Char}
    (h : t = t.takeWhile isdigit ++ c :: junk) : t.dropWhile isdigit = c :: junk := by
  have h2 := List.takeWhile_append_dropWhile isdigit t
  exact List.append_cancel_left (h2.trans h)

/-- A string with a character after its leading numeral, and no white space
in front, is never consumed to its end by `strtol`. -/
theorem strtol_endp_of_trailing {v : CStr} (hj : HasTrailingNonNumeric v)
    (hsp : NoLeadingSpace v) : (strtol v).endp ≠ [] := by
  obtain ⟨c, junk, hv, _⟩ := hj
  rcases v with _ | ⟨x, t⟩
  · simp at hv
  · have hx : isspace x = false := hsp x rfl
    have e1 : List.dropWhile isspace (x :: t) = x :: t := by
      rw [List.dropWhile_cons_of_neg]; simp [hx]
    by_cases hm : x = '-'
    · subst hm
      by_cases hd : t.takeWhile isdigit = []
      · simp [strtol, e1, hd]
      · have hl : leadingNumeral ('-' :: t) = '-' :: t.takeWhile isdigit := by
          simp [leadingNumeral, hd]
        rw [hl] at hv
        have ht : t = t.takeWhile isdigit ++ c :: junk := by simpa using hv
        have hdrop := dropWhile_of_takeWhile_append ht
        simp only [strtol, e1, hd, if_false]
        split_ifs <;> simp [hdrop]
    · by_cases hp : x = '+'
      · subst hp
        by_cases hd : t.takeWhile isdigit = []
        · simp [strtol, e1, hd]
        · have hl : leadingNumeral ('+' :: t) = '+' :: t.takeWhile isdigit := by
            simp [leadingNumeral, hd]
          rw [hl] at hv
          have ht : t = t.takeWhile isdigit ++ c :: junk := by simpa using hv
          have hdrop := dropWhile_of_takeWhile_append ht
          simp only [strtol, e1, hd, if_false]
          split_ifs <;> simp [hdrop]
      · have hl : leadingNumeral (x :: t) = (x :: t).takeWhile isdigit := by
          unfold leadingNumeral
          split
          · next ds heq => injection heq with h1 _; exact absurd h1 hm
          · next ds heq => injection heq with h1 _; exact absurd h1 hp
          · rfl
        have e3 : (match x :: t with
            | '-' :: u => u
            | '+' :: u => u
            | _ => x :: t) = x :: t := by
          split
          · next ds heq => injection heq with h1 _; exact absurd h1 hm
          · next ds heq => injection heq with h1 _; exact absurd h1 hp
          · rfl
        rw [hl] at hv
        have hdrop := dropWhile_of_takeWhile_append hv
        by_cases hd : (x :: t).takeWhile isdigit = []
        · simp [strtol, e1, e3, hd]
        · simp only [strtol, e1, e3, hd, if_false]
          split_ifs <;> simp [hdrop]

theorem add_rest_error {lc : Libc} (toks : List Tok) :
    ∀ r : ParseResult, (add_rest lc toks r).1 = 0 → (add_rest lc toks r).2.error = r.error := by
  induction toks with
  | nil => intro r _; rfl
  | cons t l ih =>
    intro r h
    simp only [add_rest] at h ⊢
    split_ifs at h ⊢ with h1
    · have h0 : (-1 : Int) = 0 := h
      exact absurd h0 (by decide)
    · rw [ih _ h, add_positional_error (not_not.mp h1)]

theorem add_positional_fail_error {lc : Libc} {r : ParseResult} {t : Tok}
    (h : (add_positional lc r t).1 ≠ 0) :
    (add_positional lc r t).2.error = some "Memory allocation failed" := by
  by_cases hr : lc.realloc (r.arg_count + 1) = true <;> simp [add_positional, hr] at h ⊢

theorem add_rest_fail_error {lc : Libc} (toks : List Tok) :
    ∀ r : ParseResult, (add_rest lc toks r).1 ≠ 0 →
      (add_rest lc toks r).2.error = some "Memory allocation failed" := by
  induction toks with
  | nil => intro r h; exact absurd rfl h
  | cons t l ih =>
    intro r h
    simp only [add_rest] at h ⊢
    split_ifs at h ⊢ with h1
    · exact add_positional_fail_error h1
    · exact ih _ h

theorem step_brk_error {lc : Libc} {opts : List Opt} {tok : Tok} {rest : List Tok}
    {st s : State} (h : step lc opts tok rest st = .brk s) :
    s.result.error = st.result.error := by
  cases tok with
  | none => simp [step] at h
  | some arg =>
    unfold step at h
    simp only at h
    repeat' split at h
    all_goals cases h
    exact add_rest_error _ _ (not_not.mp ‹¬(add_rest _ _ _).1 ≠ 0›)

theorem scanLoop_done_error (lc : Libc) (opts : List Opt) :
    ∀ (toks : List Tok) (st s : State), scanLoop lc opts toks st = .done s →
      s.result.error = st.result.error := by
  intro toks
  generalize hlen : toks.length = n
  induction n using Nat.strong_induction_on generalizing toks with
  | _ n ih =>
    intro st s hdone
    cases toks with
    | nil =>
      simp only [scanLoop, Scan.done.injEq] at hdone
      subst hdone
      rfl
    | cons tok r1 =>
      rw [scanLoop] at hdone
      cases hs : step lc opts tok r1 st with
      | ret c s2 => simp [hs] at hdone
      | brk s2 =>
        simp only [hs, Scan.done.injEq] at hdone
        subst hdone
        exact step_brk_error hs
      | next s2 =>
        rw [hs] at hdone
        rw [ih r1.length (by simp [← hlen]) r1 rfl s2 s hdone, step_next_error hs]
      | skip s2 =>
        rw [hs] at hdone
        cases r1 with
        | nil =>
          simp only [Scan.done.injEq] at hdone
          subst hdone
          exact step_skip_error hs
        | cons v r2 =>
          rw [ih r2.length (by simp [← hlen]; omega) r2 rfl s2 s hdone, step_skip_error hs]

/-! ### Frame: variables no token names are left alone -/

theorem sameAt_refl (m : Mem) (s : Kind × Nat) : m.sameAt m s := by
  unfold Mem.sameAt; split <;> rfl

theorem sameAt_trans {m1 m2 m3 : Mem} {s : Kind × Nat} (h1 : m1.sameAt m2 s)
    (h2 : m2.sameAt m3 s) : m1.sameAt m3 s := by
  unfold Mem.sameAt at *
  split <;> simp_all

theorem sameAt_setInt {m : Mem} {a : Nat} {v : Int} {s : Kind × Nat}
    (h : (Kind.int, a) ≠ s) : (m.setInt a v).sameAt m s := by
  obtain ⟨k, b⟩ := s
  cases k <;> simp only [Mem.sameAt, Mem.setInt]
  have : b ≠ a := fun e => h (by rw [e])
  simp [this]

theorem sameAt_setDbl {m : Mem} {a : Nat} {v : Double} {s : Kind × Nat}
    (h : (Kind.dbl, a) ≠ s) : (m.setDbl a v).sameAt m s := by
  obtain ⟨k, b⟩ := s
  cases k <;> simp only [Mem.sameAt, Mem.setDbl]
  have : b ≠ a := fun e => h (by rw [e])
  simp [this]

theorem sameAt_setStr {m : Mem} {a : Nat} {v : Option CStr} {s : Kind × Nat}
    (h : (Kind.str, a) ≠ s) : (m.setStr a v).sameAt m s := by
  obtain ⟨k, b⟩ := s
  cases k <;> simp only [Mem.sameAt, Mem.setStr]
  have : b ≠ a := fun e => h (by rw [e])
  simp [this]

theorem set_value_sameAt {lc : Libc} {o : Opt} {s : Kind × Nat} (h : o.storage ≠ s)
    (v : Tok) (st : State) : (set_value lc o v st).2.mem.sameAt st.mem s := by
  unfold set_value
  cases ht : o.type <;> cases v <;> simp only [] <;> (try split_ifs) <;>
    first
      | exact sameAt_refl _ _
      | exact sameAt_setInt (by simpa [Opt.storage, Opt.kind, ht] using h)
      | exact sameAt_setDbl (by simpa [Opt.storage, Opt.kind, ht] using h)
      | exact sameAt_setStr (by simpa [Opt.storage, Opt.kind, ht] using h)

theorem flag_sameAt {o : Opt} {s : Kind × Nat} (h : o.storage ≠ s)
    (ht : o.type = .OPT_FLAG) (m : Mem) : (m.setInt o.value 1).sameAt m s :=
  sameAt_setInt (by simpa [Opt.storage, Opt.kind, ht] using h)

theorem mentions_long {opts : List Opt} {arg : CStr} {o : Opt}
    (h0 : cAt arg 0 = '-') (h1 : cAt arg 1 = '-')
    (hf : find_long_option opts ((arg.drop 2).takeWhile fun c => c ≠ '=') = some o) :
    o ∈ opts ∧ mentions o (some arg) = true := by
  obtain ⟨hm, hn⟩ := find_long_option_mem hf
  refine ⟨hm, ?_⟩
  rcases arg with _ | ⟨a, _ | ⟨b, body⟩⟩
  · simp at h0
  · simp at h1
  · simp only [cAt_cons_zero, cAt_cons_succ] at h0 h1
    subst h0 h1
    simpa [mentions] using hn

theorem mentions_short {opts : List Opt} {arg : CStr} {o : Opt}
    (h0 : cAt arg 0 = '-') (h1 : cAt arg 1 ≠ '\x00') (h2 : cAt arg 1 ≠ '-')
    (hf : find_short_option opts (cAt arg 1) = some o) :
    o ∈ opts ∧ mentions o (some arg) = true := by
  obtain ⟨hm, hn⟩ := find_short_option_mem hf
  refine ⟨hm, ?_⟩
  rcases arg with _ | ⟨a, _ | ⟨b, body⟩⟩
  · simp at h0
  · simp at h1
  · simp only [cAt_cons_zero, cAt_cons_succ] at h0 h1 h2 hn
    subst h0
    unfold mentions
    split
    · next heq =>
      injection heq with heq
      injection heq with _ heq
      injection heq with hb _
      exact absurd hb h2
    · next heq =>
      injection heq with heq
      injection heq with _ heq
      injection heq with hb _
      subst hb
      simpa using hn
    · next hx hy => exact absurd rfl (hy b body)

theorem step_frame {lc : Libc} {opts : List Opt} {tok : Tok} {s : Kind × Nat}
    (h : ∀ o ∈ opts, mentions o tok = true → o.storage ≠ s) (rest : List Tok)
    (st : State) : (step lc opts tok rest st).state.mem.sameAt st.mem s := by
  cases tok with
  | none => exact sameAt_refl _ _
  | some arg =>
    unfold step
    simp only
    repeat' split
    all_goals first
      | exact sameAt_refl _ _
      | (have hc := ‹cAt arg 0 = '-' ∧ cAt arg 1 = '-' ∧ cAt arg 2 ≠ '\x00'›
         have hm := mentions_long hc.1 hc.2.1 ‹find_long_option opts _ = some _›
         first
           | exact flag_sameAt (h _ hm.1 hm.2) ‹_ = OptionType.OPT_FLAG› _
           | exact set_value_sameAt (h _ hm.1 hm.2) _ _)
      | (have hc := ‹cAt arg 0 = '-' ∧ cAt arg 1 ≠ '\x00' ∧ cAt arg 1 ≠ '-'›
         have hm := mentions_short hc.1 hc.2.1 hc.2.2 ‹find_short_option opts _ = some _›
         first
           | exact flag_sameAt (h _ hm.1 hm.2) ‹_ = OptionType.OPT_FLAG› _
           | exact set_value_sameAt (h _ hm.1 hm.2) _ _)

/-- Frame property of the token loop: a variable that no descriptor named by
a token points to holds after the loop what it held before. -/
theorem scanLoop_frame (lc : Libc) (opts : List Opt) (s : Kind × Nat) :
    ∀ (toks : List Tok) (st : State),
      (∀ tok ∈ toks, ∀ o ∈ opts, mentions o tok = true → o.storage ≠ s) →
      (scanLoop lc opts toks st).state.mem.sameAt st.mem s := by
  intro toks
  generalize hlen : toks.length = n
  induction n using Nat.strong_induction_on generalizing toks with
  | _ n ih =>
    intro st h
    cases toks with
    | nil => exact sameAt_refl _ _
    | cons tok r1 =>
      have hstep := @step_frame lc opts tok s (h tok (by simp)) r1 st
      have hr1 : ∀ t ∈ r1, ∀ o ∈ opts, mentions o t = true → o.storage ≠ s :=
        fun t ht => h t (by simp [ht])
      rw [scanLoop]
      cases hs : step lc opts tok r1 st with
      | ret c s2 => rw [hs] at hstep; exact hstep
      | brk s2 => rw [hs] at hstep; exact hstep
      | next s2 =>
        rw [hs] at hstep
        exact sameAt_trans (ih r1.length (by simp [← hlen]) r1 rfl s2 hr1) hstep
      | skip s2 =>
        rw [hs] at hstep
        cases r1 with
        | nil => exact hstep
        | cons v r2 =>
          exact sameAt_trans
            (ih r2.length (by simp [← hlen]; omega) r2 rfl s2
              (fun t ht => hr1 t (by simp [ht]))) hstep

theorem storage_ne_of_distinct {opts : List Opt} (hd : StoragesDistinct opts) {o p : Opt}
    (ho : o ∈ opts) (hp : p ∈ opts) (hne : p ≠ o) : p.storage ≠ o.storage :=
  List.Pairwise.forall (fun _ _ h => Ne.symm h) hd hp ho hne

theorem post_scan_mem (opts : List Opt) (sc : Scan) :
    (post_scan opts sc).mem = sc.state.mem := by
  cases sc with
  | ret c st => rfl
  | done st =>
    simp only [post_scan, Scan.state]
    split_ifs <;> rfl

theorem frame_of_not_mentioned {opts : List Opt} (hd : StoragesDistinct opts) {o : Opt}
    (ho : o ∈ opts) {toks : List Tok} (hno : ∀ tok ∈ toks, mentions o tok = false) :
    ∀ tok ∈ toks, ∀ p ∈ opts, mentions p tok = true → p.storage ≠ o.storage := by
  intro tok ht p hp hm
  apply storage_ne_of_distinct hd ho hp
  rintro rfl
  rw [hno tok ht] at hm
  exact absurd hm (by decide)

/-! ### Diagnostics of a failed coercion -/

theorem set_value_fail_error {lc : Libc} {opt : Opt} {v : Tok} {st : State}
    (h : (set_value lc opt v st).1 ≠ 0) :
    (set_value lc opt v st).2.result.error ≠ none ∧
    (set_value lc opt v st).2.result.error ≠ some "Option requires a value" ∧
    (set_value lc opt v st).2.mem = st.mem := by
  unfold set_value at h ⊢
  cases ht : opt.type <;> cases v <;> simp only [ht] at h ⊢ <;> (try split_ifs at h ⊢) <;>
    first
      | exact absurd rfl h
      | exact ⟨by simp [State.setError], by simp [State.setError], rfl⟩

/-! ### The positional array and its count -/

theorem argsInv_zero : ArgsInv ParseResult.zero := fun _ => rfl

theorem add_positional_inv {lc : Libc} {r : ParseResult} (t : Tok) (h : ArgsInv r) :
    ArgsInv (add_positional lc r t).2 := by
  unfold add_positional
  split_ifs
  · intro hn; simp at hn
  · exact h

theorem add_rest_inv {lc : Libc} (toks : List Tok) :
    ∀ r : ParseResult, ArgsInv r → ArgsInv (add_rest lc toks r).2 := by
  induction toks with
  | nil => intro r h; exact h
  | cons t l ih =>
    intro r h
    simp only [add_rest]
    split_ifs
    · exact add_positional_inv t h
    · exact ih _ (add_positional_inv t h)

theorem set_value_inv {lc : Libc} {opt : Opt} (v : Tok) {st : State}
    (h : ArgsInv st.result) : ArgsInv (set_value lc opt v st).2.result := by
  unfold set_value
  cases opt.type <;> cases v <;> simp only [] <;> (try split_ifs) <;> exact h

theorem step_inv {lc : Libc} {opts : List Opt} (tok : Tok) (rest : List Tok) {st : State}
    (h : ArgsInv st.result) : ArgsInv (step lc opts tok rest st).state.result := by
  cases tok with
  | none => exact h
  | some arg =>
    unfold step
    simp only
    repeat' split
    all_goals first
      | exact h
      | exact add_rest_inv _ _ h
      | exact set_value_inv _ h
      | exact add_positional_inv _ h

theorem scanLoop_inv (lc : Libc) (opts : List Opt) :
    ∀ (toks : List Tok) (st : State), ArgsInv st.result →
      ArgsInv (scanLoop lc opts toks st).state.result := by
  intro toks
  generalize hlen : toks.length = n
  induction n using Nat.strong_induction_on generalizing toks with
  | _ n ih =>
    intro st h
    cases toks with
    | nil => exact h
    | cons tok r1 =>
      have hstep := @step_inv lc opts tok r1 st h
      rw [scanLoop]
      cases hs : step lc opts tok r1 st with
      | ret c s2 => rw [hs] at hstep; exact hstep
      | brk s2 => rw [hs] at hstep; exact hstep
      | next s2 =>
        rw [hs] at hstep
        exact ih r1.length (by simp [← hlen]) r1 rfl s2 hstep
      | skip s2 =>
        rw [hs] at hstep
        cases r1 with
        | nil => exact hstep
        | cons v r2 => exact ih r2.length (by simp [← hlen]; omega) r2 rfl s2 hstep

theorem post_scan_inv (opts : List Opt) (sc : Scan) (h : ArgsInv sc.state.result) :
    ∃ q, (post_scan opts sc).result = some q ∧ ArgsInv q := by
  cases sc with
  | ret c st => exact ⟨_, rfl, h⟩
  | done st =>
    simp only [post_scan]
    split_ifs
    · exact ⟨_, rfl, h⟩
    · exact ⟨_, rfl, h⟩
    · exact ⟨_, rfl, h⟩

theorem set_value_double {opt : Opt} (ht : opt.type = .OPT_DOUBLE) (lc : Libc) (v : CStr)
    (st : State) :
    set_value lc opt (some v) st =
      if (lc.strtod v).erange = true then (-1, st.setError "Double value out of range")
      else if (lc.strtod v).endp ≠ [] then (-1, st.setError "Invalid double value")
      else (0, { st with mem := st.mem.setDbl opt.value (lc.strtod v).val }) := by
  simp [set_value, ht]

/-! ### Every `return` inside the loop is a failure with a diagnostic -/

theorem step_ret_error {lc : Libc} {opts : List Opt} {tok : Tok} {rest : List Tok}
    {st s : State} {c : Int} (h : step lc opts tok rest st = .ret c s) :
    c = -1 ∧ s.result.error ≠ none := by
  cases tok with
  | none =>
    simp only [step, Step.ret.injEq] at h
    obtain ⟨rfl, rfl⟩ := h
    exact ⟨rfl, by simp [State.setError]⟩
  | some arg =>
    unfold step at h
    simp only at h
    repeat' split at h
    all_goals cases h
    all_goals refine ⟨rfl, ?_⟩
    all_goals first
      | (simp [State.setError]; done)
      | exact (set_value_fail_error ‹(set_value _ _ _ _).1 ≠ 0›).1
      | (rw [add_rest_fail_error _ _ ‹(add_rest _ _ _).1 ≠ 0›]; simp)
      | (rw [add_positional_fail_error ‹(add_positional _ _ _).1 ≠ 0›]; simp)

theorem scanLoop_ret_error (lc : Libc) (opts : List Opt) :
    ∀ (toks : List Tok) (st s : State) (c : Int), scanLoop lc opts toks st = .ret c s →
      c = -1 ∧ s.result.error ≠ none := by
  intro toks
  generalize hlen : toks.length = n
  induction n using Nat.strong_induction_on generalizing toks with
  | _ n ih =>
    intro st s c hret
    cases toks with
    | nil => simp [scanLoop] at hret
    | cons tok r1 =>
      rw [scanLoop] at hret
      cases hs : step lc opts tok r1 st with
      | ret c2 s2 =>
        simp only [hs, Scan.ret.injEq] at hret
        obtain ⟨rfl, rfl⟩ := hret
        exact step_ret_error hs
      | brk s2 => simp [hs] at hret
      | next s2 =>
        rw [hs] at hret
        exact ih r1.length (by simp [← hlen]) r1 rfl s2 s c hret
      | skip s2 =>
        rw [hs] at hret
        cases r1 with
        | nil => simp at hret
        | cons v r2 => exact ih r2.length (by simp [← hlen]; omega) r2 rfl s2 s c hret

/-! ### The descriptor a token is looked up to -/

theorem find_long_option_first {l1 l2 : List Opt} {o : Opt} {n : CStr}
    (ho : o.long_name = some n) (h : ∀ p ∈ l1, p.long_name ≠ some n) :
    find_long_option (l1 ++ o :: l2) n = some o := by
  induction l1 with
  | nil => simp [find_long_option, ho]
  | cons q l ih =>
    have hq : q.long_name ≠ some n := h q (by simp)
    simp only [List.cons_append, find_long_option, hq, if_false]
    exact ih (fun p hp => h p (by simp [hp]))

theorem find_short_option_first {l1 l2 : List Opt} {o : Opt} {c : Char}
    (ho : o.short_name = c) (h : ∀ p ∈ l1, p.short_name ≠ c) :
    find_short_option (l1 ++ o :: l2) c = some o := by
  induction l1 with
  | nil => simp [find_short_option, ho]
  | cons q l ih =>
    have hq : q.short_name ≠ c := h q (by simp)
    simp only [List.cons_append, find_short_option, hq, if_false]
    exact ih (fun p hp => h p (by simp [hp]))

theorem matchedBy_long (o : Opt) {arg : CStr} (h0 : cAt arg 0 = '-') (h1 : cAt arg 1 = '-')
    (h2 : cAt arg 2 ≠ '\x00') :
    matchedBy o (some arg) =
      decide (o.long_name = some ((arg.drop 2).takeWhile fun c => c ≠ '=')) := by
  rcases arg with _ | ⟨a, _ | ⟨b, _ | ⟨c, body⟩⟩⟩
  · simp at h0
  · simp at h1
  · simp at h2
  · simp only [cAt_cons_zero, cAt_cons_succ] at h0 h1 h2
    subst h0 h1
    simp [matchedBy, h2]

theorem matchedBy_short (o : Opt) {arg : CStr} (h0 : cAt arg 0 = '-')
    (h1 : cAt arg 1 ≠ '\x00') (h2 : cAt arg 1 ≠ '-') :
    matchedBy o (some arg) = decide (o.short_name = cAt arg 1) := by
  rcases arg with _ | ⟨a, _ | ⟨b, body⟩⟩
  · simp at h0
  · simp at h1
  · simp only [cAt_cons_zero, cAt_cons_succ] at h0 h1 h2 ⊢
    subst h0
    unfold matchedBy
    split
    · next heq =>
      injection heq with heq
      injection heq with _ heq
      injection heq with hb _
      exact absurd hb h2
    · next heq =>
      injection heq with heq
      injection heq with _ heq
      injection heq with hb _
      subst hb
      simp [h1, h2]
    · next hx hy => exact absurd rfl (hy b body)

theorem matchedBy_other (o : Opt) {arg : CStr}
    (hl : ¬(cAt arg 0 = '-' ∧ cAt arg 1 = '-' ∧ cAt arg 2 ≠ '\x00'))
    (hs : ¬(cAt arg 0 = '-' ∧ cAt arg 1 ≠ '\x00' ∧ cAt arg 1 ≠ '-')) :
    matchedBy o (some arg) = false := by
  unfold matchedBy
  split
  · next heq =>
    injection heq with heq
    subst heq
    simp only [cAt_cons_zero, cAt_cons_succ, true_and] at hl
    simp [hl]
  · next heq =>
    injection heq with heq
    subst heq
    simp only [cAt_cons_zero, cAt_cons_succ, true_and] at hs
    simp only [decide_eq_false_iff_not]
    rintro ⟨h1, h2, _⟩
    exact hs ⟨h2, h1⟩
  · rfl

theorem matchedBy_marker (o : Opt) : matchedBy o (some ['-', '-']) = false := by
  simp [matchedBy]

theorem lookup_matched {opts : List Opt} {tok : Tok} {o : Opt}
    (h : lookup opts tok = some o) : o ∈ opts ∧ matchedBy o tok = true := by
  cases tok with
  | none => simp [lookup] at h
  | some arg =>
    unfold lookup at h
    simp only at h
    split_ifs at h with hm hl hs
    · obtain ⟨hmem, hname⟩ := find_long_option_mem h
      refine ⟨hmem, ?_⟩
      rw [matchedBy_long o hl.1 hl.2.1 hl.2.2]
      simpa using hname
    · obtain ⟨hmem, hname⟩ := find_short_option_mem h
      refine ⟨hmem, ?_⟩
      rw [matchedBy_short o hs.1 hs.2.1 hs.2.2]
      simpa using hname

theorem lookup_first {opts : List Opt} {tok : Tok} {o : Opt}
    (h : FirstMatch opts tok o) : lookup opts tok = some o := by
  obtain ⟨l1, l2, rfl, hm, hno⟩ := h
  cases tok with
  | none => simp [matchedBy] at hm
  | some arg =>
    unfold lookup
    simp only
    by_cases hmark : arg = ['-', '-']
    · rw [hmark, matchedBy_marker] at hm
      exact absurd hm (by decide)
    · rw [if_neg hmark]
      by_cases hl : cAt arg 0 = '-' ∧ cAt arg 1 = '-' ∧ cAt arg 2 ≠ '\x00'
      · rw [if_pos hl]
        rw [matchedBy_long o hl.1 hl.2.1 hl.2.2] at hm
        apply find_long_option_first (by simpa using hm)
        intro p hp
        have := hno p hp
        rw [matchedBy_long p hl.1 hl.2.1 hl.2.2] at this
        simpa using this
      · rw [if_neg hl]
        by_cases hs : cAt arg 0 = '-' ∧ cAt arg 1 ≠ '\x00' ∧ cAt arg 1 ≠ '-'
        · rw [if_pos hs]
          rw [matchedBy_short o hs.1 hs.2.1 hs.2.2] at hm
          apply find_short_option_first (by simpa using hm)
          intro p hp
          have := hno p hp
          rw [matchedBy_short p hs.1 hs.2.1 hs.2.2] at this
          simpa using this
        · rw [matchedBy_other o hl hs] at hm
          exact absurd hm (by decide)

theorem lookup_none {opts : List Opt} {tok : Tok}
    (h : ∀ o ∈ opts, matchedBy o tok = false) : lookup opts tok = none := by
  cases hl : lookup opts tok with
  | none => rfl
  | some o =>
    obtain ⟨hmem, hm⟩ := lookup_matched hl
    rw [h o hmem] at hm
    exact absurd hm (by decide)

theorem step_lookup_frame {lc : Libc} {opts : List Opt} {tok : Tok} {s : Kind × Nat}
    (h : ∀ o, lookup opts tok = some o → o.storage ≠ s) (rest : List Tok) (st : State) :
    (step lc opts tok rest st).state.mem.sameAt st.mem s := by
  cases tok with
  | none => exact sameAt_refl _ _
  | some arg =>
    unfold lookup at h
    unfold step
    simp only at h ⊢
    by_cases hmark : arg = ['-', '-']
    · rw [if_pos hmark]
      split_ifs <;> exact sameAt_refl _ _
    · rw [if_neg hmark] at h ⊢
      by_cases hl : cAt arg 0 = '-' ∧ cAt arg 1 = '-' ∧ cAt arg 2 ≠ '\x00'
      · rw [if_pos hl] at h ⊢
        repeat' split
        all_goals first
          | exact sameAt_refl _ _
          | exact flag_sameAt (h _ ‹find_long_option opts _ = some _›)
              ‹_ = OptionType.OPT_FLAG› _
          | exact set_value_sameAt (h _ ‹find_long_option opts _ = some _›) _ _
      · rw [if_neg hl] at h ⊢
        by_cases hs : cAt arg 0 = '-' ∧ cAt arg 1 ≠ '\x00' ∧ cAt arg 1 ≠ '-'
        · rw [if_pos hs] at h ⊢
          repeat' split
          all_goals first
            | exact sameAt_refl _ _
            | exact flag_sameAt (h _ ‹find_short_option opts _ = some _›)
                ‹_ = OptionType.OPT_FLAG› _
            | exact set_value_sameAt (h _ ‹find_short_option opts _ = some _›) _ _
        · rw [if_neg hs]
          split_ifs <;> exact sameAt_refl _ _

theorem step_lookup_none {lc : Libc} {opts : List Opt} {tok : Tok}
    (h : lookup opts tok = none) (rest : List Tok) (st : State) :
    (step lc opts tok rest st).state.mem = st.mem := by
  cases tok with
  | none => rfl
  | some arg =>
    unfold lookup at h
    unfold step
    simp only at h ⊢
    by_cases hmark : arg = ['-', '-']
    · rw [if_pos hmark]
      split_ifs <;> rfl
    · rw [if_neg hmark] at h ⊢
      by_cases hl : cAt arg 0 = '-' ∧ cAt arg 1 = '-' ∧ cAt arg 2 ≠ '\x00'
      · rw [if_pos hl] at h ⊢
        simp only [h]
        rfl
      · rw [if_neg hl] at h ⊢
        by_cases hs : cAt arg 0 = '-' ∧ cAt arg 1 ≠ '\x00' ∧ cAt arg 1 ≠ '-'
        · rw [if_pos hs] at h ⊢
          simp only [h]
          rfl
        · rw [if_neg hs]
          split_ifs <;> rfl

theorem step_lookup_write {lc : Libc} {opts : List Opt} {tok : Tok} {o : Opt}
    (h : lookup opts tok = some o) (rest : List Tok) (st s2 : State)
    (hgo : step lc opts tok rest st = .next s2 ∨ step lc opts tok rest st = .skip s2) :
    (o.type = .OPT_FLAG ∧ s2 = { st with mem := st.mem.setInt o.value 1 }) ∨
    (o.type ≠ .OPT_FLAG ∧ ∃ v, (set_value lc o v st).1 = 0 ∧ s2 = (set_value lc o v st).2) := by
  cases tok with
  | none => simp [lookup] at h
  | some arg =>
    unfold lookup at h
    unfold step at hgo
    simp only at h hgo
    by_cases hmark : arg = ['-', '-']
    · rw [if_pos hmark] at h
      cases h
    · rw [if_neg hmark] at h hgo
      by_cases hl : cAt arg 0 = '-' ∧ cAt arg 1 = '-' ∧ cAt arg 2 ≠ '\x00'
      · rw [if_pos hl] at h hgo
        simp only [h] at hgo
        by_cases hf : o.type = .OPT_FLAG
        · left
          refine ⟨hf, ?_⟩
          simp only [hf, if_true] at hgo
          split_ifs at hgo
          · rcases hgo with hgo | hgo <;> cases hgo
          · rcases hgo with hgo | hgo <;> cases hgo
            rfl
        · right
          refine ⟨hf, ?_⟩
          simp only [hf, if_false] at hgo
          repeat' split at hgo
          all_goals rcases hgo with hgo | hgo <;> cases hgo
          all_goals exact ⟨_, not_not.mp ‹¬(set_value _ _ _ _).1 ≠ 0›, rfl⟩
      · rw [if_neg hl] at h hgo
        by_cases hs : cAt arg 0 = '-' ∧ cAt arg 1 ≠ '\x00' ∧ cAt arg 1 ≠ '-'
        · rw [if_pos hs] at h hgo
          simp only [h] at hgo
          by_cases hf : o.type = .OPT_FLAG
          · left
            refine ⟨hf, ?_⟩
            simp only [hf, if_true] at hgo
            rcases hgo with hgo | hgo <;> cases hgo
            rfl
          · right
            refine ⟨hf, ?_⟩
            simp only [hf, if_false] at hgo
            repeat' split at hgo
            all_goals rcases hgo with hgo | hgo <;> cases hgo
            all_goals exact ⟨_, not_not.mp ‹¬(set_value _ _ _ _).1 ≠ 0›, rfl⟩
        · rw [if_neg hs] at h
          cases h

/-- Frame property of the token loop, by the tokens it scans: a variable that
no descriptor matched by a scanned token points to holds after the loop what
it held before. -/
theorem scanLoop_frame_scanned (lc : Libc) (opts : List Opt) (s : Kind × Nat) :
    ∀ (toks : List Tok) (st : State),
      (∀ tok ∈ scannedTokens lc opts toks st, ∀ o ∈ opts,
        matchedBy o tok = true → o.storage ≠ s) →
      (scanLoop lc opts toks st).state.mem.sameAt st.mem s := by
  intro toks
  generalize hlen : toks.length = n
  induction n using Nat.strong_induction_on generalizing toks with
  | _ n ih =>
    intro st h
    cases toks with
    | nil => exact sameAt_refl _ _
    | cons tok r1 =>
      rw [scannedTokens] at h
      have hstep : (step lc opts tok r1 st).state.mem.sameAt st.mem s :=
        step_lookup_frame
          (fun o ho => h tok (by simp) o (lookup_matched ho).1 (lookup_matched ho).2) r1 st
      rw [scanLoop]
      cases hs : step lc opts tok r1 st with
      | ret c s2 => rw [hs] at hstep; exact hstep
      | brk s2 => rw [hs] at hstep; exact hstep
      | next s2 =>
        rw [hs] at hstep h
        exact sameAt_trans
          (ih r1.length (by simp [← hlen]) r1 rfl s2 (fun t ht => h t (by simp [ht]))) hstep
      | skip s2 =>
        rw [hs] at hstep h
        cases r1 with
        | nil => exact hstep
        | cons v r2 =>
          exact sameAt_trans
            (ih r2.length (by simp [← hlen]; omega) r2 rfl s2
              (fun t ht => h t (by simp [ht]))) hstep

/-! ### First match by name -/

theorem find_long_option_firstLong {opts : List Opt} {n : CStr} {o : Opt}
    (h : FirstLong opts n o) : find_long_option opts n = some o := by
  obtain ⟨l1, l2, rfl, ho, hno⟩ := h
  exact find_long_option_first ho hno

theorem find_short_option_firstShort {opts : List Opt} {c : Char} {o : Opt}
    (h : FirstShort opts c o) : find_short_option opts c = some o := by
  obtain ⟨l1, l2, rfl, ho, hno⟩ := h
  exact find_short_option_first ho hno

/-! ### `strtol` after leading white space -/

theorem dropWhile_isspace_idem (v : CStr) :
    (v.dropWhile isspace).dropWhile isspace = v.dropWhile isspace := by
  induction v with
  | nil => rfl
  | cons a t ih =>
    by_cases ha : isspace a = true
    · simp only [List.dropWhile_cons, ha, if_true]
      exact ih
    · have e : List.dropWhile isspace (a :: t) = a :: t := by
        rw [List.dropWhile_cons_of_neg ha]
      rw [e, e]

/-- Function `strtol` in terms of `digitsOf`: the string after the optional
sign is what `digitsOf` yields. -/
theorem strtol_eq (v : CStr) :
    strtol v =
      if (digitsOf (v.dropWhile isspace)).takeWhile isdigit = [] then ⟨0, v, false⟩
      else if (if decide ((v.dropWhile isspace).head? = some '-') = true then
            -(digitsValue ((digitsOf (v.dropWhile isspace)).takeWhile isdigit) : Int)
          else (digitsValue ((digitsOf (v.dropWhile isspace)).takeWhile isdigit) : Int))
          > LONG_MAX then
        ⟨LONG_MAX, (digitsOf (v.dropWhile isspace)).dropWhile isdigit, true⟩
      else if (if decide ((v.dropWhile isspace).head? = some '-') = true then
            -(digitsValue ((digitsOf (v.dropWhile isspace)).takeWhile isdigit) : Int)
          else (digitsValue ((digitsOf (v.dropWhile isspace)).takeWhile isdigit) : Int))
          < LONG_MIN then
        ⟨LONG_MIN, (digitsOf (v.dropWhile isspace)).dropWhile isdigit, true⟩
      else
        ⟨(if decide ((v.dropWhile isspace).head? = some '-') = true then
            -(digitsValue ((digitsOf (v.dropWhile isspace)).takeWhile isdigit) : Int)
          else (digitsValue ((digitsOf (v.dropWhile isspace)).takeWhile isdigit) : Int)),
          (digitsOf (v.dropWhile isspace)).dropWhile isdigit, false⟩ := rfl

/-- With a decimal numeral after its leading white space, `strtol` reads the
string as it reads the numeral alone. -/
theorem strtol_skip_space {v : CStr} (hv : IsNumeral (v.dropWhile isspace)) :
    strtol v = strtol (v.dropWhile isspace) := by
  obtain ⟨hne, hdig⟩ := hv
  have htake : (digitsOf (v.dropWhile isspace)).takeWhile isdigit ≠ [] := by
    rw [takeWhile_all hdig]; exact hne
  rw [strtol_eq v, strtol_eq (v.dropWhile isspace)]
  simp only [dropWhile_isspace_idem, htake, if_false]

/-- A non-empty string without a decimal numeral after its leading white
space is never consumed to its end by `strtol`. -/
theorem strtol_endp_of_not_numeral {v : CStr} (hne : v ≠ [])
    (hv : ¬IsNumeral (v.dropWhile isspace)) : (strtol v).endp ≠ [] := by
  have hdrop : (digitsOf (v.dropWhile isspace)).takeWhile isdigit ≠ [] →
      (digitsOf (v.dropWhile isspace)).dropWhile isdigit ≠ [] := by
    intro htake hnil
    apply hv
    have hsplit := List.takeWhile_append_dropWhile isdigit (digitsOf (v.dropWhile isspace))
    rw [hnil, List.append_nil] at hsplit
    refine ⟨by rw [← hsplit]; exact htake, ?_⟩
    intro c hc
    rw [← hsplit] at hc
    exact List.mem_takeWhile_imp hc
  rw [strtol_eq]
  by_cases htake : (digitsOf (v.dropWhile isspace)).takeWhile isdigit = []
  · simp only [htake, if_true]
    exact hne
  · simp only [htake, if_false]
    split_ifs <;> exact hdrop htake

theorem set_value_null {lc : Libc} {o : Opt} (hty : o.type ≠ .OPT_FLAG) (st : State) :
    (set_value lc o none st).1 = -1 ∧ (set_value lc o none st).2.mem = st.mem ∧
    (set_value lc o none st).2.result.args = st.result.args ∧
    ((set_value lc o none st).2.result.error = some "Integer option requires a value" ∨
      (set_value lc o none st).2.result.error = some "Double option requires a value" ∨
      (set_value lc o none st).2.result.error = some "String option requires a value") := by
  unfold set_value
  cases ht : o.type
  · exact absurd ht hty
  · exact ⟨rfl, rfl, rfl, Or.inl rfl⟩
  · exact ⟨rfl, rfl, rfl, Or.inr (Or.inr rfl)⟩
  · exact ⟨rfl, rfl, rfl, Or.inr (Or.inl rfl)⟩

/-- An Integer value that is, after its leading white space, a decimal numeral
within the range of `int` is stored. -/
theorem set_value_int_accept {o : Opt} (hty : o.type = .OPT_INT) (lc : Libc) {v : CStr}
    (st : State)
    (h : IsNumeral (v.dropWhile isspace) ∧ INT_MIN ≤ numeralValue (v.dropWhile isspace) ∧
      numeralValue (v.dropWhile isspace) ≤ INT_MAX) :
    set_value lc o (some v) st =
      (0, { st with mem := st.mem.setInt o.value (numeralValue (v.dropWhile isspace)) }) := by
  rw [set_value_int hty lc v, strtol_skip_space h.1,
    ← set_value_int hty lc (v.dropWhile isspace), set_value_numeral hty lc h.1, if_pos h.2]

/-- Every other non-empty Integer value is rejected with one of the two
integer diagnostics. -/
theorem set_value_int_reject {o : Opt} (hty : o.type = .OPT_INT) (lc : Libc) {v : CStr}
    (hne : v ≠ []) (st : State)
    (h : ¬(IsNumeral (v.dropWhile isspace) ∧ INT_MIN ≤ numeralValue (v.dropWhile isspace) ∧
      numeralValue (v.dropWhile isspace) ≤ INT_MAX)) :
    ∃ msg, set_value lc o (some v) st = (-1, st.setError msg) ∧
      (msg = "Invalid integer value" ∨ msg = "Integer value out of range") := by
  by_cases hu : IsNumeral (v.dropWhile isspace)
  · refine ⟨_, ?_, Or.inr rfl⟩
    rw [set_value_int hty lc v, strtol_skip_space hu,
      ← set_value_int hty lc (v.dropWhile isspace), set_value_numeral hty lc hu,
      if_neg (fun hr => h ⟨hu, hr⟩)]
  · have hend := strtol_endp_of_not_numeral hne hu
    rw [set_value_int hty lc v]
    by_cases h3 : (strtol v).erange = true ∨ (strtol v).val > INT_MAX ∨
        (strtol v).val < INT_MIN
    · exact ⟨_, by rw [if_pos h3], Or.inr rfl⟩
    · exact ⟨_, by rw [if_neg h3, if_pos hend], Or.inl rfl⟩

/-- A string with a character after its leading numeral is not empty. -/
theorem ne_nil_of_trailing {v : CStr} (hj : HasTrailingNonNumeric v) : v ≠ [] := by
  obtain ⟨c, junk, hv, _⟩ := hj
  intro h0
  rw [h0] at hv
  simp [leadingNumeral] at hv

/-! ## The claims -/

/-- C1. For a table holding a Flag, an Integer and a Text descriptor with long
names `F`, `N`, `T` (each the only descriptor of that name, the Flag and the
Integer in different variables) and no required option left unset, a decimal
numeral `k` in the signed 32-bit range, any string `s` and any strings `ps`
not beginning with `-`, `cli_parse` on `[prog, --F, --N, k, --T, s] ++ ps`
returns 0, leaves no diagnostic, stores 1 in the Flag, the value of `k` in the
Integer and `s` in the Text, and the positionals are exactly `ps`
(`arg_count` their number), provided `realloc` does not fail. -/
theorem C1_flag_integer_text_positionals (lc : Libc) (opts : List Opt)
    (oF oN oT : Opt) (F N T k s : CStr) (ps : List CStr) (prog : Tok)
    (r0 : ParseResult) (mem : Mem)
    (hreal : ∀ n, lc.realloc n = true)
    (hF : IsLong opts F oF) (hN : IsLong opts N oN) (hT : IsLong opts T oT)
    (nF : LongName F) (nN : LongName N) (nT : LongName T)
    (tF : oF.type = .OPT_FLAG) (tN : oN.type = .OPT_INT) (tT : oT.type = .OPT_STRING)
    (hdist : oF.value ≠ oN.value)
    (hk : IsNumeral k) (hlo : INT_MIN ≤ numeralValue k) (hhi : numeralValue k ≤ INT_MAX)
    (hps : ∀ p ∈ ps, p.head? ≠ some '-')
    (hreq : ∀ o ∈ opts, o.required = true →
      (o.type = .OPT_FLAG →
        (((mem.setInt oF.value 1).setInt oN.value (numeralValue k)).setStr oT.value
          (some s)).ints o.value ≠ 0) ∧
      (o.type = .OPT_STRING →
        (((mem.setInt oF.value 1).setInt oN.value (numeralValue k)).setStr oT.value
          (some s)).strs o.value ≠ none)) :
    (parse lc opts
        (prog :: longTok F :: longTok N :: some k :: longTok T :: some s :: ps.map some)
        r0 mem).code = 0 ∧
    (parse lc opts
        (prog :: longTok F :: longTok N :: some k :: longTok T :: some s :: ps.map some)
        r0 mem).mem.ints oF.value = 1 ∧
    (parse lc opts
        (prog :: longTok F :: longTok N :: some k :: longTok T :: some s :: ps.map some)
        r0 mem).mem.ints oN.value = numeralValue k ∧
    (parse lc opts
        (prog :: longTok F :: longTok N :: some k :: longTok T :: some s :: ps.map some)
        r0 mem).mem.strs oT.value = some s ∧
    ∃ r, (parse lc opts
        (prog :: longTok F :: longTok N :: some k :: longTok T :: some s :: ps.map some)
        r0 mem).result = some r ∧
      r.positionals = ps.map some ∧ r.arg_count = ps.length ∧ r.error = none := by
  have fF := find_long_option_isLong hF
  have fN := find_long_option_isLong hN
  have fT := find_long_option_isLong hT
  have s1 : ∀ rest st, step lc opts (longTok F) rest st =
      .next { st with mem := st.mem.setInt oF.value 1 } := by
    intro rest st
    rw [step_long nF]
    simp [fF, tF]
  have s2 : ∀ rest st, step lc opts (longTok N) (some k :: rest) st =
      .skip { st with mem := st.mem.setInt oN.value (numeralValue k) } := by
    intro rest st
    rw [step_long nN]
    simp [fN, tN, set_value_numeral tN lc hk, hlo, hhi]
  have s3 : ∀ rest st, step lc opts (longTok T) (some s :: rest) st =
      .skip { st with mem := st.mem.setStr oT.value (some s) } := by
    intro rest st
    rw [step_long nT]
    simp [fT, tT, set_value_string tT]
  have key : parse lc opts
      (prog :: longTok F :: longTok N :: some k :: longTok T :: some s :: ps.map some)
      r0 mem =
      ⟨0, some (ParseResult.zero.append (ps.map some)),
        ((mem.setInt oF.value 1).setInt oN.value (numeralValue k)).setStr oT.value (some s)⟩ := by
    rw [parse_eq]
    simp only [List.drop_succ_cons, List.drop_zero, resume, State.init]
    rw [scanLoop_next (s1 _ _), scanLoop_skip (s2 _ _), scanLoop_skip (s3 _ _),
      scanLoop_positionals hreal opts ps hps]
    rw [post_scan_required_ok ((required_ok_iff _ _).mpr hreq)]
  rw [key]
  refine ⟨rfl, ?_, ?_, ?_, _, rfl, ?_, ?_, ?_⟩
  · simp [Mem.setInt, Mem.setStr, hdist]
  · simp [Mem.setInt, Mem.setStr]
  · simp [Mem.setStr]
  · rw [positionals_append]
    simp [ParseResult.positionals, ParseResult.zero]
  · simp [arg_count_append, ParseResult.zero]
  · simp [error_append, ParseResult.zero]

/-- C1, Scenario A (`tests/test_basic.c`): `verbose`, `threads = 8`,
`input = test.txt` and the positionals `extra1`, `extra2`. -/
theorem C1_scenario_A :
    (parse libc0 test_basic_options
        [some "test_program".toList, some "--verbose".toList, some "--threads".toList,
          some "8".toList, some "--input".toList, some "test.txt".toList,
          some "extra1".toList, some "extra2".toList] garbage test_basic_mem).code = 0 ∧
    (parse libc0 test_basic_options
        [some "test_program".toList, some "--verbose".toList, some "--threads".toList,
          some "8".toList, some "--input".toList, some "test.txt".toList,
          some "extra1".toList, some "extra2".toList] garbage test_basic_mem).mem.ints 0 = 1 ∧
    (parse libc0 test_basic_options
        [some "test_program".toList, some "--verbose".toList, some "--threads".toList,
          some "8".toList, some "--input".toList, some "test.txt".toList,
          some "extra1".toList, some "extra2".toList] garbage test_basic_mem).mem.ints 1 = 8 ∧
    (parse libc0 test_basic_options
        [some "test_program".toList, some "--verbose".toList, some "--threads".toList,
          some "8".toList, some "--input".toList, some "test.txt".toList,
          some "extra1".toList, some "extra2".toList] garbage test_basic_mem).mem.strs 0 =
      some "test.txt".toList ∧
    ∃ r, (parse libc0 test_basic_options
        [some "test_program".toList, some "--verbose".toList, some "--threads".toList,
          some "8".toList, some "--input".toList, some "test.txt".toList,
          some "extra1".toList, some "extra2".toList] garbage test_basic_mem).result = some r ∧
      r.positionals = [some "extra1".toList, some "extra2".toList] ∧
      r.arg_count = 2 ∧ r.error = none :=
  C1_flag_integer_text_positionals libc0 test_basic_options
    ⟨some "verbose".toList, 'v', .OPT_FLAG, 0, some "Enable verbose".toList, false⟩
    ⟨some "threads".toList, 't', .OPT_INT, 1, some "Number of threads".toList, false⟩
    ⟨some "input".toList, 'i', .OPT_STRING, 0, some "Input file".toList, false⟩
    "verbose".toList "threads".toList "input".toList "8".toList "test.txt".toList
    ["extra1".toList, "extra2".toList] (some "test_program".toList) garbage test_basic_mem
    (fun _ => rfl) (by decide) (by decide) (by decide) (by decide) (by decide) (by decide)
    rfl rfl rfl (by decide) (by decide) (by decide) (by decide) (by decide) (by decide)

/-- C2. When `pre` is scanned without error and the `--` after it is reached
as a token of its own, `cli_parse` on `[prog] ++ pre ++ ["--"] ++ rest` leaves
the caller's variables as the scan of `pre` left them, and no token of `rest`
causes an option or value error: the only diagnostics possible are those of
the required check and of a failed allocation.  When `realloc` does not fail,
the return code and the diagnostic are exactly those of `cli_parse` on
`[prog] ++ pre`, and the positionals are those of `pre` followed by every
token of `rest`, unchanged and in order (the marker is not among them). -/
theorem C2_marker_makes_rest_positional (lc : Libc) (opts : List Opt) (prog : Tok)
    (pre rest : List Tok) (r0 : ParseResult) (mem : Mem) (st1 : State)
    (hpre : scanPre lc opts pre (State.init mem) = some st1) :
    (parse lc opts (prog :: (pre ++ some ['-', '-'] :: rest)) r0 mem).mem = st1.mem ∧
    (parse lc opts (prog :: (pre ++ some ['-', '-'] :: rest)) r0 mem).mem =
      (parse lc opts (prog :: pre) r0 mem).mem ∧
    (∃ r, (parse lc opts (prog :: (pre ++ some ['-', '-'] :: rest)) r0 mem).result = some r ∧
      (r.error = none ∨ r.error = some "Required option missing" ∨
        r.error = some "Memory allocation failed")) ∧
    ((∀ n, lc.realloc n = true) →
      (parse lc opts (prog :: (pre ++ some ['-', '-'] :: rest)) r0 mem).code =
        (parse lc opts (prog :: pre) r0 mem).code ∧
      ∃ r q,
        (parse lc opts (prog :: (pre ++ some ['-', '-'] :: rest)) r0 mem).result = some r ∧
        (parse lc opts (prog :: pre) r0 mem).result = some q ∧
        q.positionals = st1.result.positionals ∧
        r.positionals = st1.result.positionals ++ rest ∧
        r.arg_count = q.arg_count + rest.length ∧
        r.error = q.error ∧
        (r.error = none ∨ r.error = some "Required option missing")) := by
  have hshort : parse lc opts (prog :: pre) r0 mem = post_scan opts (.done st1) := by
    have := parse_pre hpre prog [] r0
    simpa [resume, scanLoop] using this
  have herr : st1.result.error = none := by
    rw [scanPre_error lc opts pre _ _ hpre]; rfl
  have hmem1 : (parse lc opts (prog :: (pre ++ some ['-', '-'] :: rest)) r0 mem).mem
      = st1.mem := by
    rw [parse_pre hpre prog _ r0, resume, post_scan_mem, scanLoop, step_marker]
    split_ifs <;> rfl
  have hmem2 : (parse lc opts (prog :: pre) r0 mem).mem = st1.mem := by
    rw [hshort, post_scan_mem]; rfl
  refine ⟨hmem1, hmem1.trans hmem2.symm, ?_, ?_⟩
  · rw [parse_pre hpre prog _ r0, resume]
    by_cases hfail : (add_rest lc rest st1.result).1 ≠ 0
    · have hs : step lc opts (some ['-', '-']) rest st1 =
          .ret (-1) { st1 with result := (add_rest lc rest st1.result).2 } := by
        rw [step_marker, if_pos hfail]
      rw [scanLoop_ret hs]
      exact ⟨_, rfl, Or.inr (Or.inr (add_rest_fail_error rest _ hfail))⟩
    · have hs : step lc opts (some ['-', '-']) rest st1 =
          .brk { st1 with result := (add_rest lc rest st1.result).2 } := by
        rw [step_marker, if_neg hfail]
      rw [scanLoop_brk hs]
      obtain ⟨q, hq, _, _, _, hcode⟩ := post_scan_done_result opts
        { st1 with result := (add_rest lc rest st1.result).2 }
      refine ⟨q, hq, ?_⟩
      rcases hcode with ⟨_, he⟩ | ⟨_, he⟩
      · left
        rw [he]
        exact (add_rest_error rest _ (not_not.mp hfail)).trans herr
      · right; left; exact he
  · intro hreal
    have hfull : parse lc opts (prog :: (pre ++ some ['-', '-'] :: rest)) r0 mem =
        post_scan opts (.done ⟨st1.result.append rest, st1.mem⟩) := by
      rw [parse_pre hpre prog _ r0, resume]
      have hs : step lc opts (some ['-', '-']) rest st1 =
          .brk { st1 with result := st1.result.append rest } := by
        rw [step_marker]
        simp [add_rest_ok hreal]
      rw [scanLoop_brk hs]
    obtain ⟨q, hq, hargs, hcount, hmem, hcode⟩ := post_scan_done_result opts st1
    rw [hfull, hshort, post_scan_append, hq]
    refine ⟨rfl, q.append rest, q, rfl, rfl, ?_, ?_, ?_, ?_, ?_⟩
    · simp [ParseResult.positionals, hargs]
    · rw [positionals_append]; simp [ParseResult.positionals, hargs]
    · rw [arg_count_append]
    · rw [error_append]
    · rw [error_append]
      rcases hcode with ⟨_, he⟩ | ⟨_, he⟩
      · left; rw [he, herr]
      · right; exact he

/-- C2 on `[prog, --verbose, extra, --, --verbose, -x, --]` against the table
of `tests/test_basic.c`: the three tokens after the marker are positionals. -/
theorem C2_marker_witness :
    (parse libc0 test_basic_options
        (some "prog".toList :: ([some "--verbose".toList, some "extra".toList] ++
          some ['-', '-'] :: [some "--verbose".toList, some "-x".toList, some "--".toList]))
        garbage test_basic_mem).code = 0 ∧
    ∃ r, (parse libc0 test_basic_options
        (some "prog".toList :: ([some "--verbose".toList, some "extra".toList] ++
          some ['-', '-'] :: [some "--verbose".toList, some "-x".toList, some "--".toList]))
        garbage test_basic_mem).result = some r ∧
      r.positionals = [some "extra".toList, some "--verbose".toList, some "-x".toList,
        some "--".toList] ∧
      r.error = none := by
  obtain ⟨hcode, r, q, hr, hq, _, hpos, _, herr, _⟩ :=
    (C2_marker_makes_rest_positional libc0 test_basic_options (some "prog".toList)
      [some "--verbose".toList, some "extra".toList]
      [some "--verbose".toList, some "-x".toList, some "--".toList] garbage test_basic_mem
      ⟨⟨some [some "extra".toList], 1, none⟩, test_basic_mem.setInt 0 1⟩ rfl).2.2.2
      (fun _ => rfl)
  have hq2 : (parse libc0 test_basic_options
      (some "prog".toList :: [some "--verbose".toList, some "extra".toList])
      garbage test_basic_mem).result = some ⟨some [some "extra".toList], 1, none⟩ := by decide
  have hc2 : (parse libc0 test_basic_options
      (some "prog".toList :: [some "--verbose".toList, some "extra".toList])
      garbage test_basic_mem).code = 0 := by decide
  rw [hq2] at hq
  cases hq
  exact ⟨hcode.trans hc2, r, hr, hpos, herr⟩

/-- C3. When the scan reaches a token `--name` or `--name=value` whose name
(the part before the first `=`) is the long name of no descriptor, or a token
`-c...` whose `c` is the short name of no descriptor, `cli_parse` returns -1
with the diagnostic "Unknown option", the caller's variables as the scan left
them. -/
theorem C3_unknown_option (lc : Libc) (opts : List Opt) (prog : Tok)
    (pre rest : List Tok) (tok : Tok) (r0 : ParseResult) (mem : Mem) (st1 : State)
    (hpre : scanPre lc opts pre (State.init mem) = some st1)
    (htok :
      (∃ name, LongName name ∧ tok = longTok name ∧ ∀ o ∈ opts, o.long_name ≠ some name) ∨
      (∃ name value, '=' ∉ name ∧ NulFree name ∧ tok = longEqTok name value ∧
        ∀ o ∈ opts, o.long_name ≠ some name) ∨
      (∃ c cs, ShortName c ∧ tok = shortTok c cs ∧ ∀ o ∈ opts, o.short_name ≠ c)) :
    (parse lc opts (prog :: (pre ++ tok :: rest)) r0 mem).code = -1 ∧
    (parse lc opts (prog :: (pre ++ tok :: rest)) r0 mem).mem = st1.mem ∧
    ∃ r, (parse lc opts (prog :: (pre ++ tok :: rest)) r0 mem).result = some r ∧
      r.error = some "Unknown option" := by
  have hs : step lc opts tok rest st1 = .ret (-1) (st1.setError "Unknown option") := by
    rcases htok with ⟨name, hn, rfl, hno⟩ | ⟨name, value, heq, hnul, rfl, hno⟩ |
        ⟨c, cs, hc, rfl, hno⟩
    · rw [step_long hn, find_long_option_none hno]
    · rw [step_longEq heq hnul, find_long_option_none hno]
    · rw [step_short hc, find_short_option_none hno]
  rw [parse_pre hpre prog _ r0, resume, scanLoop_ret hs]
  exact ⟨rfl, rfl, _, rfl, rfl⟩

/-- C3, Scenario C (`test_unknown_option`): `[test, --unknown-option]` against
the table holding only the `help` flag. -/
theorem C3_scenario_C :
    (parse libc0 test_unknown_options
        (some "test".toList :: ([] ++ longTok "unknown-option".toList :: []))
        garbage mem0).code = -1 ∧
    (parse libc0 test_unknown_options
        (some "test".toList :: ([] ++ longTok "unknown-option".toList :: []))
        garbage mem0).mem = mem0 ∧
    ∃ r, (parse libc0 test_unknown_options
        (some "test".toList :: ([] ++ longTok "unknown-option".toList :: []))
        garbage mem0).result = some r ∧
      r.error = some "Unknown option" :=
  C3_unknown_option libc0 test_unknown_options (some "test".toList) [] []
    (longTok "unknown-option".toList) garbage mem0 (State.init mem0) rfl
    (Or.inl ⟨"unknown-option".toList, by decide, rfl, by decide⟩)

/-- C4, as stated, fails: the value " 12" has a non-numeric character (the
blank) after its empty leading numeral, yet `[test, --number, " 12"]` parses
successfully and stores 12, `strtol` skipping leading white space. -/
theorem C4_counterexample_leading_space :
    HasTrailingNonNumeric " 12".toList ∧
    (parse libc0 test_integer_options
      [some "test".toList, some "--number".toList, some " 12".toList] garbage mem0).code = 0 ∧
    (parse libc0 test_integer_options
      [some "test".toList, some "--number".toList, some " 12".toList] garbage mem0).mem.ints 1
      = 12 :=
  ⟨⟨' ', "12".toList, by decide, by decide⟩, by decide, by decide⟩

/-- C4, amended. For an Integer descriptor and a value string `v` that has a
non-numeric character after its (possibly empty) leading decimal numeral,
supplied as the option's value (as the next token or inline after `=`):
unless `v` is white space followed by a complete decimal numeral denoting an
integer in `[INT_MIN, INT_MAX]`, `cli_parse` returns -1 with an integer
diagnostic and nothing is stored, the caller's variables being as the scan
left them before that value; in the excepted case the integer is stored and
`cli_parse` goes on with the tokens after the value. -/
theorem C4_invalid_integer_rejected (lc : Libc) (opts : List Opt) (prog : Tok)
    (pre rest toks : List Tok) (o : Opt) (v : CStr) (r0 : ParseResult) (mem : Mem)
    (st1 : State)
    (hpre : scanPre lc opts pre (State.init mem) = some st1)
    (hty : o.type = .OPT_INT) (hsup : Supplies opts o v toks)
    (hjunk : HasTrailingNonNumeric v) :
    (¬(IsNumeral (v.dropWhile isspace) ∧ INT_MIN ≤ numeralValue (v.dropWhile isspace) ∧
        numeralValue (v.dropWhile isspace) ≤ INT_MAX) →
      (parse lc opts (prog :: (pre ++ (toks ++ rest))) r0 mem).code = -1 ∧
      (parse lc opts (prog :: (pre ++ (toks ++ rest))) r0 mem).mem = st1.mem ∧
      ∃ r, (parse lc opts (prog :: (pre ++ (toks ++ rest))) r0 mem).result = some r ∧
        (r.error = some "Invalid integer value" ∨
          r.error = some "Integer value out of range")) ∧
    (IsNumeral (v.dropWhile isspace) ∧ INT_MIN ≤ numeralValue (v.dropWhile isspace) ∧
        numeralValue (v.dropWhile isspace) ≤ INT_MAX →
      (∃ c, v.head? = some c ∧ isspace c = true) ∧
      parse lc opts (prog :: (pre ++ (toks ++ rest))) r0 mem =
        resume lc opts rest
          { st1 with
            mem := st1.mem.setInt o.value (numeralValue (v.dropWhile isspace)) }) := by
  have hflag : o.type ≠ .OPT_FLAG := by rw [hty]; decide
  refine ⟨?_, ?_⟩
  · intro h
    obtain ⟨msg, hm, hmsg⟩ := set_value_int_reject hty lc (ne_nil_of_trailing hjunk) st1 h
    have hne1 : ((-1 : Int), st1.setError msg).1 ≠ 0 := by
      show ((-1 : Int) ≠ 0)
      decide
    rw [parse_pre hpre prog _ r0, resume, scanLoop_supply hsup hflag, hm, if_pos hne1]
    refine ⟨rfl, rfl, _, rfl, ?_⟩
    rcases hmsg with rfl | rfl
    · exact Or.inl rfl
    · exact Or.inr rfl
  · intro h
    refine ⟨?_, ?_⟩
    · rcases v with _ | ⟨x, t⟩
      · exact absurd rfl (ne_nil_of_trailing hjunk)
      · refine ⟨x, rfl, ?_⟩
        by_contra hx
        have hx0 : isspace x = false := by simpa using hx
        have hsp : NoLeadingSpace (x :: t) := by
          intro c hc
          have hcx : c = x := by simpa using hc.symm
          rw [hcx]
          exact hx0
        have e1 : List.dropWhile isspace (x :: t) = x :: t := by
          rw [List.dropWhile_cons_of_neg]
          simp [hx0]
        have hend := strtol_endp_of_trailing hjunk hsp
        have hnum := h.1
        rw [e1] at hnum
        have hst := strtol_numeral hnum
        apply hend
        rw [hst]
        split_ifs <;> rfl
    · rw [parse_pre hpre prog _ r0, resume, scanLoop_supply hsup hflag,
        set_value_int_accept hty lc st1 h]
      simp [resume]

/-- C4, Scenario B (`test_invalid_integer`): `[test, --number, abc]` is
rejected and stores nothing; so is `[test, --number, " 12x"]`, white space
followed by an incomplete numeral. -/
theorem C4_scenario_B :
    ((parse libc0 test_integer_options
      (some "test".toList :: ([] ++ ([longTok "number".toList, some "abc".toList] ++ [])))
      garbage mem0).code = -1 ∧
    (parse libc0 test_integer_options
      (some "test".toList :: ([] ++ ([longTok "number".toList, some "abc".toList] ++ [])))
      garbage mem0).mem = mem0 ∧
    ∃ r, (parse libc0 test_integer_options
      (some "test".toList :: ([] ++ ([longTok "number".toList, some "abc".toList] ++ [])))
      garbage mem0).result = some r ∧
      (r.error = some "Invalid integer value" ∨
        r.error = some "Integer value out of range")) ∧
    ((parse libc0 test_integer_options
      (some "test".toList :: ([] ++ ([longTok "number".toList, some " 12x".toList] ++ [])))
      garbage mem0).code = -1 ∧
    (parse libc0 test_integer_options
      (some "test".toList :: ([] ++ ([longTok "number".toList, some " 12x".toList] ++ [])))
      garbage mem0).mem = mem0 ∧
    ∃ r, (parse libc0 test_integer_options
      (some "test".toList :: ([] ++ ([longTok "number".toList, some " 12x".toList] ++ [])))
      garbage mem0).result = some r ∧
      (r.error = some "Invalid integer value" ∨
        r.error = some "Integer value out of range")) :=
  ⟨(C4_invalid_integer_rejected libc0 test_integer_options (some "test".toList) [] []
      [longTok "number".toList, some "abc".toList]
      ⟨some "number".toList, 'n', .OPT_INT, 1, some "Number".toList, false⟩ "abc".toList
      garbage mem0 (State.init mem0) rfl rfl
      (Or.inl ⟨"number".toList, by decide, by decide, rfl⟩)
      ⟨'a', "bc".toList, by decide, by decide⟩).1 (by decide),
    (C4_invalid_integer_rejected libc0 test_integer_options (some "test".toList) [] []
      [longTok "number".toList, some " 12x".toList]
      ⟨some "number".toList, 'n', .OPT_INT, 1, some "Number".toList, false⟩ " 12x".toList
      garbage mem0 (State.init mem0) rfl rfl
      (Or.inl ⟨"number".toList, by decide, by decide, rfl⟩)
      ⟨' ', "12x".toList, by decide, by decide⟩).1 (by decide)⟩

/-- C5. For a decimal numeral `v` denoting `n`, supplied as the value of an
Integer option: the coercion succeeds exactly when `INT_MIN ≤ n ≤ INT_MAX`;
in that range `n` is stored and `cli_parse` goes on with the tokens after the
value; outside it `cli_parse` returns -1 with the diagnostic "Integer value
out of range" and the caller's variables are as the scan left them. -/
theorem C5_integer_range (lc : Libc) (opts : List Opt) (prog : Tok)
    (pre rest toks : List Tok) (o : Opt) (v : CStr) (r0 : ParseResult) (mem : Mem)
    (st1 : State)
    (hpre : scanPre lc opts pre (State.init mem) = some st1)
    (hty : o.type = .OPT_INT) (hsup : Supplies opts o v toks) (hv : IsNumeral v) :
    ((set_value lc o (some v) st1).1 = 0 ↔
      INT_MIN ≤ numeralValue v ∧ numeralValue v ≤ INT_MAX) ∧
    (INT_MIN ≤ numeralValue v ∧ numeralValue v ≤ INT_MAX →
      parse lc opts (prog :: (pre ++ (toks ++ rest))) r0 mem =
        resume lc opts rest { st1 with mem := st1.mem.setInt o.value (numeralValue v) }) ∧
    (¬(INT_MIN ≤ numeralValue v ∧ numeralValue v ≤ INT_MAX) →
      (parse lc opts (prog :: (pre ++ (toks ++ rest))) r0 mem).code = -1 ∧
      (parse lc opts (prog :: (pre ++ (toks ++ rest))) r0 mem).mem = st1.mem ∧
      ∃ r, (parse lc opts (prog :: (pre ++ (toks ++ rest))) r0 mem).result = some r ∧
        r.error = some "Integer value out of range") := by
  have hflag : o.type ≠ .OPT_FLAG := by rw [hty]; decide
  have hset := set_value_numeral hty lc hv st1
  refine ⟨?_, ?_, ?_⟩
  · rw [hset]
    split_ifs with h <;> simp [h]
  · intro h
    rw [parse_pre hpre prog _ r0, resume, scanLoop_supply hsup hflag, hset, if_pos h]
    simp [resume]
  · intro h
    rw [parse_pre hpre prog _ r0, resume, scanLoop_supply hsup hflag, hset, if_neg h]
    exact ⟨rfl, rfl, _, rfl, rfl⟩

/-- C5 at the boundary, against the table of `test_invalid_integer`:
"2147483648" is rejected with "Integer value out of range" and nothing is
stored, "2147483647" is stored and the call returns 0. -/
theorem C5_boundary :
    ((parse libc0 test_integer_options
        (some "test".toList ::
          ([] ++ ([longTok "number".toList, some "2147483648".toList] ++ [])))
        garbage mem0).code = -1 ∧
      (parse libc0 test_integer_options
        (some "test".toList ::
          ([] ++ ([longTok "number".toList, some "2147483648".toList] ++ [])))
        garbage mem0).mem = mem0 ∧
      ∃ r, (parse libc0 test_integer_options
        (some "test".toList ::
          ([] ++ ([longTok "number".toList, some "2147483648".toList] ++ [])))
        garbage mem0).result = some r ∧
        r.error = some "Integer value out of range") ∧
    ((parse libc0 test_integer_options
        (some "test".toList ::
          ([] ++ ([longTok "number".toList, some "2147483647".toList] ++ [])))
        garbage mem0).code = 0 ∧
      (parse libc0 test_integer_options
        (some "test".toList ::
          ([] ++ ([longTok "number".toList, some "2147483647".toList] ++ [])))
        garbage mem0).mem.ints 1 = 2147483647) := by
  constructor
  · exact (C5_integer_range libc0 test_integer_options (some "test".toList) [] []
      [longTok "number".toList, some "2147483648".toList]
      ⟨some "number".toList, 'n', .OPT_INT, 1, some "Number".toList, false⟩
      "2147483648".toList garbage mem0 (State.init mem0) rfl rfl
      (Or.inl ⟨"number".toList, by decide, by decide, rfl⟩) (by decide)).2.2 (by decide)
  · rw [(C5_integer_range libc0 test_integer_options (some "test".toList) [] []
      [longTok "number".toList, some "2147483647".toList]
      ⟨some "number".toList, 'n', .OPT_INT, 1, some "Number".toList, false⟩
      "2147483647".toList garbage mem0 (State.init mem0) rfl rfl
      (Or.inl ⟨"number".toList, by decide, by decide, rfl⟩) (by decide)).2.1 (by decide)]
    exact ⟨by decide, by decide⟩

/-- C6. When the scan completes without error in state `st` and no help flag
is true there, `cli_parse` returns -1 with "Required option missing" exactly
when some required descriptor is a Flag whose variable is 0 or a Text whose
variable is `NULL` in `st`; otherwise it returns 0. -/
theorem C6_required_check (lc : Libc) (opts : List Opt) (prog : Tok) (toks : List Tok)
    (r0 : ParseResult) (mem : Mem) (st : State)
    (hscan : scanLoop lc opts toks (State.init mem) = .done st)
    (hhelp : ¬∃ o ∈ opts, o.type = .OPT_FLAG ∧
      (o.long_name = some ['h', 'e', 'l', 'p'] ∨ o.short_name = 'h') ∧
      st.mem.ints o.value ≠ 0) :
    (((parse lc opts (prog :: toks) r0 mem).code = -1 ∧
        ∃ r, (parse lc opts (prog :: toks) r0 mem).result = some r ∧
          r.error = some "Required option missing") ↔
      ∃ o ∈ opts, o.required = true ∧
        (o.type = .OPT_FLAG ∧ st.mem.ints o.value = 0 ∨
          o.type = .OPT_STRING ∧ st.mem.strs o.value = none)) ∧
    ((¬∃ o ∈ opts, o.required = true ∧
        (o.type = .OPT_FLAG ∧ st.mem.ints o.value = 0 ∨
          o.type = .OPT_STRING ∧ st.mem.strs o.value = none)) →
      (parse lc opts (prog :: toks) r0 mem).code = 0) := by
  have hh : help_requested opts st.mem = false := by
    cases hb : help_requested opts st.mem with
    | false => rfl
    | true => exact absurd ((help_requested_iff opts st.mem).mp hb) hhelp
  have hreq : required_ok opts st.mem = true ↔
      ¬∃ o ∈ opts, o.required = true ∧
        (o.type = .OPT_FLAG ∧ st.mem.ints o.value = 0 ∨
          o.type = .OPT_STRING ∧ st.mem.strs o.value = none) := by
    rw [required_ok_iff]
    constructor
    · rintro h ⟨o, ho, hr, h1 | h1⟩
      · exact (h o ho hr).1 h1.1 h1.2
      · exact (h o ho hr).2 h1.1 h1.2
    · intro h o ho hr
      exact ⟨fun ht h0 => h ⟨o, ho, hr, Or.inl ⟨ht, h0⟩⟩,
        fun ht h0 => h ⟨o, ho, hr, Or.inr ⟨ht, h0⟩⟩⟩
  have hparse : parse lc opts (prog :: toks) r0 mem = post_scan opts (.done st) := by
    rw [parse_eq]
    simp only [List.drop_succ_cons, List.drop_zero, resume, hscan]
  rw [hparse]
  by_cases hok : required_ok opts st.mem = true
  · have hno := hreq.mp hok
    rw [post_scan_required_ok hok]
    refine ⟨⟨fun h => ?_, fun h => absurd h hno⟩, fun _ => rfl⟩
    have h1 : (0 : Int) = -1 := h.1
    exact absurd h1 (by decide)
  · have hex : ∃ o ∈ opts, o.required = true ∧
        (o.type = .OPT_FLAG ∧ st.mem.ints o.value = 0 ∨
          o.type = .OPT_STRING ∧ st.mem.strs o.value = none) := by
      by_contra hc
      exact hok (hreq.mpr hc)
    have hp : post_scan opts (.done st) =
        ⟨-1, some { st.result with error := some "Required option missing" }, st.mem⟩ := by
      simp [post_scan, hh, hok]
    rw [hp]
    exact ⟨⟨fun _ => hex, fun _ => ⟨rfl, _, rfl, rfl⟩⟩, fun h => absurd hex h⟩

/-- C6 on `[prog, --verbose]` against the table of `examples/simple_example.c`:
the required Text option `input` is `NULL` after the scan and no help flag is
set, so the call fails with "Required option missing". -/
theorem C6_required_text_missing :
    (parse libc0 simple_example_options [some "prog".toList, some "--verbose".toList]
      garbage simple_example_mem).code = -1 ∧
    ∃ r, (parse libc0 simple_example_options [some "prog".toList, some "--verbose".toList]
      garbage simple_example_mem).result = some r ∧
      r.error = some "Required option missing" :=
  (C6_required_check libc0 simple_example_options (some "prog".toList)
    [some "--verbose".toList] garbage simple_example_mem
    ⟨ParseResult.zero, simple_example_mem.setInt 1 1⟩ rfl (by decide)).1.mpr
    ⟨⟨some "input".toList, 'i', .OPT_STRING, 0, some "Input file path".toList, true⟩,
      by decide, rfl, Or.inr ⟨rfl, rfl⟩⟩

/-- C7. When the scan completes without error in state `st` and some Flag
descriptor with long name `help` or short name `h` has a non-zero variable
there, `cli_parse` returns 0 without a diagnostic, however many required
descriptors are unset. -/
theorem C7_help_skips_required_check (lc : Libc) (opts : List Opt) (prog : Tok)
    (toks : List Tok) (r0 : ParseResult) (mem : Mem) (st : State)
    (hscan : scanLoop lc opts toks (State.init mem) = .done st)
    (hhelp : ∃ o ∈ opts, o.type = .OPT_FLAG ∧
      (o.long_name = some ['h', 'e', 'l', 'p'] ∨ o.short_name = 'h') ∧
      st.mem.ints o.value ≠ 0) :
    (parse lc opts (prog :: toks) r0 mem).code = 0 ∧
    (parse lc opts (prog :: toks) r0 mem).mem = st.mem ∧
    ∃ r, (parse lc opts (prog :: toks) r0 mem).result = some r ∧ r.error = none := by
  have hparse : parse lc opts (prog :: toks) r0 mem = post_scan opts (.done st) := by
    rw [parse_eq]
    simp only [List.drop_succ_cons, List.drop_zero, resume, hscan]
  rw [hparse, post_scan_help ((help_requested_iff opts st.mem).mpr hhelp)]
  refine ⟨rfl, rfl, _, rfl, ?_⟩
  rw [scanLoop_done_error lc opts toks _ _ hscan]
  rfl

/-- C7, Scenario D: `[prog, --help]` against the table of
`examples/simple_example.c`, whose required Text option `input` stays `NULL`. -/
theorem C7_scenario_D :
    (parse libc0 simple_example_options [some "prog".toList, some "--help".toList]
      garbage simple_example_mem).code = 0 ∧
    (parse libc0 simple_example_options [some "prog".toList, some "--help".toList]
      garbage simple_example_mem).mem.strs 0 = none ∧
    ∃ r, (parse libc0 simple_example_options [some "prog".toList, some "--help".toList]
      garbage simple_example_mem).result = some r ∧ r.error = none := by
  obtain ⟨hc, hm, hr⟩ := C7_help_skips_required_check libc0 simple_example_options
    (some "prog".toList) [some "--help".toList] garbage simple_example_mem
    ⟨ParseResult.zero, simple_example_mem.setInt 0 1⟩ rfl
    ⟨⟨some "help".toList, 'h', .OPT_FLAG, 0, some "Show this help message".toList, false⟩,
      by decide, rfl, Or.inl rfl, by decide⟩
  exact ⟨hc, by rw [hm]; rfl, hr⟩

/-- C10. For a Flag descriptor with long name `n`, a token `--n=v` reached by
the scan (any `v`, the empty string included) makes `cli_parse` return -1 with
"Flag option does not accept a value" and stores nothing; the token `--n` sets
the flag's variable to 1 and `cli_parse` goes on with the very next token. -/
theorem C10_flag_takes_no_value (lc : Libc) (opts : List Opt) (prog : Tok)
    (pre rest : List Tok) (o : Opt) (n v : CStr) (r0 : ParseResult) (mem : Mem)
    (st1 : State)
    (hpre : scanPre lc opts pre (State.init mem) = some st1)
    (hty : o.type = .OPT_FLAG) (hl : IsLong opts n o) (hn : LongName n) :
    ((parse lc opts (prog :: (pre ++ longEqTok n v :: rest)) r0 mem).code = -1 ∧
      (parse lc opts (prog :: (pre ++ longEqTok n v :: rest)) r0 mem).mem = st1.mem ∧
      ∃ r, (parse lc opts (prog :: (pre ++ longEqTok n v :: rest)) r0 mem).result = some r ∧
        r.error = some "Flag option does not accept a value") ∧
    parse lc opts (prog :: (pre ++ longTok n :: rest)) r0 mem =
      resume lc opts rest { st1 with mem := st1.mem.setInt o.value 1 } := by
  constructor
  · have hs : step lc opts (longEqTok n v) rest st1 =
        .ret (-1) (st1.setError "Flag option does not accept a value") := by
      rw [step_longEq hn.2.1 hn.2.2, find_long_option_isLong hl]
      simp [hty]
    rw [parse_pre hpre prog _ r0, resume, scanLoop_ret hs]
    exact ⟨rfl, rfl, _, rfl, rfl⟩
  · have hs : step lc opts (longTok n) rest st1 =
        .next { st1 with mem := st1.mem.setInt o.value 1 } := by
      rw [step_long hn, find_long_option_isLong hl]
      simp [hty]
    rw [parse_pre hpre prog _ r0, resume, scanLoop_next hs, resume]

/-- C10 against the table of `tests/test_basic.c`: `--verbose=` (empty inline
value) is rejected and `verbose` stays 0; `--verbose extra` sets `verbose` and
leaves `extra` a positional. -/
theorem C10_verbose_witness :
    ((parse libc0 test_basic_options
        (some "prog".toList :: ([] ++ longEqTok "verbose".toList [] :: []))
        garbage test_basic_mem).code = -1 ∧
      (parse libc0 test_basic_options
        (some "prog".toList :: ([] ++ longEqTok "verbose".toList [] :: []))
        garbage test_basic_mem).mem.ints 0 = 0 ∧
      ∃ r, (parse libc0 test_basic_options
        (some "prog".toList :: ([] ++ longEqTok "verbose".toList [] :: []))
        garbage test_basic_mem).result = some r ∧
        r.error = some "Flag option does not accept a value") ∧
    ((parse libc0 test_basic_options
        (some "prog".toList :: ([] ++ longTok "verbose".toList :: [some "extra".toList]))
        garbage test_basic_mem).mem.ints 0 = 1 ∧
      (parse libc0 test_basic_options
        (some "prog".toList :: ([] ++ longTok "verbose".toList :: [some "extra".toList]))
        garbage test_basic_mem).result = some ⟨some [some "extra".toList], 1, none⟩) := by
  have h := C10_flag_takes_no_value libc0 test_basic_options (some "prog".toList) []
    [] ⟨some "verbose".toList, 'v', .OPT_FLAG, 0, some "Enable verbose".toList, false⟩
    "verbose".toList [] garbage test_basic_mem (State.init test_basic_mem) rfl rfl
    (by decide) (by decide)
  have h2 := C10_flag_takes_no_value libc0 test_basic_options (some "prog".toList) []
    [some "extra".toList]
    ⟨some "verbose".toList, 'v', .OPT_FLAG, 0, some "Enable verbose".toList, false⟩
    "verbose".toList [] garbage test_basic_mem (State.init test_basic_mem) rfl rfl
    (by decide) (by decide)
  obtain ⟨⟨hc, hm, hr⟩, _⟩ := h
  refine ⟨⟨hc, by rw [hm]; rfl, hr⟩, ?_⟩
  rw [h2.2]
  exact ⟨by decide, by decide⟩


/-- C8. In a table whose required descriptors all have type Integer or Float,
every token sequence whose scan completes without error makes `cli_parse`
return 0 without a diagnostic; and a required descriptor that no token names
keeps in its variable the value it had before the call (descriptors pointing
to distinct variables). -/
theorem C8_required_numeric_never_missing (lc : Libc) (opts : List Opt) (prog : Tok)
    (toks : List Tok) (r0 : ParseResult) (mem : Mem) (st : State)
    (hnum : ∀ o ∈ opts, o.required = true → o.type = .OPT_INT ∨ o.type = .OPT_DOUBLE)
    (hscan : scanLoop lc opts toks (State.init mem) = .done st) :
    (parse lc opts (prog :: toks) r0 mem).code = 0 ∧
    (∃ r, (parse lc opts (prog :: toks) r0 mem).result = some r ∧ r.error = none) ∧
    (StoragesDistinct opts →
      ∀ o ∈ opts, o.required = true → (∀ tok ∈ toks, mentions o tok = false) →
        (o.type = .OPT_INT →
          (parse lc opts (prog :: toks) r0 mem).mem.ints o.value = mem.ints o.value) ∧
        (o.type = .OPT_DOUBLE →
          (parse lc opts (prog :: toks) r0 mem).mem.dbls o.value = mem.dbls o.value)) := by
  have hok : required_ok opts st.mem = true := by
    rw [required_ok_iff]
    intro o ho hr
    rcases hnum o ho hr with ht | ht <;> simp [ht]
  have hparse : parse lc opts (prog :: toks) r0 mem = post_scan opts (.done st) := by
    rw [parse_eq]
    simp only [List.drop_succ_cons, List.drop_zero, resume, hscan]
  rw [hparse, post_scan_required_ok hok]
  refine ⟨rfl, ⟨_, rfl, ?_⟩, ?_⟩
  · rw [scanLoop_done_error lc opts toks _ _ hscan]
    rfl
  · intro hd o ho _ hno
    have hf := scanLoop_frame lc opts o.storage toks (State.init mem)
      (frame_of_not_mentioned hd ho hno)
    rw [hscan] at hf
    constructor
    · intro ht
      simpa [Mem.sameAt, Opt.storage, Opt.kind, ht, Scan.state, State.init] using hf
    · intro ht
      simpa [Mem.sameAt, Opt.storage, Opt.kind, ht, Scan.state, State.init] using hf

/-- C8 on `[prog, --verbose]` against a table with a required Integer and a
required Float, neither supplied: the call returns 0. -/
theorem C8_required_numeric_witness :
    (parse libc0 required_numeric_options [some "prog".toList, some "--verbose".toList]
      garbage mem0).code = 0 ∧
    ∃ r, (parse libc0 required_numeric_options [some "prog".toList, some "--verbose".toList]
      garbage mem0).result = some r ∧ r.error = none :=
  have h := C8_required_numeric_never_missing libc0 required_numeric_options
    (some "prog".toList) [some "--verbose".toList] garbage mem0
    ⟨ParseResult.zero, mem0.setInt 0 1⟩ (by decide) rfl
  ⟨h.1, h.2.1⟩

/-- C9. Last match wins: when the tokens `toks` supply `v` to an Integer or
Text descriptor `o` (by long name, inline or not, or by short name), no token
after them names `o`, descriptors point to distinct variables and `cli_parse`
returns 0, then the variable of `o` holds the coerced `v` after the call: the
integer `strtol` reads (the value the numeral denotes, when `v` is a decimal
numeral), or the string `v` itself; whatever was supplied before. -/
theorem C9_last_match_wins (lc : Libc) (opts : List Opt) (prog : Tok)
    (pre toks rest : List Tok) (o : Opt) (v : CStr) (r0 : ParseResult) (mem : Mem)
    (st1 : State)
    (hd : StoragesDistinct opts)
    (hpre : scanPre lc opts pre (State.init mem) = some st1)
    (hsup : Supplies opts o v toks)
    (hlast : ∀ tok ∈ rest, mentions o tok = false)
    (hok : (parse lc opts (prog :: (pre ++ (toks ++ rest))) r0 mem).code = 0) :
    (o.type = .OPT_INT →
      (parse lc opts (prog :: (pre ++ (toks ++ rest))) r0 mem).mem.ints o.value =
        (strtol v).val ∧
      (IsNumeral v →
        (parse lc opts (prog :: (pre ++ (toks ++ rest))) r0 mem).mem.ints o.value =
          numeralValue v)) ∧
    (o.type = .OPT_STRING →
      (parse lc opts (prog :: (pre ++ (toks ++ rest))) r0 mem).mem.strs o.value = some v) := by
  have ho : o ∈ opts := by
    rcases hsup with ⟨_, _, hl, _⟩ | ⟨_, _, _, hl, _⟩ | ⟨_, _, _, hl, _⟩ <;> exact hl.1
  have hframe := fun st2 => scanLoop_frame lc opts o.storage rest st2
    (frame_of_not_mentioned hd ho hlast)
  rw [parse_pre hpre prog _ r0, resume] at hok ⊢
  constructor
  · intro ht
    have hflag : o.type ≠ .OPT_FLAG := by rw [ht]; decide
    rw [scanLoop_supply hsup hflag] at hok ⊢
    by_cases h0 : (set_value lc o (some v) st1).1 ≠ 0
    · rw [if_pos h0] at hok
      have hm1 : (-1 : Int) = 0 := hok
      exact absurd hm1 (by decide)
    · rw [if_neg h0, post_scan_mem]
      have hf := hframe (set_value lc o (some v) st1).2
      have hval : (set_value lc o (some v) st1).2.mem.ints o.value = (strtol v).val ∧
          (IsNumeral v → (strtol v).val = numeralValue v) := by
        rw [set_value_int ht] at h0 ⊢
        split_ifs at h0 ⊢ with h1 h2
        · exact absurd (show ((-1 : Int) ≠ 0) by decide) h0
        · exact absurd (show ((-1 : Int) ≠ 0) by decide) h0
        · refine ⟨by simp [Mem.setInt], fun hv => ?_⟩
          have h3 := strtol_numeral hv
          rw [h3] at h1
          rw [h3]
          unfold LONG_MAX LONG_MIN INT_MAX INT_MIN at *
          split_ifs at h1 ⊢ <;> simp_all
      have hsame : (scanLoop lc opts rest (set_value lc o (some v) st1).2).state.mem.ints
          o.value = (set_value lc o (some v) st1).2.mem.ints o.value := by
        simpa [Mem.sameAt, Opt.storage, Opt.kind, ht] using hf
      rw [hsame, hval.1]
      exact ⟨rfl, hval.2⟩
  · intro ht
    have hflag : o.type ≠ .OPT_FLAG := by rw [ht]; decide
    rw [scanLoop_supply hsup hflag] at hok ⊢
    rw [set_value_string ht] at hok ⊢
    simp only [ne_eq, not_true_eq_false, if_false] at hok ⊢
    rw [post_scan_mem]
    have hf := hframe { st1 with mem := st1.mem.setStr o.value (some v) }
    have hsame : (scanLoop lc opts rest
        { st1 with mem := st1.mem.setStr o.value (some v) }).state.mem.strs o.value =
        (st1.mem.setStr o.value (some v)).strs o.value := by
      simpa [Mem.sameAt, Opt.storage, Opt.kind, ht] using hf
    rw [hsame]
    simp [Mem.setStr]

/-- C9 on `[prog, --threads, 2, --verbose, -t, 8, extra]` against the table of
`tests/test_basic.c`: `threads` ends as 8, the value of its last occurrence. -/
theorem C9_threads_witness :
    (parse libc0 test_basic_options
      (some "prog".toList :: ([longTok "threads".toList, some "2".toList,
        some "--verbose".toList] ++ ([shortTok 't' [], some "8".toList] ++
        [some "extra".toList]))) garbage test_basic_mem).mem.ints 1 = 8 := by
  have h := (C9_last_match_wins libc0 test_basic_options (some "prog".toList)
    [longTok "threads".toList, some "2".toList, some "--verbose".toList]
    [shortTok 't' [], some "8".toList] [some "extra".toList]
    ⟨some "threads".toList, 't', .OPT_INT, 1, some "Number of threads".toList, false⟩
    "8".toList garbage test_basic_mem
    ⟨ParseResult.zero, (test_basic_mem.setInt 1 2).setInt 0 1⟩
    (by decide) rfl (Or.inr (Or.inr ⟨'t', [], by decide, by decide, rfl⟩)) (by decide)
    (by decide)).1 rfl
  exact h.2 (by decide)

/-- C11. When the scan reaches, as the last token of the sequence, the option
token of a value-bearing descriptor (`--n` without inline value, or `-c` with
any characters attached), `cli_parse` returns -1 with "Option requires a
value" and stores nothing; when the last token is `--n=v` instead, the
diagnostic "Option requires a value" does not arise. -/
theorem C11_missing_value (lc : Libc) (opts : List Opt) (prog : Tok) (pre : List Tok)
    (o : Opt) (tok : Tok) (r0 : ParseResult) (mem : Mem) (st1 : State)
    (hpre : scanPre lc opts pre (State.init mem) = some st1)
    (hty : o.type ≠ .OPT_FLAG)
    (htok : (∃ n, LongName n ∧ IsLong opts n o ∧ tok = longTok n) ∨
      (∃ c cs, ShortName c ∧ IsShort opts c o ∧ tok = shortTok c cs)) :
    ((parse lc opts (prog :: (pre ++ [tok])) r0 mem).code = -1 ∧
      (parse lc opts (prog :: (pre ++ [tok])) r0 mem).mem = st1.mem ∧
      ∃ r, (parse lc opts (prog :: (pre ++ [tok])) r0 mem).result = some r ∧
        r.error = some "Option requires a value") ∧
    ∀ n v, LongName n → IsLong opts n o →
      ∃ r, (parse lc opts (prog :: (pre ++ [longEqTok n v])) r0 mem).result = some r ∧
        r.error ≠ some "Option requires a value" := by
  have herr : st1.result.error = none := by
    rw [scanPre_error lc opts pre _ _ hpre]; rfl
  constructor
  · have hs : step lc opts tok [] st1 =
        .ret (-1) (st1.setError "Option requires a value") := by
      rcases htok with ⟨n, hn, hl, rfl⟩ | ⟨c, cs, hc, hsh, rfl⟩
      · rw [step_long hn, find_long_option_isLong hl]
        simp [hty]
      · rw [step_short hc, find_short_option_isShort hsh]
        simp [hty]
    rw [parse_pre hpre prog _ r0, resume, scanLoop_ret hs]
    exact ⟨rfl, rfl, _, rfl, rfl⟩
  · intro n v hn hl
    rw [parse_pre hpre prog _ r0, resume]
    have hs := @step_longEq lc opts n hn.2.1 hn.2.2 v [] st1
    simp only [find_long_option_isLong hl, hty, if_false] at hs
    by_cases h0 : (set_value lc o (some v) st1).1 ≠ 0
    · rw [if_pos h0] at hs
      rw [scanLoop_ret hs]
      exact ⟨_, rfl, (set_value_fail_error h0).2.1⟩
    · rw [if_neg h0] at hs
      rw [scanLoop_next hs, scanLoop]
      obtain ⟨q, hq, _, _, _, hcode⟩ := post_scan_done_result opts (set_value lc o (some v) st1).2
      refine ⟨q, hq, ?_⟩
      rcases hcode with ⟨_, he⟩ | ⟨_, he⟩
      · rw [he, set_value_result (not_not.mp h0), herr]
        simp
      · rw [he]
        decide

/-- C11 against the table of `tests/test_basic.c`: `[prog, --verbose, -t]`
ends with the Integer option `threads` and no value. -/
theorem C11_threads_witness :
    (parse libc0 test_basic_options
      (some "prog".toList :: ([some "--verbose".toList] ++ [shortTok 't' []]))
      garbage test_basic_mem).code = -1 ∧
    (parse libc0 test_basic_options
      (some "prog".toList :: ([some "--verbose".toList] ++ [shortTok 't' []]))
      garbage test_basic_mem).mem.ints 1 = 4 ∧
    ∃ r, (parse libc0 test_basic_options
      (some "prog".toList :: ([some "--verbose".toList] ++ [shortTok 't' []]))
      garbage test_basic_mem).result = some r ∧
      r.error = some "Option requires a value" := by
  obtain ⟨hc, hm, hr⟩ := (C11_missing_value libc0 test_basic_options (some "prog".toList)
    [some "--verbose".toList]
    ⟨some "threads".toList, 't', .OPT_INT, 1, some "Number of threads".toList, false⟩
    (shortTok 't' []) garbage test_basic_mem
    ⟨ParseResult.zero, test_basic_mem.setInt 0 1⟩ rfl (by decide)
    (Or.inr ⟨'t', [], by decide, by decide, rfl⟩)).1
  exact ⟨hc, by rw [hm]; rfl, hr⟩

/-- C12. For the result structure a call of `cli_parse` leaves once it has
passed argument validation (pointers present, counts not negative), whether
the parse succeeded or not: `cli_free` leaves `args` absent and
`arg_count = 0`, and a second `cli_free` changes nothing. -/
theorem C12_cli_free_idempotent (lc : Libc) (argc : Int) (argv : List Tok)
    (options : List Opt) (option_count : Int) (r0 : ParseResult) (mem : Mem)
    (hargc : 0 ≤ argc) (hcount : 0 ≤ option_count) :
    (∃ q, cli_free (cli_parse lc argc (some argv) (some options) option_count (some r0)
        mem).result = some q ∧
      q.args = none ∧ q.arg_count = 0 ∧ q.positionals = []) ∧
    cli_free (cli_free (cli_parse lc argc (some argv) (some options) option_count (some r0)
        mem).result) =
      cli_free (cli_parse lc argc (some argv) (some options) option_count (some r0)
        mem).result := by
  have hnot : ¬(argc < 0 ∨ option_count < 0) := by omega
  obtain ⟨q, hq, hinv⟩ := post_scan_inv (options.take option_count.toNat)
    (scanLoop lc (options.take option_count.toNat) ((argv.take argc.toNat).drop 1)
      ⟨ParseResult.zero, mem⟩)
    (scanLoop_inv lc _ _ _ argsInv_zero)
  have hres : (cli_parse lc argc (some argv) (some options) option_count (some r0)
      mem).result = some q := by
    simp only [cli_parse, hnot, if_false]
    exact hq
  rw [hres]
  cases ha : q.args with
  | none =>
    have h0 := hinv ha
    simp [cli_free, ha, h0, ParseResult.positionals]
  | some l =>
    simp [cli_free, ha, ParseResult.positionals]

/-- C12 after the failed parse of `[prog, extra, --threads]` against the
table of `tests/test_basic.c` (one positional, then a missing value). -/
theorem C12_after_failed_parse :
    (∃ q, cli_free (cli_parse libc0 3 (some [some "prog".toList, some "extra".toList,
        some "--threads".toList]) (some test_basic_options) 3 (some garbage)
        test_basic_mem).result = some q ∧
      q.args = none ∧ q.arg_count = 0 ∧ q.positionals = []) ∧
    cli_free (cli_free (cli_parse libc0 3 (some [some "prog".toList, some "extra".toList,
        some "--threads".toList]) (some test_basic_options) 3 (some garbage)
        test_basic_mem).result) =
      cli_free (cli_parse libc0 3 (some [some "prog".toList, some "extra".toList,
        some "--threads".toList]) (some test_basic_options) 3 (some garbage)
        test_basic_mem).result :=
  C12_cli_free_idempotent libc0 3 [some "prog".toList, some "extra".toList,
    some "--threads".toList] test_basic_options 3 garbage test_basic_mem (by decide)
    (by decide)

/-- C13. The text of `cli_usage` begins with the line
`Usage: P [options] [arguments]` (`program` for an absent `P`); with a
description `D` it goes on with an empty line and `D` on a line of its own, so
`D` occurs in it verbatim; without a description the rest of the text follows
the first line directly. -/
theorem C13_usage_header_and_description (P : Option CStr) (opts : List Opt) (n : Int)
    (D : CStr) :
    ∃ tail : CStr,
      cli_usage P opts n (some D) =
        "Usage: ".toList ++ P.getD "program".toList ++ " [options] [arguments]\n".toList ++
          ("\n".toList ++ D ++ "\n".toList) ++ tail ∧
      cli_usage P opts n none =
        "Usage: ".toList ++ P.getD "program".toList ++ " [options] [arguments]\n".toList ++
          tail ∧
      D <:+: cli_usage P opts n (some D) := by
  refine ⟨if n > 0 then
      "\nOptions:\n".toList ++ ((opts.take n.toNat).map usage_block).flatten else [], ?_, ?_, ?_⟩
  · cases P <;> simp [cli_usage]
  · cases P <;> simp [cli_usage]
  · refine ⟨"Usage: ".toList ++ P.getD "program".toList ++
        " [options] [arguments]\n".toList ++ "\n".toList,
      "\n".toList ++ (if n > 0 then
        "\nOptions:\n".toList ++ ((opts.take n.toNat).map usage_block).flatten else []), ?_⟩
    cases P <;> simp [cli_usage]

/-- C14 fails on a descriptor with only a short name: for the Integer
descriptor `-n` the text of `cli_usage` has no `<num>`, while the same
descriptor with the long name `number` gets it. -/
theorem C14_short_only_integer_has_no_hint :
    cli_usage (some "prog".toList) [⟨none, 'n', .OPT_INT, 0, some "Count".toList, false⟩] 1
        none =
      "Usage: prog [options] [arguments]\n\nOptions:\n  -n\n      Count\n".toList ∧
    cli_usage (some "prog".toList)
        [⟨some "number".toList, 'n', .OPT_INT, 0, some "Count".toList, false⟩] 1 none =
      "Usage: prog [options] [arguments]\n\nOptions:\n  -n, --number <num>\n      Count\n".toList :=
  ⟨by decide, by decide⟩

/-- C15, what holds and where it fails.  With `option_count = 0` the text
ends after the first line and the description; for a non-empty table it goes
on with an empty line, `Options:` and one block per descriptor in table
order.  A block is two spaces, `-c` or four spaces, `, ` when both names are
present, then `--name` followed by the type hint when the long name is
present, ` (required)` when required, the help text on a next line after six
spaces when present, and a newline.  The type hint is written only after a
long name: the block of the required Text descriptor `-o` has no `<string>`. -/
theorem C15_usage_layout :
    (∀ (P : Option CStr) (opts : List Opt) (D : Option CStr),
      cli_usage P opts 0 D =
        "Usage: ".toList ++ P.getD "program".toList ++ " [options] [arguments]\n".toList ++
          (match D with
            | some d => "\n".toList ++ d ++ "\n".toList
            | none => [])) ∧
    (∀ (P : Option CStr) (opts : List Opt) (D : Option CStr), opts ≠ [] →
      cli_usage P opts opts.length D =
        cli_usage P opts 0 D ++ "\nOptions:\n".toList ++ (opts.map usage_block).flatten) ∧
    (∀ o : Opt, usage_block o =
      "  ".toList ++
      (if o.short_name ≠ '\x00' then ['-', o.short_name] else "    ".toList) ++
      (if o.short_name ≠ '\x00' ∧ o.long_name ≠ none then ", ".toList else []) ++
      (match o.long_name with
        | some n => "--".toList ++ n ++ type_hint o.type
        | none => []) ++
      (if o.required = true then " (required)".toList else []) ++
      (match o.help with
        | some h => "\n      ".toList ++ h
        | none => []) ++
      "\n".toList) ∧
    usage_block ⟨none, 'o', .OPT_STRING, 0, some "Output file".toList, true⟩ =
      "  -o (required)\n      Output file\n".toList := by
  refine ⟨?_, ?_, ?_, by decide⟩
  · intro P opts D
    cases P <;> cases D <;> simp [cli_usage]
  · intro P opts D hne
    have hpos : (0 : Int) < opts.length := by
      cases opts with
      | nil => exact absurd rfl hne
      | cons a l => simp only [List.length_cons]; omega
    cases P <;> cases D <;> simp [cli_usage, hpos]
  · intro o
    unfold usage_block
    by_cases hs : o.short_name = '\x00' <;> cases hl : o.long_name <;> simp [hs]

/-- C16, as stated, fails where the token is not scanned as an option: after
`--input` the token `-vt` is consumed as the value, so replacing it by `-v`
changes the Text storage. -/
theorem C16_counterexample_value_position :
    (parse libc0 test_basic_options
      [some "prog".toList, some "--input".toList, some "-vt".toList] garbage
      test_basic_mem).mem.strs 0 = some "-vt".toList ∧
    (parse libc0 test_basic_options
      [some "prog".toList, some "--input".toList, some "-v".toList] garbage
      test_basic_mem).mem.strs 0 = some "-v".toList :=
  ⟨by decide, by decide⟩

/-- C16, amended. When the scan reaches a token `-c` followed by any
characters (`c` other than `-`), `cli_parse` does exactly what it does with
the two-character token `-c` in its place: same return code, result structure
and variables. -/
theorem C16_attached_characters_ignored (lc : Libc) (opts : List Opt) (prog : Tok)
    (pre rest : List Tok) (c : Char) (cs : CStr) (r0 : ParseResult) (mem : Mem)
    (st1 : State)
    (hpre : scanPre lc opts pre (State.init mem) = some st1) (hc : ShortName c) :
    parse lc opts (prog :: (pre ++ shortTok c cs :: rest)) r0 mem =
      parse lc opts (prog :: (pre ++ shortTok c [] :: rest)) r0 mem := by
  rw [parse_pre hpre prog _ r0, parse_pre hpre prog _ r0, resume, resume, scanLoop, scanLoop,
    step_short hc cs, step_short hc []]

/-- C16 against the table of `tests/test_basic.c`: `-vt` sets `verbose` and
leaves `threads` at 4, as `-v` does; `-t8` takes the value of `threads` from
the next token. -/
theorem C16_combined_flags_witness :
    parse libc0 test_basic_options
        (some "prog".toList :: ([] ++ shortTok 'v' ['t'] :: [])) garbage test_basic_mem =
      parse libc0 test_basic_options
        (some "prog".toList :: ([] ++ shortTok 'v' [] :: [])) garbage test_basic_mem ∧
    (parse libc0 test_basic_options
        (some "prog".toList :: ([] ++ shortTok 'v' ['t'] :: [])) garbage
        test_basic_mem).mem.ints 0 = 1 ∧
    (parse libc0 test_basic_options
        (some "prog".toList :: ([] ++ shortTok 'v' ['t'] :: [])) garbage
        test_basic_mem).mem.ints 1 = 4 ∧
    (parse libc0 test_basic_options
        (some "prog".toList :: ([] ++ shortTok 't' ['8'] :: [some "5".toList])) garbage
        test_basic_mem).mem.ints 1 = 5 := by
  have h1 := C16_attached_characters_ignored libc0 test_basic_options (some "prog".toList)
    [] [] 'v' ['t'] garbage test_basic_mem (State.init test_basic_mem) rfl (by decide)
  have h2 := C16_attached_characters_ignored libc0 test_basic_options (some "prog".toList)
    [] [some "5".toList] 't' ['8'] garbage test_basic_mem (State.init test_basic_mem) rfl
    (by decide)
  refine ⟨h1, ?_, ?_, ?_⟩
  · rw [h1]; decide
  · rw [h1]; decide
  · rw [h2]; decide

/-- C17, as stated, fails when the converted prefix overflows: "1e999x" is
not consumed to its end, yet the diagnostic is "Double value out of range",
the `ERANGE` test coming first in `set_value`. -/
theorem C17_counterexample_overflow_first :
    (libc_huge.strtod "1e999x".toList).endp = ['x'] ∧
    (parse libc_huge test_double_options
      [some "test".toList, some "--ratio".toList, some "1e999x".toList] garbage
      mem0).code = -1 ∧
    (parse libc_huge test_double_options
      [some "test".toList, some "--ratio".toList, some "1e999x".toList] garbage
      mem0).result = some ⟨none, 0, some "Double value out of range"⟩ :=
  ⟨by decide, by decide, by decide⟩

/-- C17, amended. For a Float descriptor and a value string that `strtod`
does not consume to its end, supplying that string as the option's value
makes `cli_parse` return -1 and store nothing; the diagnostic is "Invalid
double value" unless the conversion also reported a range error, in which
case it is "Double value out of range". -/
theorem C17_invalid_double_rejected (lc : Libc) (opts : List Opt) (prog : Tok)
    (pre rest toks : List Tok) (o : Opt) (v : CStr) (r0 : ParseResult) (mem : Mem)
    (st1 : State)
    (hpre : scanPre lc opts pre (State.init mem) = some st1)
    (hty : o.type = .OPT_DOUBLE) (hsup : Supplies opts o v toks)
    (hjunk : (lc.strtod v).endp ≠ []) :
    (parse lc opts (prog :: (pre ++ (toks ++ rest))) r0 mem).code = -1 ∧
    (parse lc opts (prog :: (pre ++ (toks ++ rest))) r0 mem).mem = st1.mem ∧
    ∃ r, (parse lc opts (prog :: (pre ++ (toks ++ rest))) r0 mem).result = some r ∧
      ((lc.strtod v).erange = false → r.error = some "Invalid double value") ∧
      ((lc.strtod v).erange = true → r.error = some "Double value out of range") := by
  have hflag : o.type ≠ .OPT_FLAG := by rw [hty]; decide
  rw [parse_pre hpre prog _ r0, resume, scanLoop_supply hsup hflag, set_value_double hty]
  by_cases hr : (lc.strtod v).erange = true
  · rw [if_pos hr]
    exact ⟨rfl, rfl, _, rfl, fun h => absurd hr (by simp [h]), fun _ => rfl⟩
  · rw [if_neg hr, if_pos hjunk]
    exact ⟨rfl, rfl, _, rfl, fun _ => rfl, fun h => absurd h hr⟩

/-- C17 on `[test, --ratio, not_a_number]` (`test_invalid_double`), `strtod`
converting nothing of that string. -/
theorem C17_invalid_double_witness :
    (parse libc0 test_double_options
      (some "test".toList :: ([] ++ ([longTok "ratio".toList, some "not_a_number".toList] ++
        []))) garbage mem0).code = -1 ∧
    (parse libc0 test_double_options
      (some "test".toList :: ([] ++ ([longTok "ratio".toList, some "not_a_number".toList] ++
        []))) garbage mem0).mem = mem0 ∧
    ∃ r, (parse libc0 test_double_options
      (some "test".toList :: ([] ++ ([longTok "ratio".toList, some "not_a_number".toList] ++
        []))) garbage mem0).result = some r ∧
      r.error = some "Invalid double value" := by
  obtain ⟨hc, hm, r, hr, he, _⟩ := C17_invalid_double_rejected libc0 test_double_options
    (some "test".toList) [] [] [longTok "ratio".toList, some "not_a_number".toList]
    ⟨some "ratio".toList, 'r', .OPT_DOUBLE, 0, some "Ratio".toList, false⟩
    "not_a_number".toList garbage mem0 (State.init mem0) rfl rfl
    (Or.inl ⟨"ratio".toList, by decide, by decide, rfl⟩) (by decide)
  exact ⟨hc, hm, r, hr, he rfl⟩

/-- C18. Every call of `cli_parse` with a present result structure returns 0
or -1, and returns 0 exactly when `result.error` is absent afterwards: a
failing call leaves a diagnostic, a successful one leaves none (whatever the
structure held before); a call with an absent `argv` or `options` or a
negative count fails with "Invalid arguments". -/
theorem C18_return_code_matches_error (lc : Libc) (argc : Int) (argv : Option (List Tok))
    (options : Option (List Opt)) (option_count : Int) (r0 : ParseResult) (mem : Mem) :
    ∃ r, (cli_parse lc argc argv options option_count (some r0) mem).result = some r ∧
      ((cli_parse lc argc argv options option_count (some r0) mem).code = 0 ↔
        r.error = none) ∧
      ((cli_parse lc argc argv options option_count (some r0) mem).code = 0 ∨
        (cli_parse lc argc argv options option_count (some r0) mem).code = -1) ∧
      ((cli_parse lc argc argv options option_count (some r0) mem).code = -1 →
        ∃ msg, r.error = some msg) ∧
      (argv = none ∨ options = none ∨ argc < 0 ∨ option_count < 0 →
        (cli_parse lc argc argv options option_count (some r0) mem).code = -1 ∧
        r.error = some "Invalid arguments") := by
  cases argv with
  | none => exact ⟨_, rfl, by simp [cli_parse], Or.inr rfl, fun _ => ⟨_, rfl⟩, fun _ => ⟨rfl, rfl⟩⟩
  | some av =>
    cases options with
    | none =>
      exact ⟨_, rfl, by simp [cli_parse], Or.inr rfl, fun _ => ⟨_, rfl⟩, fun _ => ⟨rfl, rfl⟩⟩
    | some os =>
      by_cases hneg : argc < 0 ∨ option_count < 0
      · have hcall : cli_parse lc argc (some av) (some os) option_count (some r0) mem =
            ⟨-1, some { r0 with error := some "Invalid arguments" }, mem⟩ := by
          simp only [cli_parse, hneg, if_true]
        rw [hcall]
        exact ⟨_, rfl, by simp, Or.inr rfl, fun _ => ⟨_, rfl⟩, fun _ => ⟨rfl, rfl⟩⟩
      · have hcall : cli_parse lc argc (some av) (some os) option_count (some r0) mem =
            post_scan (os.take option_count.toNat)
              (scanLoop lc (os.take option_count.toNat) ((av.take argc.toNat).drop 1)
                ⟨ParseResult.zero, mem⟩) := by
          simp only [cli_parse, hneg, if_false]
        rw [hcall]
        have hvalid : ¬(some av = none ∨ some os = none ∨ argc < 0 ∨ option_count < 0) := by
          simpa using hneg
        cases hsc : scanLoop lc (os.take option_count.toNat) ((av.take argc.toNat).drop 1)
            ⟨ParseResult.zero, mem⟩ with
        | ret c s =>
          obtain ⟨rfl, herr⟩ := scanLoop_ret_error lc _ _ _ _ _ hsc
          refine ⟨s.result, rfl, ?_, Or.inr rfl, fun _ => ?_, fun h => absurd h hvalid⟩
          · simp only [post_scan]
            constructor
            · intro h; exact absurd h (by decide)
            · intro h; exact absurd h herr
          · cases he : s.result.error with
            | none => exact absurd he herr
            | some msg => exact ⟨msg, rfl⟩
        | done s =>
          have herr : s.result.error = none := by
            rw [scanLoop_done_error lc _ _ _ _ hsc]; rfl
          obtain ⟨q, hq, _, _, _, hcode⟩ := post_scan_done_result (os.take option_count.toNat) s
          refine ⟨q, hq, ?_, ?_, ?_, fun h => absurd h hvalid⟩
          · rcases hcode with ⟨hc, he⟩ | ⟨hc, he⟩
            · rw [hc, he, herr]; simp
            · rw [hc, he]; simp
          · rcases hcode with ⟨hc, _⟩ | ⟨hc, _⟩
            · exact Or.inl hc
            · exact Or.inr hc
          · intro h
            rcases hcode with ⟨hc, _⟩ | ⟨_, he⟩
            · rw [hc] at h; exact absurd h (by decide)
            · exact ⟨_, he⟩

/-- C19. When no token after the program name begins with `-`, `cli_parse`
leaves the caller's variables as they were and the positionals are those
tokens, in order (`arg_count` their number, `argc - 1`), `realloc` not
failing; the token at index 0 is never read, so the call does the same for
every program name; and with no token at all (`argc = 0`) the positional list
is empty. -/
theorem C19_positionals_only (lc : Libc) (opts : List Opt) (prog : Tok) (ps : List CStr)
    (r0 : ParseResult) (mem : Mem)
    (hreal : ∀ n, lc.realloc n = true)
    (hps : ∀ p ∈ ps, p.head? ≠ some '-') :
    (parse lc opts (prog :: ps.map some) r0 mem).mem = mem ∧
    (∃ r, (parse lc opts (prog :: ps.map some) r0 mem).result = some r ∧
      r.positionals = ps.map some ∧
      r.arg_count = ((prog :: ps.map some).length : Int) - 1) ∧
    (∀ other : Tok, parse lc opts (other :: ps.map some) r0 mem =
      parse lc opts (prog :: ps.map some) r0 mem) ∧
    (parse lc opts [] r0 mem).mem = mem ∧
    ∃ r, (parse lc opts [] r0 mem).result = some r ∧ r.positionals = [] ∧
      r.arg_count = 0 := by
  have hmain : parse lc opts (prog :: ps.map some) r0 mem =
      post_scan opts (.done ⟨ParseResult.zero.append (ps.map some), mem⟩) := by
    rw [parse_eq]
    simp only [List.drop_succ_cons, List.drop_zero, resume, State.init]
    rw [scanLoop_positionals hreal opts ps hps]
  have hempty : parse lc opts [] r0 mem = post_scan opts (.done ⟨ParseResult.zero, mem⟩) := by
    rw [parse_eq]
    simp [resume, State.init, scanLoop]
  obtain ⟨q, hq, hargs, hcount, hmem, _⟩ :=
    post_scan_done_result opts ⟨ParseResult.zero.append (ps.map some), mem⟩
  obtain ⟨q0, hq0, hargs0, hcount0, hmem0, _⟩ :=
    post_scan_done_result opts ⟨ParseResult.zero, mem⟩
  refine ⟨by rw [hmain]; exact hmem, ⟨q, by rw [hmain]; exact hq, ?_, ?_⟩, ?_,
    by rw [hempty]; exact hmem0, q0, by rw [hempty]; exact hq0, ?_, ?_⟩
  · have := positionals_append ParseResult.zero (ps.map some)
    simp only [ParseResult.positionals] at this ⊢
    rw [hargs, this]
    simp [ParseResult.zero]
  · rw [hcount, arg_count_append]
    simp [ParseResult.zero]
  · intro other
    rw [parse_eq, parse_eq]
    rfl
  · simp [ParseResult.positionals, hargs0, ParseResult.zero]
  · rw [hcount0]; rfl

/-- C19 on `[--bogus, extra1, extra2]` against the table of
`tests/test_basic.c`: the program name looks like an option and is not read. -/
theorem C19_positionals_witness :
    (parse libc0 test_basic_options
      (some "--bogus".toList :: ["extra1".toList, "extra2".toList].map some) garbage
      test_basic_mem).mem = test_basic_mem ∧
    ∃ r, (parse libc0 test_basic_options
      (some "--bogus".toList :: ["extra1".toList, "extra2".toList].map some) garbage
      test_basic_mem).result = some r ∧
      r.positionals = ["extra1".toList, "extra2".toList].map some ∧
      r.arg_count = 2 := by
  obtain ⟨hm, ⟨r, hr, hp, hc⟩, _⟩ := C19_positionals_only libc0 test_basic_options
    (some "--bogus".toList) ["extra1".toList, "extra2".toList] garbage test_basic_mem
    (fun _ => rfl) (by decide)
  exact ⟨hm, r, hr, hp, by rw [hc]; rfl⟩

/-- C20. In a table whose descriptors point to pairwise distinct variables:
after `cli_parse` returns, with success or not, the variable of every
descriptor matched by no scanned token holds the value it had before the
call; and a pass of the loop over a token writes through the first descriptor
in table order that the token matches and through no other: the variables of
all other descriptors are unchanged by the pass, a pass that goes on has
stored 1 (Flag) or the coerced value (other types) in that first descriptor's
variable, and a token that matches no descriptor changes no variable. -/
theorem C20_defaults_preserved (lc : Libc) (opts : List Opt) (prog : Tok)
    (toks : List Tok) (r0 : ParseResult) (mem : Mem)
    (hd : StoragesDistinct opts) :
    (∀ o ∈ opts,
      (∀ tok ∈ scannedTokens lc opts toks (State.init mem), matchedBy o tok = false) →
      (parse lc opts (prog :: toks) r0 mem).mem.sameAt mem o.storage) ∧
    (∀ (tok : Tok) (rest : List Tok) (st : State) (o : Opt), FirstMatch opts tok o →
      (∀ p ∈ opts, p ≠ o → (step lc opts tok rest st).state.mem.sameAt st.mem p.storage) ∧
      (∀ s2, step lc opts tok rest st = .next s2 ∨ step lc opts tok rest st = .skip s2 →
        (o.type = .OPT_FLAG ∧ s2.mem = st.mem.setInt o.value 1) ∨
        (o.type ≠ .OPT_FLAG ∧
          ∃ v, (set_value lc o v st).1 = 0 ∧ s2.mem = (set_value lc o v st).2.mem))) ∧
    (∀ (tok : Tok) (rest : List Tok) (st : State),
      (∀ o ∈ opts, matchedBy o tok = false) →
      (step lc opts tok rest st).state.mem = st.mem) := by
  refine ⟨?_, ?_, ?_⟩
  · intro o ho hno
    rw [parse_eq]
    simp only [List.drop_succ_cons, List.drop_zero, resume, post_scan_mem]
    apply scanLoop_frame_scanned lc opts o.storage toks (State.init mem)
    intro tok ht p hp hm
    apply storage_ne_of_distinct hd ho hp
    rintro rfl
    rw [hno tok ht] at hm
    exact absurd hm (by decide)
  · intro tok rest st o hfm
    have hlook := lookup_first hfm
    have ho : o ∈ opts := (lookup_matched hlook).1
    constructor
    · intro p hp hne
      apply step_lookup_frame
      intro q hq
      rw [hlook] at hq
      cases hq
      exact fun e => storage_ne_of_distinct hd ho hp hne e.symm
    · intro s2 hgo
      rcases step_lookup_write hlook rest st s2 hgo with ⟨hf, rfl⟩ | ⟨hf, v, hv, rfl⟩
      · exact Or.inl ⟨hf, rfl⟩
      · exact Or.inr ⟨hf, v, hv, rfl⟩
  · intro tok rest st hno
    exact step_lookup_none (lookup_none hno) rest st

/-- C20 on `[prog, --verbose, extra, --threads]` against the table of
`tests/test_basic.c`: the call fails on the missing value, `threads` and
`input`, which received nothing, keep 4 and `NULL`. -/
theorem C20_defaults_witness :
    (parse libc0 test_basic_options
      [some "prog".toList, some "--verbose".toList, some "extra".toList,
        some "--threads".toList] garbage test_basic_mem).code = -1 ∧
    (parse libc0 test_basic_options
      [some "prog".toList, some "--verbose".toList, some "extra".toList,
        some "--threads".toList] garbage test_basic_mem).mem.strs 0 = none ∧
    (parse libc0 test_basic_options
      [some "prog".toList, some "--verbose".toList, some "extra".toList,
        some "--threads".toList] garbage test_basic_mem).mem.ints 1 = 4 := by
  have h := (C20_defaults_preserved libc0 test_basic_options (some "prog".toList)
    [some "--verbose".toList, some "extra".toList, some "--threads".toList] garbage
    test_basic_mem (by decide)).1
    ⟨some "input".toList, 'i', .OPT_STRING, 0, some "Input file".toList, false⟩
    (by decide) (by decide)
  exact ⟨by decide, h, by decide⟩

/-- C21, as stated, fails where the token is not scanned as an option: after
`--input` the token `--threads=5` is consumed as the value, while of the two
tokens `--threads`, `5` only the first is, so the Text storage differs. -/
theorem C21_counterexample_value_position :
    (parse libc0 test_basic_options
      [some "prog".toList, some "--input".toList, some "--threads=5".toList] garbage
      test_basic_mem).mem.strs 0 = some "--threads=5".toList ∧
    (parse libc0 test_basic_options
      [some "prog".toList, some "--input".toList, some "--threads".toList, some "5".toList]
      garbage test_basic_mem).mem.strs 0 = some "--threads".toList :=
  ⟨by decide, by decide⟩

/-- C21, amended. For a value-bearing descriptor found by the long name `n`
(not empty, without `=`) and any string `v`: when the scan reaches the token
`--n=v`, `cli_parse` does exactly what it does with the two tokens `--n`, `v`
in its place, namely it coerces and stores the whole of `v` (everything after
the first `=`) and goes on with the token after, or returns -1 with the
coercion's diagnostic. -/
theorem C21_inline_value_equivalent (lc : Libc) (opts : List Opt) (prog : Tok)
    (pre rest : List Tok) (o : Opt) (n v : CStr) (r0 : ParseResult) (mem : Mem)
    (st1 : State)
    (hpre : scanPre lc opts pre (State.init mem) = some st1)
    (hn : LongName n) (hfirst : FirstLong opts n o) (hty : o.type ≠ .OPT_FLAG) :
    parse lc opts (prog :: (pre ++ longEqTok n v :: rest)) r0 mem =
      parse lc opts (prog :: (pre ++ longTok n :: some v :: rest)) r0 mem ∧
    parse lc opts (prog :: (pre ++ longEqTok n v :: rest)) r0 mem =
      (if (set_value lc o (some v) st1).1 ≠ 0 then
        ⟨-1, some (set_value lc o (some v) st1).2.result, (set_value lc o (some v) st1).2.mem⟩
      else resume lc opts rest (set_value lc o (some v) st1).2) := by
  have hfind := find_long_option_firstLong hfirst
  have h1 := @step_longEq lc opts n hn.2.1 hn.2.2 v rest st1
  have h2 := @step_long lc opts n hn (some v :: rest) st1
  simp only [hfind, hty, if_false] at h1 h2
  rw [parse_pre hpre prog _ r0, parse_pre hpre prog _ r0, resume, resume]
  by_cases h0 : (set_value lc o (some v) st1).1 ≠ 0
  · rw [if_pos h0] at h1 h2 ⊢
    rw [scanLoop_ret h1, scanLoop_ret h2]
    exact ⟨rfl, rfl⟩
  · rw [if_neg h0] at h1 h2 ⊢
    rw [scanLoop_next h1, scanLoop_skip h2]
    exact ⟨rfl, rfl⟩

/-- C21 against the table of `tests/test_basic.c`: `--threads=8` does what
`--threads 8` does, `--input=a=b` stores "a=b" and `--input=` the empty
string. -/
theorem C21_inline_witness :
    parse libc0 test_basic_options
        (some "prog".toList :: ([] ++ longEqTok "threads".toList "8".toList ::
          [some "extra".toList])) garbage test_basic_mem =
      parse libc0 test_basic_options
        (some "prog".toList :: ([] ++ longTok "threads".toList :: some "8".toList ::
          [some "extra".toList])) garbage test_basic_mem ∧
    (parse libc0 test_basic_options
        (some "prog".toList :: ([] ++ longEqTok "threads".toList "8".toList ::
          [some "extra".toList])) garbage test_basic_mem).mem.ints 1 = 8 ∧
    (parse libc0 test_basic_options
        [some "prog".toList, some "--input=a=b".toList] garbage test_basic_mem).mem.strs 0 =
      some "a=b".toList ∧
    (parse libc0 test_basic_options
        [some "prog".toList, some "--input=".toList] garbage test_basic_mem).mem.strs 0 =
      some [] :=
  ⟨(C21_inline_value_equivalent libc0 test_basic_options (some "prog".toList) []
      [some "extra".toList]
      ⟨some "threads".toList, 't', .OPT_INT, 1, some "Number of threads".toList, false⟩
      "threads".toList "8".toList garbage test_basic_mem (State.init test_basic_mem) rfl
      (by decide)
      ⟨[⟨some "verbose".toList, 'v', .OPT_FLAG, 0, some "Enable verbose".toList, false⟩],
        [⟨some "input".toList, 'i', .OPT_STRING, 0, some "Input file".toList, false⟩],
        rfl, rfl, by decide⟩
      (by decide)).1,
    by decide, by decide, by decide⟩

/-- C22, as stated, fails where the token is not scanned as an option: after
`--input` the token is consumed as the value, so `-v` and `--verbose` leave
different Text storages. -/
theorem C22_counterexample_value_position :
    (parse libc0 test_basic_options
      [some "prog".toList, some "--input".toList, some "-v".toList] garbage
      test_basic_mem).mem.strs 0 = some "-v".toList ∧
    (parse libc0 test_basic_options
      [some "prog".toList, some "--input".toList, some "--verbose".toList] garbage
      test_basic_mem).mem.strs 0 = some "--verbose".toList :=
  ⟨by decide, by decide⟩

/-- C22, amended. For a descriptor `o` that is the first of the table with
long name `n` and the first with short name `c`: when the scan reaches the
token `-c`, `cli_parse` does exactly what it does with `--n` in its place.
For a Flag both store 1 and go on with the next token; for a value-bearing
type both fail with "Option requires a value" when no token follows, and
otherwise coerce and store the next token and go on after it. -/
theorem C22_short_equals_long (lc : Libc) (opts : List Opt) (prog : Tok)
    (pre rest : List Tok) (o : Opt) (n : CStr) (c : Char) (r0 : ParseResult) (mem : Mem)
    (st1 : State)
    (hpre : scanPre lc opts pre (State.init mem) = some st1)
    (hn : LongName n) (hc : ShortName c)
    (hl : FirstLong opts n o) (hs : FirstShort opts c o) :
    parse lc opts (prog :: (pre ++ shortTok c [] :: rest)) r0 mem =
      parse lc opts (prog :: (pre ++ longTok n :: rest)) r0 mem ∧
    (o.type = .OPT_FLAG →
      parse lc opts (prog :: (pre ++ longTok n :: rest)) r0 mem =
        resume lc opts rest { st1 with mem := st1.mem.setInt o.value 1 }) ∧
    (o.type ≠ .OPT_FLAG →
      parse lc opts (prog :: (pre ++ [longTok n])) r0 mem =
        ⟨-1, some (st1.setError "Option requires a value").result, st1.mem⟩) ∧
    (o.type ≠ .OPT_FLAG → ∀ (v : Tok) (rest2 : List Tok),
      parse lc opts (prog :: (pre ++ longTok n :: v :: rest2)) r0 mem =
        (if (set_value lc o v st1).1 ≠ 0 then
          ⟨-1, some (set_value lc o v st1).2.result, (set_value lc o v st1).2.mem⟩
        else resume lc opts rest2 (set_value lc o v st1).2)) := by
  have hfl := find_long_option_firstLong hl
  have hfs := find_short_option_firstShort hs
  have hlong : ∀ r, step lc opts (longTok n) r st1 =
      (if o.type = .OPT_FLAG then .next { st1 with mem := st1.mem.setInt o.value 1 }
      else
        match r with
        | [] => .ret (-1) (st1.setError "Option requires a value")
        | v :: _ =>
          if (set_value lc o v st1).1 ≠ 0 then .ret (-1) (set_value lc o v st1).2
          else .skip (set_value lc o v st1).2) := by
    intro r
    rw [step_long hn, hfl]
  refine ⟨?_, ?_, ?_, ?_⟩
  · rw [parse_pre hpre prog _ r0, parse_pre hpre prog _ r0, resume, resume, scanLoop, scanLoop,
      step_long hn, step_short hc, hfl, hfs]
  · intro hf
    have h1 := hlong rest
    rw [if_pos hf] at h1
    rw [parse_pre hpre prog _ r0, resume, scanLoop_next h1, resume]
  · intro hf
    have h1 := hlong []
    rw [if_neg hf] at h1
    rw [parse_pre hpre prog _ r0, resume, scanLoop_ret h1]
    rfl
  · intro hf v rest2
    have h1 := hlong (v :: rest2)
    rw [if_neg hf] at h1
    dsimp only at h1
    rw [parse_pre hpre prog _ r0, resume]
    by_cases h0 : (set_value lc o v st1).1 ≠ 0
    · rw [if_pos h0] at h1 ⊢
      rw [scanLoop_ret h1]
      rfl
    · rw [if_neg h0] at h1 ⊢
      rw [scanLoop_skip h1, resume]

/-- C22, Scenario E: `-f` in `[prog, -f, --number, 42, --ratio, 3.14159,
--name, X]` against the table of `tests/test_types.c` does what `--flag` does
there; all four storages are set and there is no positional. -/
theorem C22_scenario_E :
    parse libc_pi test_types_options
        (some "prog".toList :: ([] ++ shortTok 'f' [] ::
          [some "--number".toList, some "42".toList, some "--ratio".toList,
            some "3.14159".toList, some "--name".toList, some "X".toList])) garbage mem0 =
      parse libc_pi test_types_options
        (some "prog".toList :: ([] ++ longTok "flag".toList ::
          [some "--number".toList, some "42".toList, some "--ratio".toList,
            some "3.14159".toList, some "--name".toList, some "X".toList])) garbage mem0 ∧
    (parse libc_pi test_types_options
        (some "prog".toList :: ([] ++ shortTok 'f' [] ::
          [some "--number".toList, some "42".toList, some "--ratio".toList,
            some "3.14159".toList, some "--name".toList, some "X".toList])) garbage
        mem0).code = 0 ∧
    (parse libc_pi test_types_options
        (some "prog".toList :: ([] ++ shortTok 'f' [] ::
          [some "--number".toList, some "42".toList, some "--ratio".toList,
            some "3.14159".toList, some "--name".toList, some "X".toList])) garbage
        mem0).mem.ints 0 = 1 ∧
    (parse libc_pi test_types_options
        (some "prog".toList :: ([] ++ shortTok 'f' [] ::
          [some "--number".toList, some "42".toList, some "--ratio".toList,
            some "3.14159".toList, some "--name".toList, some "X".toList])) garbage
        mem0).mem.ints 1 = 42 ∧
    (parse libc_pi test_types_options
        (some "prog".toList :: ([] ++ shortTok 'f' [] ::
          [some "--number".toList, some "42".toList, some "--ratio".toList,
            some "3.14159".toList, some "--name".toList, some "X".toList])) garbage
        mem0).mem.dbls 0 = ⟨0x400921F9F01B866E⟩ ∧
    (parse libc_pi test_types_options
        (some "prog".toList :: ([] ++ shortTok 'f' [] ::
          [some "--number".toList, some "42".toList, some "--ratio".toList,
            some "3.14159".toList, some "--name".toList, some "X".toList])) garbage
        mem0).mem.strs 0 = some "X".toList ∧
    (parse libc_pi test_types_options
        (some "prog".toList :: ([] ++ shortTok 'f' [] ::
          [some "--number".toList, some "42".toList, some "--ratio".toList,
            some "3.14159".toList, some "--name".toList, some "X".toList])) garbage
        mem0).result = some ⟨none, 0, none⟩ :=
  ⟨(C22_short_equals_long libc_pi test_types_options (some "prog".toList) []
      [some "--number".toList, some "42".toList, some "--ratio".toList,
        some "3.14159".toList, some "--name".toList, some "X".toList]
      ⟨some "flag".toList, 'f', .OPT_FLAG, 0, some "Boolean flag".toList, false⟩
      "flag".toList 'f' garbage mem0 (State.init mem0) rfl (by decide) (by decide)
      ⟨[], _, rfl, rfl, by decide⟩ ⟨[], _, rfl, rfl, by decide⟩).1,
    by decide, by decide, by decide, by decide, by decide, by decide⟩

/-- C23. When the scan reaches the option token of a Text descriptor (`--n`
without inline value, or `-c`) and a present token `v` follows, `cli_parse`
stores `v` itself in the Text variable and goes on with the token after `v`,
the positional list as it was: `v` is neither looked up as an option, nor
taken as the `--` marker, nor appended to the positionals, whatever its
characters. -/
theorem C23_text_value_verbatim (lc : Libc) (opts : List Opt) (prog : Tok)
    (pre rest : List Tok) (o : Opt) (tok : Tok) (v : CStr) (r0 : ParseResult) (mem : Mem)
    (st1 : State)
    (hpre : scanPre lc opts pre (State.init mem) = some st1)
    (hty : o.type = .OPT_STRING)
    (htok : (∃ n, LongName n ∧ FirstLong opts n o ∧ tok = longTok n) ∨
      (∃ c cs, ShortName c ∧ FirstShort opts c o ∧ tok = shortTok c cs)) :
    parse lc opts (prog :: (pre ++ tok :: some v :: rest)) r0 mem =
      resume lc opts rest { st1 with mem := st1.mem.setStr o.value (some v) } := by
  have hflag : o.type ≠ .OPT_FLAG := by rw [hty]; decide
  have hs : step lc opts tok (some v :: rest) st1 =
      .skip { st1 with mem := st1.mem.setStr o.value (some v) } := by
    rcases htok with ⟨n, hn, hl, rfl⟩ | ⟨c, cs, hc, hsh, rfl⟩
    · rw [step_long hn, find_long_option_firstLong hl]
      simp [hflag, set_value_string hty]
    · rw [step_short hc, find_short_option_firstShort hsh]
      simp [hflag, set_value_string hty]
  rw [parse_pre hpre prog _ r0, resume, scanLoop_skip hs, resume]

/-- C23 against the table of `tests/test_basic.c`: `[prog, --input,
--verbose]` stores "--verbose" in `input` and leaves `verbose` 0; in `[prog,
-i, --, extra]` the value is "--" and `extra` is the one positional. -/
theorem C23_text_value_witness :
    (parse libc0 test_basic_options
        (some "prog".toList :: ([] ++ longTok "input".toList :: some "--verbose".toList :: []))
        garbage test_basic_mem).mem.strs 0 = some "--verbose".toList ∧
    (parse libc0 test_basic_options
        (some "prog".toList :: ([] ++ longTok "input".toList :: some "--verbose".toList :: []))
        garbage test_basic_mem).mem.ints 0 = 0 ∧
    (parse libc0 test_basic_options
        (some "prog".toList :: ([] ++ longTok "input".toList :: some "--verbose".toList :: []))
        garbage test_basic_mem).result = some ⟨none, 0, none⟩ ∧
    (parse libc0 test_basic_options
        (some "prog".toList :: ([] ++ shortTok 'i' [] :: some "--".toList ::
          [some "extra".toList])) garbage test_basic_mem).mem.strs 0 = some "--".toList ∧
    (parse libc0 test_basic_options
        (some "prog".toList :: ([] ++ shortTok 'i' [] :: some "--".toList ::
          [some "extra".toList])) garbage test_basic_mem).result =
      some ⟨some [some "extra".toList], 1, none⟩ := by
  have h1 := C23_text_value_verbatim libc0 test_basic_options (some "prog".toList) [] []
    ⟨some "input".toList, 'i', .OPT_STRING, 0, some "Input file".toList, false⟩
    (longTok "input".toList) "--verbose".toList garbage test_basic_mem
    (State.init test_basic_mem) rfl rfl
    (Or.inl ⟨"input".toList, by decide,
      ⟨[⟨some "verbose".toList, 'v', .OPT_FLAG, 0, some "Enable verbose".toList, false⟩,
        ⟨some "threads".toList, 't', .OPT_INT, 1, some "Number of threads".toList, false⟩],
        [], rfl, rfl, by decide⟩, rfl⟩)
  have h2 := C23_text_value_verbatim libc0 test_basic_options (some "prog".toList) []
    [some "extra".toList]
    ⟨some "input".toList, 'i', .OPT_STRING, 0, some "Input file".toList, false⟩
    (shortTok 'i' []) "--".toList garbage test_basic_mem
    (State.init test_basic_mem) rfl rfl
    (Or.inr ⟨'i', [], by decide,
      ⟨[⟨some "verbose".toList, 'v', .OPT_FLAG, 0, some "Enable verbose".toList, false⟩,
        ⟨some "threads".toList, 't', .OPT_INT, 1, some "Number of threads".toList, false⟩],
        [], rfl, rfl, by decide⟩, rfl⟩)
  rw [h1, h2]
  exact ⟨by decide, by decide, by decide, by decide, by decide⟩

/-- C26 fails on the third documented example: the table of
`examples/network_tool.c` binds `method` to `-X` / `--request`, so on
`--method` `cli_parse` returns -1 with "Unknown option", `method` still
"GET" (only `verbose` was set); with `--request` in its place the call does
what the claim says.  The four other examples parse with return code 0. -/
theorem C26_method_example_fails :
    (parse libc0 network_tool_options
      [some "./network_tool".toList, some "-v".toList, some "--method".toList,
        some "POST".toList, some "--data".toList, some "hello=world".toList,
        some "https://httpbin.org/post".toList] garbage network_tool_mem).code = -1 ∧
    (parse libc0 network_tool_options
      [some "./network_tool".toList, some "-v".toList, some "--method".toList,
        some "POST".toList, some "--data".toList, some "hello=world".toList,
        some "https://httpbin.org/post".toList] garbage network_tool_mem).result =
      some ⟨none, 0, some "Unknown option"⟩ ∧
    (parse libc0 network_tool_options
      [some "./network_tool".toList, some "-v".toList, some "--method".toList,
        some "POST".toList, some "--data".toList, some "hello=world".toList,
        some "https://httpbin.org/post".toList] garbage network_tool_mem).mem.strs 0 =
      some "GET".toList ∧
    (parse libc0 network_tool_options
      [some "./network_tool".toList, some "-v".toList, some "--request".toList,
        some "POST".toList, some "--data".toList, some "hello=world".toList,
        some "https://httpbin.org/post".toList] garbage network_tool_mem).code = 0 ∧
    (parse libc0 network_tool_options
      [some "./network_tool".toList, some "-v".toList, some "--request".toList,
        some "POST".toList, some "--data".toList, some "hello=world".toList,
        some "https://httpbin.org/post".toList] garbage network_tool_mem).mem.strs 0 =
      some "POST".toList ∧
    (parse libc0 network_tool_options
      [some "./network_tool".toList, some "-v".toList, some "--request".toList,
        some "POST".toList, some "--data".toList, some "hello=world".toList,
        some "https://httpbin.org/post".toList] garbage network_tool_mem).mem.strs 4 =
      some "hello=world".toList ∧
    (parse libc0 network_tool_options
      [some "./network_tool".toList, some "-v".toList, some "--request".toList,
        some "POST".toList, some "--data".toList, some "hello=world".toList,
        some "https://httpbin.org/post".toList] garbage network_tool_mem).result =
      some ⟨some [some "https://httpbin.org/post".toList], 1, none⟩ ∧
    (parse libc0 network_tool_options
      [some "./network_tool".toList, some "--help".toList] garbage
      network_tool_mem).code = 0 ∧
    (parse libc0 network_tool_options
      [some "./network_tool".toList, some "https://httpbin.org/get".toList] garbage
      network_tool_mem).code = 0 ∧
    (parse libc0 network_tool_options
      [some "./network_tool".toList, some "-L".toList, some "--max-time".toList,
        some "60".toList, some "--retry".toList, some "5".toList,
        some "https://example.com".toList, some "https://google.com".toList] garbage
      network_tool_mem).code = 0 ∧
    (parse libc0 network_tool_options
      [some "./network_tool".toList, some "-k".toList, some "--insecure".toList,
        some "--header".toList, some "Authorization: Bearer token".toList,
        some "https://api.example.com/data".toList] garbage network_tool_mem).code = 0 := by
  refine ⟨?_, ?_, ?_, ?_, ?_, ?_, ?_, ?_, ?_, ?_, ?_⟩ <;> decide

/-- C24, as stated, fails twice: the empty inline value of `--number=` is
accepted and stores 0 (over the 7 held before), `strtol` converting nothing
and `*end` standing at the terminator; and " 12" is accepted and stores 12,
`strtol` skipping leading white space. -/
theorem C24_counterexample_empty_and_space :
    (parse libc0 test_integer_options [some "test".toList, some "--number=".toList]
      garbage (mem0.setInt 1 7)).code = 0 ∧
    (parse libc0 test_integer_options [some "test".toList, some "--number=".toList]
      garbage (mem0.setInt 1 7)).mem.ints 1 = 0 ∧
    (parse libc0 test_integer_options
      [some "test".toList, some "--number".toList, some " 12".toList]
      garbage (mem0.setInt 1 7)).code = 0 ∧
    (parse libc0 test_integer_options
      [some "test".toList, some "--number".toList, some " 12".toList]
      garbage (mem0.setInt 1 7)).mem.ints 1 = 12 :=
  ⟨by decide, by decide, by decide, by decide⟩

/-- C24, amended. For a non-empty value string `v` supplied to an Integer
option: `cli_parse` stores a value exactly when `v`, after its leading white
space if any, is a decimal numeral (optional sign, one or more digits,
nothing else) denoting an integer in `[INT_MIN, INT_MAX]`; the value stored
is that integer and `cli_parse` goes on with the tokens after; every other
non-empty `v` makes it return -1 with an integer diagnostic and store
nothing. -/
theorem C24_integer_written_iff_numeral (lc : Libc) (opts : List Opt) (prog : Tok)
    (pre rest toks : List Tok) (o : Opt) (v : CStr) (r0 : ParseResult) (mem : Mem)
    (st1 : State)
    (hpre : scanPre lc opts pre (State.init mem) = some st1)
    (hty : o.type = .OPT_INT) (hsup : Supplies opts o v toks) (hne : v ≠ []) :
    ((set_value lc o (some v) st1).1 = 0 ↔
      IsNumeral (v.dropWhile isspace) ∧ INT_MIN ≤ numeralValue (v.dropWhile isspace) ∧
        numeralValue (v.dropWhile isspace) ≤ INT_MAX) ∧
    (IsNumeral (v.dropWhile isspace) ∧ INT_MIN ≤ numeralValue (v.dropWhile isspace) ∧
        numeralValue (v.dropWhile isspace) ≤ INT_MAX →
      parse lc opts (prog :: (pre ++ (toks ++ rest))) r0 mem =
        resume lc opts rest
          { st1 with mem := st1.mem.setInt o.value (numeralValue (v.dropWhile isspace)) }) ∧
    (¬(IsNumeral (v.dropWhile isspace) ∧ INT_MIN ≤ numeralValue (v.dropWhile isspace) ∧
        numeralValue (v.dropWhile isspace) ≤ INT_MAX) →
      (parse lc opts (prog :: (pre ++ (toks ++ rest))) r0 mem).code = -1 ∧
      (parse lc opts (prog :: (pre ++ (toks ++ rest))) r0 mem).mem = st1.mem ∧
      ∃ r, (parse lc opts (prog :: (pre ++ (toks ++ rest))) r0 mem).result = some r ∧
        (r.error = some "Invalid integer value" ∨
          r.error = some "Integer value out of range")) := by
  have hflag : o.type ≠ .OPT_FLAG := by rw [hty]; decide
  have hgood : IsNumeral (v.dropWhile isspace) ∧
      INT_MIN ≤ numeralValue (v.dropWhile isspace) ∧
        numeralValue (v.dropWhile isspace) ≤ INT_MAX →
      set_value lc o (some v) st1 =
        (0, { st1 with
          mem := st1.mem.setInt o.value (numeralValue (v.dropWhile isspace)) }) := by
    intro h
    rw [set_value_int hty lc v, strtol_skip_space h.1,
      ← set_value_int hty lc (v.dropWhile isspace), set_value_numeral hty lc h.1,
      if_pos h.2]
  have hbad : ¬(IsNumeral (v.dropWhile isspace) ∧
      INT_MIN ≤ numeralValue (v.dropWhile isspace) ∧
        numeralValue (v.dropWhile isspace) ≤ INT_MAX) →
      ∃ msg, set_value lc o (some v) st1 = (-1, st1.setError msg) ∧
        (msg = "Invalid integer value" ∨ msg = "Integer value out of range") := by
    intro h
    by_cases hu : IsNumeral (v.dropWhile isspace)
    · refine ⟨_, ?_, Or.inr rfl⟩
      rw [set_value_int hty lc v, strtol_skip_space hu,
        ← set_value_int hty lc (v.dropWhile isspace), set_value_numeral hty lc hu,
        if_neg (fun hr => h ⟨hu, hr⟩)]
    · have hend := strtol_endp_of_not_numeral hne hu
      rw [set_value_int hty lc v]
      by_cases h3 : (strtol v).erange = true ∨ (strtol v).val > INT_MAX ∨
          (strtol v).val < INT_MIN
      · exact ⟨_, by rw [if_pos h3], Or.inr rfl⟩
      · exact ⟨_, by rw [if_neg h3, if_pos hend], Or.inl rfl⟩
  refine ⟨?_, ?_, ?_⟩
  · constructor
    · intro h0
      by_contra hc
      obtain ⟨msg, hm, _⟩ := hbad hc
      rw [hm] at h0
      have h1 : (-1 : Int) = 0 := h0
      exact absurd h1 (by decide)
    · intro h
      rw [hgood h]
  · intro h
    rw [parse_pre hpre prog _ r0, resume, scanLoop_supply hsup hflag, hgood h]
    simp [resume]
  · intro h
    obtain ⟨msg, hm, hmsg⟩ := hbad h
    have hne1 : ((-1 : Int), st1.setError msg).1 ≠ 0 := by
      show ((-1 : Int) ≠ 0)
      decide
    rw [parse_pre hpre prog _ r0, resume, scanLoop_supply hsup hflag, hm, if_pos hne1]
    refine ⟨rfl, rfl, _, rfl, ?_⟩
    rcases hmsg with rfl | rfl
    · exact Or.inl rfl
    · exact Or.inr rfl

/-- C24 against the table of `test_invalid_integer`: `--number 42` stores 42,
`--number 4x2` is rejected and stores nothing. -/
theorem C24_integer_witness :
    (parse libc0 test_integer_options
      (some "test".toList :: ([] ++ ([longTok "number".toList, some "42".toList] ++ [])))
      garbage (mem0.setInt 1 7)).mem.ints 1 = 42 ∧
    (parse libc0 test_integer_options
      (some "test".toList :: ([] ++ ([longTok "number".toList, some "4x2".toList] ++ [])))
      garbage (mem0.setInt 1 7)).code = -1 ∧
    (parse libc0 test_integer_options
      (some "test".toList :: ([] ++ ([longTok "number".toList, some "4x2".toList] ++ [])))
      garbage (mem0.setInt 1 7)).mem.ints 1 = 7 := by
  have h1 := (C24_integer_written_iff_numeral libc0 test_integer_options
    (some "test".toList) [] [] [longTok "number".toList, some "42".toList]
    ⟨some "number".toList, 'n', .OPT_INT, 1, some "Number".toList, false⟩ "42".toList
    garbage (mem0.setInt 1 7) (State.init (mem0.setInt 1 7)) rfl rfl
    (Or.inl ⟨"number".toList, by decide, by decide, rfl⟩) (by decide)).2.1 (by decide)
  have h2 := (C24_integer_written_iff_numeral libc0 test_integer_options
    (some "test".toList) [] [] [longTok "number".toList, some "4x2".toList]
    ⟨some "number".toList, 'n', .OPT_INT, 1, some "Number".toList, false⟩ "4x2".toList
    garbage (mem0.setInt 1 7) (State.init (mem0.setInt 1 7)) rfl rfl
    (Or.inl ⟨"number".toList, by decide, by decide, rfl⟩) (by decide)).2.2 (by decide)
  refine ⟨by rw [h1]; decide, h2.1, by rw [h2.2.1]; rfl⟩

/-- C25 fails after the `--` marker: on `[prog, --, NULL]` `cli_parse`
returns 0 with the absent token as its one positional, the loop after the
marker having no test for `NULL`.  Elsewhere the claim holds: an absent token
the scan reaches makes `cli_parse` return -1 with "NULL argument
encountered", and an absent token directly after the option token of a
value-bearing descriptor makes it return -1 with that type's "... option
requires a value", nothing stored. -/
theorem C25_null_after_marker_accepted :
    ((parse libc0 test_basic_options [some "prog".toList, some "--".toList, none] garbage
        test_basic_mem).code = 0 ∧
      (parse libc0 test_basic_options [some "prog".toList, some "--".toList, none] garbage
        test_basic_mem).result = some ⟨some [none], 1, none⟩) ∧
    (∀ (lc : Libc) (opts : List Opt) (prog : Tok) (pre rest : List Tok) (r0 : ParseResult)
        (mem : Mem) (st1 : State),
      scanPre lc opts pre (State.init mem) = some st1 →
      (parse lc opts (prog :: (pre ++ none :: rest)) r0 mem).code = -1 ∧
      ∃ r, (parse lc opts (prog :: (pre ++ none :: rest)) r0 mem).result = some r ∧
        r.error = some "NULL argument encountered" ∧ r.positionals = st1.result.positionals) ∧
    (∀ (lc : Libc) (opts : List Opt) (prog : Tok) (pre rest : List Tok) (o : Opt) (tok : Tok)
        (r0 : ParseResult) (mem : Mem) (st1 : State),
      scanPre lc opts pre (State.init mem) = some st1 →
      o.type ≠ .OPT_FLAG →
      ((∃ n, LongName n ∧ FirstLong opts n o ∧ tok = longTok n) ∨
        (∃ c cs, ShortName c ∧ FirstShort opts c o ∧ tok = shortTok c cs)) →
      (parse lc opts (prog :: (pre ++ tok :: none :: rest)) r0 mem).code = -1 ∧
      (parse lc opts (prog :: (pre ++ tok :: none :: rest)) r0 mem).mem = st1.mem ∧
      ∃ r, (parse lc opts (prog :: (pre ++ tok :: none :: rest)) r0 mem).result = some r ∧
        r.positionals = st1.result.positionals ∧
        (r.error = some "Integer option requires a value" ∨
          r.error = some "Double option requires a value" ∨
          r.error = some "String option requires a value")) := by
  refine ⟨⟨by decide, by decide⟩, ?_, ?_⟩
  · intro lc opts prog pre rest r0 mem st1 hpre
    rw [parse_pre hpre prog _ r0, resume, scanLoop_ret (step_null lc opts rest st1)]
    exact ⟨rfl, _, rfl, rfl, rfl⟩
  · intro lc opts prog pre rest o tok r0 mem st1 hpre hty htok
    obtain ⟨hcode, hmem, hargs, herr⟩ := @set_value_null lc o hty st1
    have hfail : (set_value lc o none st1).1 ≠ 0 := by rw [hcode]; decide
    have hs : step lc opts tok (none :: rest) st1 = .ret (-1) (set_value lc o none st1).2 := by
      rcases htok with ⟨n, hn, hl, rfl⟩ | ⟨c, cs, hc, hsh, rfl⟩
      · rw [step_long hn, find_long_option_firstLong hl]
        simp only [hty, if_false, if_pos hfail]
      · rw [step_short hc, find_short_option_firstShort hsh]
        simp only [hty, if_false, if_pos hfail]
    rw [parse_pre hpre prog _ r0, resume, scanLoop_ret hs]
    exact ⟨rfl, hmem, _, rfl, by simp [ParseResult.positionals, hargs], herr⟩

end SmartArgs
